import Mathlib

/-! Lava protocol: share accounting, allocation and divestment

A shallow embedding of the arithmetic found in the Lava front end
(`src/components`, `src/app`, `src/lib`) and in the Hardhat scripts
(`src/scripts`), together with a model of the vault routers that the scripts
exercise.  On-chain quantities (`uint256`) are natural numbers; JavaScript
`bigint` values that may be negative are integers, with `Int.tdiv` for the
truncating BigInt division.
-/

namespace Lava

/-! ## Share arithmetic of the dashboard (`src/components/CrossChainDashboard.tsx`) -/

/-- The share formula that `calculateExpectedShares` has in lines 124-130, taken
by itself: the deposit itself when `Number(totalSupply) === 0`, otherwise the
BigInt quotient `(depositWei * totalSupply) / totalAssets`.  `none` is the
`RangeError` that a BigInt division by zero throws.  The guard of line 116 is
not part of it: inside `calculateExpectedShares` these lines are reached with
`totalAssets` and `totalSupply` both non-zero only, so the first branch and the
`RangeError` are never taken there. -/
def expectedShares (depositWei totalAssets totalSupply : Nat) : Option Nat :=
  if totalSupply = 0 then some depositWei
  else if totalAssets = 0 then none
  else some (depositWei * totalSupply / totalAssets)

/-- What `calculateExpectedShares` has in hand when it reaches its display
formatting: the early `return '0'` (no share count was computed), a thrown
`RangeError`, or the BigInt `expectedShares`. -/
inductive ShareEstimate where
  | zeroPlaceholder : ShareEstimate
  | rangeError : ShareEstimate
  | shares (n : Nat) : ShareEstimate
  deriving DecidableEq, Repr

/-- The function `calculateExpectedShares` (lines 115-130), up to the display
formatting.  `depositWei` is the parsed deposit: `none` when the amount string is
empty or `parseFloat` gives a value `<= 0` (lines 116 and 119), otherwise
`BigInt(Math.floor(depositValue * 1e18))` (line 122).  `totalAssets` and
`totalSupply` are `bigint | undefined`; the guard `!totalAssets || !totalSupply`
of line 116 is true for `undefined` and for `0n`. -/
def calculateExpectedShares (depositWei totalAssets totalSupply : Option Nat) :
    ShareEstimate :=
  match depositWei, totalAssets, totalSupply with
  | some d, some ta, some ts =>
    if ta = 0 ∨ ts = 0 then ShareEstimate.zeroPlaceholder
    else
      match expectedShares d ta ts with
      | some n => ShareEstimate.shares n
      | none => ShareEstimate.rangeError
  | _, _, _ => ShareEstimate.zeroPlaceholder

/-- The `expectedAssets` of `doWithdrawAll` (lines 447-449): the JavaScript
chain `userShares && totalSupply && totalAssets && totalSupply > 0n` is falsy
for `undefined` and for `0n`; when it holds the value is the BigInt quotient
`(userShares * totalAssets) / totalSupply`, otherwise `BigInt(0)`. -/
def expectedAssets (userShares totalSupply totalAssets : Option Nat) : Nat :=
  match userShares, totalSupply, totalAssets with
  | some us, some ts, some ta =>
    if us ≠ 0 ∧ ts ≠ 0 ∧ ta ≠ 0 ∧ 0 < ts then us * ta / ts else 0
  | _, _, _ => 0

/-! ## The calculations page (`src/app/calculations/page.tsx`) -/

/-- The memo `exSharesMinted` (lines 141-144), with the `Number` arithmetic
taken as exact: the example deposit itself when `totalAssets` or `totalSupply`
is missing or zero, otherwise
`Math.floor((exDepositWc * Number(totalSupply)) / Number(totalAssets))`. -/
def exSharesMinted (exDepositWc : Int) (totalAssets totalSupply : Option Nat) : Int :=
  match totalAssets, totalSupply with
  | some ta, some ts =>
    if ta = 0 ∨ ts = 0 then exDepositWc else exDepositWc * (ts : Int) / (ta : Int)
  | _, _ => exDepositWc

/-- The formula the calculations page prints among its key formulas (line 187),
`Shares Minted = supply == 0 ? deposit : (deposit × totalSupply) / totalAssets`,
with the quotient rounded down. -/
def sharesMintedFormula (deposit totalAssets totalSupply : Nat) : Nat :=
  if totalSupply = 0 then deposit else deposit * totalSupply / totalAssets

/-! ## Diagnostic scripts (`src/scripts`) -/

/-- The `userAssets` of `debug_routedivest_issue.js` (line 30),
`investigate_balance_issue.js` (line 29) and `diagnose_withdrawal_issue.js`
(line 37): `totalSupply > 0n ? (userShares * totalAssets) / totalSupply : 0n`. -/
def userAssets (userShares totalAssets totalSupply : Nat) : Nat :=
  if 0 < totalSupply then userShares * totalAssets / totalSupply else 0

/-- A row of `getStrategies()` as the diagnostic scripts read it when every
entry of their balance array belongs to the strategy with the same index: the
`enabled` flag of the strategy and the balance pushed for it, which is the
`totalAssets()` its adapter reports (`0n` when that read throws inside the `try`
of `debug_routedivest_execution.js`, lines 63-72). -/
structure StrategyReading where
  enabled : Bool
  adapterAssets : Nat
  deriving DecidableEq, Repr

/-- The array `strategyBalances` that `debug_routedivest_execution.js` (lines
57-73) and `investigate_balance_issue.js` (lines 50-62) build, one entry per
strategy: `0n` for a disabled strategy, the adapter's `totalAssets()` for an
enabled one.  `debug_routedivest_issue.js` builds the same array as long as no
call after `totalAssets()` throws; its own loop, with the second push of its
`catch`, is `probedBalances`. -/
def strategyBalances (rows : List StrategyReading) : List Nat :=
  rows.map fun r => if r.enabled then r.adapterAssets else 0

/-- The accumulator `totalStrategyAssets` of the same loops: the adapter assets
of the enabled strategies, added up. -/
def totalStrategyAssets (rows : List StrategyReading) : Nat :=
  ((rows.filter fun r => r.enabled).map fun r => r.adapterAssets).sum

/-- The rows the pull loop does not skip: the test
`!strategyInfos[i].enabled || strategyBalances[i] === 0n` fails for them. -/
def eligibleRows (rows : List StrategyReading) : List StrategyReading :=
  rows.filter fun r => r.enabled && r.adapterAssets != 0

/-- One proportional pull, `(need * strategyBalances[i]) / totalStrategyAssets`
in BigInt arithmetic (`debug_routedivest_issue.js` line 122,
`debug_routedivest_execution.js` line 85, `investigate_balance_issue.js`
line 74).  `need` is a difference of two reads and may be negative. -/
def pull (need : Int) (balance total : Nat) : Int :=
  Int.tdiv (need * (balance : Int)) (total : Int)

/-- The pulls the `_routeDivest` simulation prints, in registry order, when the
balance array has one entry per strategy: none when
`totalStrategyAssets === 0n`, otherwise one `pull` for every enabled strategy
with a non-zero balance. -/
def routeDivestPulls (need : Int) (rows : List StrategyReading) : List Int :=
  if totalStrategyAssets rows = 0 then []
  else (eligibleRows rows).map fun r => pull need r.adapterAssets (totalStrategyAssets rows)

/-- What the `try` block of `debug_routedivest_issue.js` (lines 61-100) comes to
for one enabled strategy.  `unread`: `getContractAt` or `totalAssets()` throws,
and the `catch` pushes `0n` (line 99).  `complete`: the block runs to its end
with `adapterAssets` pushed (line 64) and added to the total (line 65).
`interrupted`: `adapterAssets` was pushed and added, and a later call of the
block (`underlying()`, `pool()`, `balanceOf`, lines 70-72, or the inner `catch`
of lines 88-94) throws, so the `catch` pushes a second entry, `0n`. -/
inductive AdapterRead where
  | unread : AdapterRead
  | complete (adapterAssets : Nat) : AdapterRead
  | interrupted (adapterAssets : Nat) : AdapterRead
  deriving DecidableEq, Repr

/-- A strategy as `debug_routedivest_issue.js` meets it: the `enabled` flag of
`strategyInfos[i]` and what reading its adapter comes to (not looked at for a
disabled strategy). -/
structure StrategyProbe where
  enabled : Bool
  read : AdapterRead
  deriving DecidableEq, Repr

/-- The entries one strategy adds to `strategyBalances` in
`debug_routedivest_issue.js` (lines 52-55 and 61-100). -/
def pushedBalances (p : StrategyProbe) : List Nat :=
  if !p.enabled then [0]
  else
    match p.read with
    | AdapterRead.unread => [0]
    | AdapterRead.complete adapterAssets => [adapterAssets]
    | AdapterRead.interrupted adapterAssets => [adapterAssets, 0]

/-- The array `strategyBalances` of `debug_routedivest_issue.js` after the loop
of lines 50-101: the entries pushed for each strategy, in order.  After an
interrupted read the entries of the later strategies sit one index higher. -/
def probedBalances : List StrategyProbe → List Nat
  | [] => []
  | p :: ps => pushedBalances p ++ probedBalances ps

/-- The accumulator `totalStrategyAssets` of `debug_routedivest_issue.js` (line
65): the adapter assets of every enabled strategy whose `totalAssets()` was
read. -/
def probedTotal : List StrategyProbe → Nat
  | [] => 0
  | p :: ps =>
    (if !p.enabled then 0
     else
      match p.read with
      | AdapterRead.unread => 0
      | AdapterRead.complete adapterAssets => adapterAssets
      | AdapterRead.interrupted adapterAssets => adapterAssets) + probedTotal ps

/-- The pulls `debug_routedivest_issue.js` prints (lines 115-130): none when
`totalStrategyAssets === 0n`; otherwise, for every index `i` of a strategy, in
order, with `strategyInfos[i].enabled` and `strategyBalances[i] !== 0n`, the
`pull` of `strategyBalances[i]`.  Strategy `i` is paired with entry `i` of the
array, whatever strategy that entry was pushed for. -/
def probedPulls (need : Int) (probes : List StrategyProbe) : List Int :=
  if probedTotal probes = 0 then []
  else
    ((probes.zip (probedBalances probes)).filter fun pb => pb.1.enabled && pb.2 != 0).map
      fun pb => pull need pb.2 (probedTotal probes)

/-- Whether the balance array stays lined up with the strategies: no enabled
strategy has an interrupted read. -/
def StrategyProbe.aligned (p : StrategyProbe) : Bool :=
  !p.enabled ||
    match p.read with
    | AdapterRead.interrupted _ => false
    | _ => true

/-- The row of a strategy whose read was not interrupted: its flag and the
balance pushed for it. -/
def StrategyProbe.reading (p : StrategyProbe) : StrategyReading :=
  { enabled := p.enabled
    adapterAssets :=
      match p.read with
      | AdapterRead.unread => 0
      | AdapterRead.complete adapterAssets => adapterAssets
      | AdapterRead.interrupted adapterAssets => adapterAssets }

/-- The helper `approxEq` of `test_portfolio.js` (lines 6-10): the verdict `ok`,
`|actual - expectedNum| <= tol`. -/
def approxEq (actual expectedNum tol : Int) : Bool :=
  let diff := if actual > expectedNum then actual - expectedNum else expectedNum - actual
  decide (diff ≤ tol)

/-- The default `tol = 5n` of `approxEq`, which every call of the test uses. -/
def defaultTol : Int := 5

/-- The four expectations of `test_portfolio.js` (lines 74-77) for a deposit:
reserve `deposit * reserveBps / 10000`, then Zentra, Satsuma and Cross-Chain at
3000, 2500 and 2500 bps. -/
def expectReserve (deposit reserveBps : Nat) : Nat := deposit * reserveBps / 10000

/-- The expectation `expectZentra` of `test_portfolio.js` (line 75). -/
def expectZentra (deposit : Nat) : Nat := deposit * 3000 / 10000

/-- The expectation `expectSatsuma` of `test_portfolio.js` (line 76). -/
def expectSatsuma (deposit : Nat) : Nat := deposit * 2500 / 10000

/-- The expectation `expectCross` of `test_portfolio.js` (line 77). -/
def expectCross (deposit : Nat) : Nat := deposit * 2500 / 10000

/-! ## The ledger conversions as the specification words them (section 4.1) -/

namespace Spec

/-- Modelled from the spec: the LedgerAccounting conversion
`assetsForShares(shares, totalAssets, totalShares)` of section 4.1, whose
contract code is not among the sources: `0` if `totalShares == 0`, else
`floor(shares * totalAssets / totalShares)`. -/
def assetsForShares (shares totalAssets totalShares : Nat) : Nat :=
  if totalShares = 0 then 0 else shares * totalAssets / totalShares

/-- Modelled from the spec: the LedgerAccounting conversion
`sharesForDeposit(assets, totalAssets, totalShares)` of section 4.1, whose
contract code is not among the sources: `assets` if `totalShares == 0` (1:1
bootstrap), else `floor(assets * totalShares / totalAssets)`; it fails (here
`none`, the `DivisionDegenerate` failure) only if `totalAssets == 0` while
`totalShares > 0`. -/
def sharesForDeposit (assets totalAssets totalShares : Nat) : Option Nat :=
  if totalShares = 0 then some assets
  else if totalAssets = 0 then none
  else some (assets * totalShares / totalAssets)

end Spec

/-! ## The vault routers (sections 3, 4.2, 4.3 and 4.5 of the specification)

The contracts `LavaPortfolioVault` and `LavaCrossChainVault` that the scripts
call are not among the sources; the definitions below follow the
specification. -/

/-- Modelled from the spec: the error taxonomy of section 7, with the
`DivisionDegenerate` of section 4.1. -/
inductive VaultError where
  | InvalidAmount : VaultError
  | InvalidAllocation : VaultError
  | InsufficientLiquidity : VaultError
  | Unauthorized : VaultError
  | OraclePriceUnavailable : VaultError
  | HealthFactorViolation : VaultError
  | DivisionDegenerate : VaultError
  deriving DecidableEq, Repr

/-- Modelled from the spec: a StrategyRegistry row
`{id, adapterRef, allocationBps, enabled}` (section 3). -/
structure StrategyEntry where
  id : Nat
  adapterRef : Nat
  allocationBps : Nat
  enabled : Bool
  deriving DecidableEq, Repr

/-- The enabled rows of a registry, in registry order. -/
def enabledEntries (registry : List StrategyEntry) : List StrategyEntry :=
  registry.filter fun e => e.enabled

/-- The sum `totalEnabledBps` of the allocation bps of the enabled rows. -/
def totalEnabledBps (registry : List StrategyEntry) : Nat :=
  ((enabledEntries registry).map fun e => e.allocationBps).sum

/-- Modelled from the spec: steps 3 and 4 of the AllocationRouter (section 4.2),
whose contract code is not among the sources.  Over the enabled entries in
registry order, with `prior` the portions handed out so far: every entry except
the last gets `floor(remaining * allocationBps / totalEnabledBps)`, the last
gets `remaining - prior`. -/
def portionsFrom (remaining totalBps : Nat) : List StrategyEntry → Nat → List Nat
  | [], _ => []
  | [_], prior => [remaining - prior]
  | e :: e' :: es, prior =>
    let portion := remaining * e.allocationBps / totalBps
    portion :: portionsFrom remaining totalBps (e' :: es) (prior + portion)

/-- The outcome of an allocation: the amount kept in reserve and the portions of
the enabled strategies, in registry order. -/
structure Allocation where
  reserveAmt : Nat
  portions : List Nat
  deriving DecidableEq, Repr

/-- Modelled from the spec: the AllocationRouter of section 4.2, whose contract
code is not among the sources.  `reserveAmt = floor(D * reserveBps / 10000)`,
`remaining = D - reserveAmt`, the portions as in `portionsFrom`; if no strategy
is enabled, 100% goes to reserve. -/
def allocate (reserveBps : Nat) (registry : List StrategyEntry) (D : Nat) : Allocation :=
  if (enabledEntries registry).isEmpty then { reserveAmt := D, portions := [] }
  else
    let reserveAmt := D * reserveBps / 10000
    let remaining := D - reserveAmt
    { reserveAmt := reserveAmt
      portions := portionsFrom remaining (totalEnabledBps registry) (enabledEntries registry) 0 }

/-- Modelled from the spec: a strategy as the vault holds it, the registry row
together with the amount its adapter reports through `totalAssets()`. -/
structure Strategy where
  entry : StrategyEntry
  assets : Nat
  deriving DecidableEq, Repr

/-- Modelled from the spec: the CrossChainPosition of section 3. -/
structure CrossChainPosition where
  collateralBalance : Nat
  debtValue : Nat
  bridgedValue : Nat
  deriving DecidableEq, Repr

/-- Modelled from the spec: the Vault of section 3, whose contract code is not
among the sources.  `totalAssets` is the stored NAV, `reserveBalance` the liquid
amount held at the vault, `balanceOf` the share ledger. -/
structure Vault where
  totalAssets : Nat
  totalShares : Nat
  reserveBps : Nat
  reserveBalance : Nat
  strategies : List Strategy
  balanceOf : Nat → Nat
  position : CrossChainPosition

/-- The sum of `totalAssets()` over all strategy adapters. -/
def strategyAssets (ss : List Strategy) : Nat :=
  (ss.map fun s => s.assets).sum

/-- The sum `totalStrategyAssets = Σ(enabled strategy.totalAssets())` of
section 4.3, step 2. -/
def enabledStrategyAssets (ss : List Strategy) : Nat :=
  ((ss.filter fun s => s.entry.enabled).map fun s => s.assets).sum

/-- What a vault operation gives back: its result (a value or a failure of the
taxonomy) and the state it leaves.  A failed operation leaves the state it
started from. -/
structure Outcome where
  result : Except VaultError Nat
  state : Vault

/-- Modelled from the spec: `invest(amount)` on the adapters (section 4.2,
step 3).  The portions, in order, are added to the enabled strategies, in
registry order; disabled strategies are passed over. -/
def investAll : List Strategy → List Nat → List Strategy
  | [], _ => []
  | s :: ss, ps =>
    if s.entry.enabled then
      match ps with
      | p :: ps' => { s with assets := s.assets + p } :: investAll ss ps'
      | [] => s :: investAll ss []
    else s :: investAll ss ps

/-- Modelled from the spec: the operation `deposit(receiver) -> shares` of
sections 4.1, 4.2 and 6, whose contract code is not among the sources.  A
deposit of `D == 0` fails with `InvalidAmount`; the shares are
`sharesForDeposit(D, totalAssets, totalShares)`; the AllocationRouter splits `D`
between the reserve and the enabled strategies; NAV grows by `D`. -/
def deposit (receiver D : Nat) (v : Vault) : Outcome :=
  if D = 0 then { result := Except.error VaultError.InvalidAmount, state := v }
  else
    match Spec.sharesForDeposit D v.totalAssets v.totalShares with
    | none => { result := Except.error VaultError.DivisionDegenerate, state := v }
    | some shares =>
      let a := allocate v.reserveBps (v.strategies.map fun s => s.entry) D
      { result := Except.ok shares
        state :=
          { v with
            totalAssets := v.totalAssets + D
            totalShares := v.totalShares + shares
            reserveBalance := v.reserveBalance + a.reserveAmt
            strategies := investAll v.strategies a.portions
            balanceOf := fun who =>
              if who = receiver then v.balanceOf who + shares else v.balanceOf who } }

/-- A strategy the DivestmentRouter pulls from: enabled, with a non-zero
balance (section 4.3, step 3). -/
def eligible (s : Strategy) : Bool :=
  s.entry.enabled && s.assets != 0

/-- Modelled from the spec: `divest(requested) -> actualReturned` of a strategy
adapter (section 3).  The vault never assumes `actualReturned == requested`:
`offer id requested` is what the adapter with that id is able to hand back
(section 4.3, step 5: an adapter may not fully honour its request); it returns
neither more than was requested nor more than it holds. -/
def actualReturned (offer : Nat → Nat → Nat) (s : Strategy) (requested : Nat) : Nat :=
  min (offer s.entry.id requested) (min requested s.assets)

/-- Modelled from the spec: steps 3 and 4 of the DivestmentRouter (section 4.3),
whose contract code is not among the sources.  In registry order, with `acc` the
`actualReturned` accumulated so far: every eligible strategy except the last is
asked for `floor(need * strategyAssets / totalStrategyAssets)`, the last
eligible strategy for `need - acc`.  The result is the strategies after the
divestments and the accumulated `actualReturned`. -/
def pullFrom (offer : Nat → Nat → Nat) (need total : Nat) :
    List Strategy → Nat → List Strategy × Nat
  | [], acc => ([], acc)
  | s :: ss, acc =>
    if eligible s then
      let requested := if ss.any eligible then need * s.assets / total else need - acc
      let got := actualReturned offer s requested
      let rest := pullFrom offer need total ss (acc + got)
      ({ s with assets := s.assets - got } :: rest.1, rest.2)
    else
      let rest := pullFrom offer need total ss acc
      (s :: rest.1, rest.2)

/-- Modelled from the spec: the DivestmentRouter of section 4.3, whose contract
code is not among the sources.  Input: the requested amount `R`, the reserve
balance and the strategies.  On success the result is the reserve balance and
the strategies once `R` has left the vault; the failure is
`InsufficientLiquidity`. -/
def routeDivest (offer : Nat → Nat → Nat) (R reserveBalance : Nat) (ss : List Strategy) :
    Except VaultError (Nat × List Strategy) :=
  if R ≤ reserveBalance then Except.ok (reserveBalance - R, ss)
  else
    let need := R - reserveBalance
    let total := enabledStrategyAssets ss
    if total = 0 then Except.error VaultError.InsufficientLiquidity
    else
      let pulled := pullFrom offer need total ss 0
      if reserveBalance + pulled.2 < R then Except.error VaultError.InsufficientLiquidity
      else Except.ok (reserveBalance + pulled.2 - R, pulled.1)

/-- Modelled from the spec: the operation `withdraw(shares, receiver) -> assets`
of sections 4.3 and 6, whose contract code is not among the sources.  The
request is validated first (section 5): shares the account does not hold cannot
be burned, and such a call is rejected with `InvalidAmount`.  `R` is
`assetsForShares` of the shares redeemed; the DivestmentRouter rebuilds the
liquidity; on success the shares are burned and `R` leaves the vault; on any
failure the state is the one the call started from. -/
def withdraw (offer : Nat → Nat → Nat) (account shares : Nat) (v : Vault) : Outcome :=
  if v.balanceOf account < shares then
    { result := Except.error VaultError.InvalidAmount, state := v }
  else
    let R := Spec.assetsForShares shares v.totalAssets v.totalShares
    match routeDivest offer R v.reserveBalance v.strategies with
    | Except.error e => { result := Except.error e, state := v }
    | Except.ok (reserveBalance, ss) =>
      { result := Except.ok R
        state :=
          { v with
            totalAssets := v.totalAssets - R
            totalShares := v.totalShares - shares
            reserveBalance := reserveBalance
            strategies := ss
            balanceOf := fun who =>
              if who = account then v.balanceOf who - shares else v.balanceOf who } }

/-- Modelled from the spec: the HarvestCycle of section 4.5, whose contract code
is not among the sources.  `Y` is the yield-source balance read in step 1 and
`toCollateral` the conversion of a stable-value amount to collateral units.
`profit = max(0, Y - bridgedValue)`; no profit is a no-op success; otherwise
`repay = min(profit, debtValue)` reduces the debt and the remainder, converted,
is added to `collateralBalance`.  The share count is untouched.  NAV is the
collateral less the debt (`page.tsx`, line 190,
`NAV8 = ((collateralUsd12 - totalDebtUsd12) x 1e8 / BTCprice8) / 1e4`, and line
240, `Harvest repays debt then increases NAV`), so `totalAssets` rises by the
collateral equivalent of the debt repaid and by the collateral added.  No step
of section 4.5 hands the harvested value to the reserve or to a strategy
adapter, so `reserveBalance` and the strategy balances stay as they are. -/
def harvest (Y : Nat) (toCollateral : Nat → Nat) (v : Vault) : Outcome :=
  let profit := Y - v.position.bridgedValue
  if profit = 0 then { result := Except.ok 0, state := v }
  else
    let repay := min profit v.position.debtValue
    let remainder := profit - repay
    let gained := toCollateral remainder
    { result := Except.ok profit
      state :=
        { v with
          totalAssets := v.totalAssets + toCollateral repay + gained
          position :=
            { v.position with
              collateralBalance := v.position.collateralBalance + gained
              debtValue := v.position.debtValue - repay } } }

/-- The public operations of the vault that move assets, with their
arguments. -/
inductive Op where
  | deposit (receiver D : Nat) : Op
  | withdraw (offer : Nat → Nat → Nat) (account shares : Nat) : Op
  | harvest (Y : Nat) (toCollateral : Nat → Nat) : Op

/-- The state an operation leaves (section 5: each operation is one atomic unit
of work). -/
def step (v : Vault) : Op → Vault
  | Op.deposit receiver D => (deposit receiver D v).state
  | Op.withdraw offer account shares => (withdraw offer account shares v).state
  | Op.harvest Y toCollateral => (harvest Y toCollateral v).state

/-- The state after a sequence of operations, executed one after the other. -/
def run (v : Vault) (ops : List Op) : Vault :=
  ops.foldl step v

/-- Whether an operation is a harvest. -/
def Op.isHarvest : Op → Bool
  | Op.harvest _ _ => true
  | _ => false

/-- The NAV an operation adds without adding to the reserve or to a strategy:
what a harvest adds to `totalAssets`, and nothing for a deposit or a
withdrawal. -/
def harvestGain (v : Vault) : Op → Nat
  | Op.harvest Y toCollateral => (harvest Y toCollateral v).state.totalAssets - v.totalAssets
  | _ => 0

/-- The NAV that the harvests of a run have added, each at the state it was
executed from. -/
def harvestedNav (v : Vault) : List Op → Nat
  | [] => 0
  | op :: ops => harvestGain v op + harvestedNav (step v op) ops

/-- The initial vault state: a registry of strategies is in place, with
`reserveBps` within `0..10000`, and nothing has been deposited, minted,
borrowed or bridged yet. -/
def IsInitial (v : Vault) : Prop :=
  v.totalAssets = 0 ∧ v.totalShares = 0 ∧ v.reserveBps ≤ 10000 ∧ v.reserveBalance = 0 ∧
    (∀ s ∈ v.strategies, s.assets = 0) ∧ (∀ who, v.balanceOf who = 0) ∧
    v.position = { collateralBalance := 0, debtValue := 0, bridgedValue := 0 }

/-- The registry `deploy_portfolio.js` sets up (lines 42-45): strategies 1, 2
and 3 (Zentra, Satsuma, Cross-Chain) at 3000, 2500 and 2500 bps, all enabled;
the adapter addresses are stood for by 1, 2 and 3. -/
def deployedRegistry : List StrategyEntry :=
  [ { id := 1, adapterRef := 1, allocationBps := 3000, enabled := true },
    { id := 2, adapterRef := 2, allocationBps := 2500, enabled := true },
    { id := 3, adapterRef := 3, allocationBps := 2500, enabled := true } ]

/-- The reserve share `deploy_portfolio.js` passes to the vault constructor
(line 16): 2000 bps. -/
def deployedReserveBps : Nat := 2000

/-- The invariant carried along every run: the stored NAV is the reserve balance
plus the strategy balances plus `harvested`, the NAV added by harvests;
`reserveBps` is within `0..10000` and a disabled strategy holds nothing. -/
def SettledWith (harvested : Nat) (v : Vault) : Prop :=
  v.totalAssets = v.reserveBalance + strategyAssets v.strategies + harvested ∧
    v.reserveBps ≤ 10000 ∧ ∀ s ∈ v.strategies, s.entry.enabled = false → s.assets = 0

/-- The vault as `deploy_portfolio.js` leaves it: the deployed registry, a 20%
reserve, and nothing deposited yet. -/
def deployedVault : Vault :=
  { totalAssets := 0
    totalShares := 0
    reserveBps := deployedReserveBps
    reserveBalance := 0
    strategies := deployedRegistry.map fun e => { entry := e, assets := 0 }
    balanceOf := fun _ => 0
    position := { collateralBalance := 0, debtValue := 0, bridgedValue := 0 } }

/-- A run on the deployed vault: a deposit of 20003, a harvest of a yield-source
balance of 50 at 7 stable units per collateral unit, a withdrawal of 10000
shares served in full and one the adapters fall short on. -/
def sampleRun : List Op :=
  [Op.deposit 7 20003, Op.harvest 50 (fun x => x / 7),
    Op.withdraw (fun _ requested => requested) 7 10000,
    Op.withdraw (fun _ requested => requested - 1) 7 5000]

/-- A vault short of liquidity, in the shape the diagnostic scripts report: a
NAV of 100 for 100 shares, all held by account 7, with 10 in reserve and 20 left
in the first strategy. -/
def strainedVault : Vault :=
  { totalAssets := 100
    totalShares := 100
    reserveBps := deployedReserveBps
    reserveBalance := 10
    strategies :=
      [ { entry := { id := 1, adapterRef := 1, allocationBps := 3000, enabled := true },
          assets := 20 },
        { entry := { id := 2, adapterRef := 2, allocationBps := 2500, enabled := true },
          assets := 0 } ]
    balanceOf := fun who => if who = 7 then 100 else 0
    position := { collateralBalance := 0, debtValue := 0, bridgedValue := 0 } }

/-! ## Amount strings and error messages (`src/lib/contract-utils.ts`) -/

/-- The pieces of a decimal string: the sign, the digits before the dot and the
digits after it. -/
structure DecimalText where
  negative : Bool
  integer : List Char
  fraction : List Char
  deriving DecidableEq, Repr

/-- The test `/^(-?)([0-9]*)\.?([0-9]*)$/` of the library function `parseUnits`
(viem), followed by its `value.split('.')` and the removal of the sign: an
optional `-`, digits, an optional dot, digits, and nothing else.  Without a dot
the fraction defaults to `'0'`.  `none` when the string does not match. -/
def matchDecimal (value : List Char) : Option DecimalText :=
  let negative := value.head? == some '-'
  let unsigned := if negative then value.drop 1 else value
  let integer := unsigned.takeWhile Char.isDigit
  let rest := unsigned.dropWhile Char.isDigit
  match rest with
  | [] => some { negative := negative, integer := integer, fraction := ['0'] }
  | c :: fraction =>
    if c = '.' ∧ fraction.all Char.isDigit then
      some { negative := negative, integer := integer, fraction := fraction }
    else none

/-- The value `BigInt` gives to a string of digits; the empty string is `0n`. -/
def digitsValue (digits : List Char) : Nat :=
  digits.foldl (fun acc c => acc * 10 + (c.toNat - 48)) 0

/-- The replacement `fraction.replace(/(0+)$/, '')`: trailing zeros removed. -/
def trimTrailingZeros : List Char → List Char
  | [] => []
  | c :: cs =>
    if trimTrailingZeros cs = [] ∧ c = '0' then [] else c :: trimTrailingZeros cs

/-- Whether `Math.round` of `0.digits` is 1, the `Number` arithmetic taken as
exact: the first digit is 5 or more. -/
def roundsUp (digits : List Char) : Bool :=
  match digits with
  | [] => false
  | c :: _ => decide (53 ≤ c.toNat)

/-- The library function `parseUnits(value, decimals)` of viem, which
`contract-utils.ts` imports (line 1); it is not part of the repository and is
written down here as the library defines it, on the numbers its strings stand
for.  A string that fails `matchDecimal` throws (`none`).  The fraction loses
its trailing zeros; if it is longer than `decimals` it is rounded half up at
`decimals` digits (with the carry into the integer part), otherwise padded with
zeros; the result is `BigInt` of sign, integer and fraction put together.  With
`decimals = 0` a lone `-` reaches `BigInt('-')`, which throws. -/
def parseUnits (value : String) (decimals : Nat) : Option Int :=
  match matchDecimal value.data with
  | none => none
  | some t =>
    let fraction := trimTrailingZeros t.fraction
    let magnitude : Nat :=
      if decimals = 0 then digitsValue t.integer + (if roundsUp fraction then 1 else 0)
      else if decimals < fraction.length then
        digitsValue t.integer * 10 ^ decimals + digitsValue (fraction.take decimals) +
          (if roundsUp (fraction.drop decimals) then 1 else 0)
      else
        digitsValue t.integer * 10 ^ decimals +
          digitsValue fraction * 10 ^ (decimals - fraction.length)
    if decimals = 0 ∧ t.negative = true ∧ t.integer = [] ∧ roundsUp fraction = false then none
    else some (if t.negative then -(magnitude : Int) else (magnitude : Int))

/-- The function `parseBTC` (lines 18-20): `parseUnits(amount, 8)`. -/
def parseBTC (amount : String) : Option Int :=
  parseUnits amount 8

/-- The function `validateAmount` (lines 85-92): `parseBTC(amount) >= minAmount`,
and `false` when `parseBTC` throws. -/
def validateAmount (amount : String) (minAmount : Int) : Bool :=
  match parseBTC amount with
  | some parsed => decide (minAmount ≤ parsed)
  | none => false

/-- The default `minAmount = 0n` of `validateAmount`. -/
def defaultMinAmount : Int := 0

/-- The test `s.includes(pattern)` at the head of `s`: `pattern` is a prefix of
`s`. -/
def startsWithChars : List Char → List Char → Bool
  | _, [] => true
  | [], _ :: _ => false
  | c :: cs, p :: ps => c == p && startsWithChars cs ps

/-- The method `String.prototype.includes`: `pattern` occurs somewhere in `s`. -/
def includesChars : List Char → List Char → Bool
  | [], pattern => pattern.isEmpty
  | c :: cs, pattern => startsWithChars (c :: cs) pattern || includesChars cs pattern

/-- The function `parseContractError` (lines 45-63).  `message` is
`error?.message`, `none` when there is no error or no message; an empty message
is falsy.  The four patterns are tried in order; a message with none of them is
returned as it is. -/
def parseContractError (message : Option String) : String :=
  match message with
  | none => "Unknown error occurred"
  | some m =>
    if m = "" then "Unknown error occurred"
    else if includesChars m.data "insufficient funds".data then
      "Insufficient funds for transaction"
    else if includesChars m.data "user rejected".data then "Transaction rejected by user"
    else if includesChars m.data "gas".data then "Gas estimation failed or insufficient gas"
    else if includesChars m.data "revert".data then
      "Transaction reverted - check contract conditions"
    else m

/-- The classification strings of `parseContractError`. -/
def errorClassifications : List String :=
  [ "Insufficient funds for transaction", "Transaction rejected by user",
    "Gas estimation failed or insufficient gas",
    "Transaction reverted - check contract conditions", "Unknown error occurred" ]

/-- The decimal string with the given sign, digits before the dot and digits
after the dot, such as `-12.5`. -/
def decimalString (negative : Bool) (integer fraction : List Char) : String :=
  String.mk ((if negative then ['-'] else []) ++ integer ++ '.' :: fraction)

/-- The decimal string without a dot, such as `-12`. -/
def integerString (negative : Bool) (integer : List Char) : String :=
  String.mk ((if negative then ['-'] else []) ++ integer)

/-! ## The withdrawal split of the scripts -/

/-- The `needFromReserve` of `diagnose_withdrawal_issue.js` (line 103):
`userAssets <= vaultWcBtcBalance ? userAssets : vaultWcBtcBalance`. -/
def needFromReserve (userAssets vaultWcBtcBalance : Nat) : Nat :=
  if userAssets ≤ vaultWcBtcBalance then userAssets else vaultWcBtcBalance

/-- The `needFromStrategies` of `diagnose_withdrawal_issue.js` (line 104):
`userAssets > vaultWcBtcBalance ? userAssets - vaultWcBtcBalance : 0n`. -/
def needFromStrategies (userAssets vaultWcBtcBalance : Nat) : Nat :=
  if userAssets > vaultWcBtcBalance then userAssets - vaultWcBtcBalance else 0

/-- The branch of `investigate_balance_issue.js` (lines 37-41): `none` when
`vaultWcBtcBalance >= userAssets` (served entirely from reserve), otherwise the
`need = userAssets - vaultWcBtcBalance` asked of the strategies. -/
def investigatedNeed (userAssets vaultWcBtcBalance : Nat) : Option Nat :=
  if vaultWcBtcBalance ≥ userAssets then none else some (userAssets - vaultWcBtcBalance)

/-! ## The vault card (`src/components/VaultCard.tsx`) -/

/-- The `sharePrice` of the vault card (lines 281-283): with `totalAssets`,
`totalSupply` truthy (read, and not `0n`) and `totalSupply > 0n`, the BigInt
quotient `totalAssets * 10^18 / totalSupply`; otherwise `10^18`, one to one. -/
def sharePrice (totalAssets totalSupply : Option Nat) : Nat :=
  match totalAssets, totalSupply with
  | some ta, some ts =>
    if ta ≠ 0 ∧ ts ≠ 0 ∧ 0 < ts then ta * 10 ^ 18 / ts else 10 ^ 18
  | _, _ => 10 ^ 18

/-- The handler of the loops field (line 902),
`setLeverageLoops(parseInt(e.target.value) || 1)`: `parsed` is what `parseInt`
reads, `none` for `NaN`; `NaN` and `0` are falsy and give `1`, every other
integer is kept.  The attributes `min="1"` and `max="10"` of the field (lines
899-900) take no part in it. -/
def onLeverageLoopsChange (parsed : Option Int) : Int :=
  match parsed with
  | none => 1
  | some n => if n = 0 then 1 else n

/-- The kind of vault a card shows: `vault.type`. -/
inductive VaultType where
  | optimized : VaultType
  | maximized : VaultType
  deriving DecidableEq, Repr

/-- The content of an amount field as the deposit handlers read it: the empty
string, or a text together with what `parseFloat` makes of it: `NaN`, zero, a
negative number or a positive number `x`, for which `scaled` is
`Math.floor(x * 1e18)`. -/
inductive AmountField where
  | empty : AmountField
  | notANumber (text : String) : AmountField
  | zero (text : String) : AmountField
  | negative (text : String) (scaled : Int) : AmountField
  | positive (text : String) (scaled : Nat) : AmountField
  deriving DecidableEq, Repr

/-- What a deposit handler ends up doing: it returns after an error toast
without calling `writeContract` (`rejected`), an exception lands in its `catch`
before `writeContract` is called (`failed`), or it calls `writeContract` for
`deposit` with the given `value` and, for a maximized vault, the loop count
(`submitted`). -/
inductive UiAction where
  | rejected : UiAction
  | failed : UiAction
  | submitted (value : Int) (loops : Option Int) : UiAction
  deriving DecidableEq, Repr

/-- The handler `handleDeposit` of the vault card (lines 534-567), up to the
call of `writeContract`.  It returns when the wallet is not connected or on the
wrong network, and when `!depositAmount || parseFloat(depositAmount) <= 0`;
then `parseBTC(depositAmount)` is the value sent, with
`BigInt(leverageLoops)` as first argument for a maximized vault. -/
def handleDeposit (isConnected isCorrectNetwork : Bool) (vaultType : VaultType)
    (depositAmount : AmountField) (leverageLoops : Int) : UiAction :=
  if !isConnected || !isCorrectNetwork then UiAction.rejected
  else
    match depositAmount with
    | AmountField.empty => UiAction.rejected
    | AmountField.zero _ => UiAction.rejected
    | AmountField.negative _ _ => UiAction.rejected
    | AmountField.notANumber text | AmountField.positive text _ =>
      match parseBTC text with
      | none => UiAction.failed
      | some amount =>
        UiAction.submitted amount
          (match vaultType with
            | VaultType.optimized => none
            | VaultType.maximized => some leverageLoops)

/-! ## Deposits from the dashboard (`src/components/CrossChainDashboard.tsx`) -/

/-- The value `BigInt(Math.floor(parseFloat(depositAmount || '0') * 1e18))` of
`doDeposit` (line 370) and `doDepositCross` (line 396): an empty field is read
as `'0'`; `NaN` makes `BigInt` throw (`none`). -/
def depositValue (depositAmount : AmountField) : Option Int :=
  match depositAmount with
  | AmountField.empty => some 0
  | AmountField.notANumber _ => none
  | AmountField.zero _ => some 0
  | AmountField.negative _ scaled => some scaled
  | AmountField.positive _ scaled => some (scaled : Int)

/-- The handler `doDeposit` (lines 365-377), up to the call of `writeContract`:
it returns when no wallet is connected; otherwise it sends `depositValue` to the
portfolio vault.  There is no test of the amount. -/
def doDeposit (isConnected : Bool) (depositAmount : AmountField) : UiAction :=
  if !isConnected then UiAction.rejected
  else
    match depositValue depositAmount with
    | none => UiAction.failed
    | some value => UiAction.submitted value none

/-- The handler `doDepositCross` (lines 391-403), up to the call of
`writeContract`: as `doDeposit`, for the cross-chain vault and its own amount
field. -/
def doDepositCross (isConnected : Bool) (depositAmountCross : AmountField) : UiAction :=
  if !isConnected then UiAction.rejected
  else
    match depositValue depositAmountCross with
    | none => UiAction.failed
    | some value => UiAction.submitted value none

/-! ## Registry mutation, harvest conversion and the leverage engine
(sections 4.4, 4.5 and 6 of the specification) -/

/-- Modelled from the spec: the registry rows after `setStrategy(id,
allocationBps, enabled)` (section 6), whose contract code is not among the
sources: the row with that id takes the new allocation and flag, every other
row is kept, and no row is added or removed (section 3). -/
def updateStrategy (id allocationBps : Nat) (enabled : Bool) (ss : List Strategy) :
    List Strategy :=
  ss.map fun s =>
    if s.entry.id = id then
      { s with entry := { s.entry with allocationBps := allocationBps, enabled := enabled } }
    else s

/-- Modelled from the spec: the operation `setStrategy(id, allocationBps,
enabled)` of section 6, whose contract code is not among the sources.  It is
operator-only (`authorized` says whether the caller passed the operator gate;
otherwise `Unauthorized`), and fails with `InvalidAllocation` if the resulting
sum of enabled bps exceeds `10000 - reserveBps`.  A failed call leaves the state
it started from. -/
def setStrategy (authorized : Bool) (id allocationBps : Nat) (enabled : Bool) (v : Vault) :
    Outcome :=
  if !authorized then { result := Except.error VaultError.Unauthorized, state := v }
  else
    let updated := updateStrategy id allocationBps enabled v.strategies
    if 10000 - v.reserveBps < totalEnabledBps (updated.map fun s => s.entry) then
      { result := Except.error VaultError.InvalidAllocation, state := v }
    else { result := Except.ok 0, state := { v with strategies := updated } }

/-- The fixed demo price of the vault card (`VaultCard.tsx`, lines 288-291,
`mockBtcPrice = 119670` and `fallbackBtcPriceE8`), which the calculations page
uses as well (line 210): 119670 USD with 8 decimals. -/
def fallbackBtcPriceE8 : Nat := 119670 * 10 ^ 8

/-- Modelled from the spec: the conversion of step 4 of the HarvestCycle
(section 4.5), whose contract code is not among the sources: a stable-value
amount with 6 decimals, at a price with 8 decimals, in collateral units with 8
decimals, rounded down. -/
def toCollateralAt (btcPriceE8 usdc6 : Nat) : Nat :=
  usdc6 * 10 ^ 10 / btcPriceE8

/-- The profit the cross-chain test scripts mint to the yield source
(`test_crosschain_local.js`, line 26): `parseUnits('50', 6)`. -/
def mintedProfit : Nat := 50000000

/-- A vault with an open cross-chain position: 20 USDC bridged, 10 USDC of debt
(in the units of the yield source), 20000 units of collateral at the vault for
20000 shares of account 7. -/
def leveragedVault : Vault :=
  { totalAssets := 20000
    totalShares := 20000
    reserveBps := deployedReserveBps
    reserveBalance := 20000
    strategies := []
    balanceOf := fun who => if who = 7 then 20000 else 0
    position := { collateralBalance := 20000, debtValue := 10000000, bridgedValue := 20000000 } }

/-- Modelled from the spec: the parameters of the LeverageEngine (section 4.4):
the fixed loan-to-value, the liquidation threshold and the number `N` of
loops. -/
structure LeverageConfig where
  fixedLtvBps : Nat
  liquidationThresholdBps : Nat
  loops : Nat
  deriving DecidableEq, Repr

/-- Modelled from the spec: the health factor of section 4.4,
`(collateralValue * liquidationThresholdBps / 10000) / debtValue`, as a
fraction; it is meant for `debtValue > 0`. -/
def healthFactor (collateralValue debtValue liquidationThresholdBps : Nat) : ℚ :=
  ((collateralValue : ℚ) * (liquidationThresholdBps : ℚ) / 10000) / (debtValue : ℚ)

/-- Modelled from the spec: the guard of the loop, "health factor above 1.0",
on whole numbers: there is no debt, or
`debtValue * 10000 < collateralValue * liquidationThresholdBps`. -/
def healthAboveOne (collateralValue debtValue liquidationThresholdBps : Nat) : Bool :=
  debtValue == 0 || decide (debtValue * 10000 < collateralValue * liquidationThresholdBps)

/-- Modelled from the spec: one supply-then-borrow step of the loop
(section 4.4, step 5): `supplied` is added to the collateral and
`priceOf(supplied) * fixedLtvBps / 10000` is borrowed against it. -/
def supplyBorrow (cfg : LeverageConfig) (priceOf : Nat → Nat) (supplied : Nat)
    (p : CrossChainPosition) : CrossChainPosition :=
  { p with
    collateralBalance := p.collateralBalance + supplied
    debtValue := p.debtValue + priceOf supplied * cfg.fixedLtvBps / 10000 }

/-- Modelled from the spec: the leverage loop of section 4.4, step 5, whose
contract code is not among the sources.  `remaining` steps are left, `k` is the
index of the next one, and `supplyOf k p` the amount step `k` supplies from
position `p` (the specification does not fix it).  A step is executed only if
the health factor it results in is above 1.0; otherwise it is skipped and the
loop ends.  The result lists the positions after the executed steps. -/
def leverageLoop (cfg : LeverageConfig) (priceOf : Nat → Nat)
    (supplyOf : Nat → CrossChainPosition → Nat) :
    Nat → Nat → CrossChainPosition → List CrossChainPosition
  | 0, _, _ => []
  | remaining + 1, k, p =>
    let next := supplyBorrow cfg priceOf (supplyOf k p) p
    if healthAboveOne (priceOf next.collateralBalance) next.debtValue
        cfg.liquidationThresholdBps then
      next :: leverageLoop cfg priceOf supplyOf remaining (k + 1) next
    else []

/-- What a leveraged deposit leaves: the position after the first borrow, the
positions after the executed loop steps, and the final position. -/
structure LeverageRun where
  opened : CrossChainPosition
  executed : List CrossChainPosition
  position : CrossChainPosition
  deriving DecidableEq, Repr

/-- Modelled from the spec: the LeverageEngine on a deposit of collateral `C`
(section 4.4), whose contract code is not among the sources.  `C` is registered
as collateral, `borrowValue = priceOf(C) * fixedLtvBps / 10000` is borrowed and
bridged, then the loop runs for up to `N` steps.  A deposit of `C == 0` fails
with `InvalidAmount`; a loop that ends early is a success. -/
def leverageDeposit (cfg : LeverageConfig) (priceOf : Nat → Nat)
    (supplyOf : Nat → CrossChainPosition → Nat) (C : Nat) (p : CrossChainPosition) :
    Except VaultError LeverageRun :=
  if C = 0 then Except.error VaultError.InvalidAmount
  else
    let borrowValue := priceOf C * cfg.fixedLtvBps / 10000
    let opened : CrossChainPosition :=
      { collateralBalance := p.collateralBalance + C
        debtValue := p.debtValue + borrowValue
        bridgedValue := p.bridgedValue + borrowValue }
    let executed := leverageLoop cfg priceOf supplyOf cfg.loops 0 opened
    Except.ok { opened := opened, executed := executed, position := executed.getLast?.getD opened }

/-! ## JavaScript numbers in the withdrawal limit

The limit of the dashboard is computed with `Number` values, IEEE 754 doubles.
The three operations it uses are written out on the whole numbers they act on:
the conversion of a BigInt, the product with 25, and `Math.floor` of the
quotient by 100, each rounded to nearest, ties to even, at 53 significant
bits. -/

/-- The position of the highest set bit of `n`, `floor(log2 n)`, for
`0 < n < 2^fuel`. -/
def log2Floor : Nat → Nat → Nat
  | 0, _ => 0
  | fuel + 1, n => if n < 2 then 0 else log2Floor fuel (n / 2) + 1

/-- The double nearest to the whole number `n` (ties to even): `Number(n)` for
a BigInt `n`, and the rounded result of a product of whole-number doubles.  Below
`2^53` every whole number is a double. -/
def roundToDouble (n : Nat) : Nat :=
  if n < 2 ^ 53 then n
  else
    let shift := log2Floor 1100 n - 52
    let q := n / 2 ^ shift
    let r := n % 2 ^ shift
    if 2 ^ (shift - 1) < r ∨ (r = 2 ^ (shift - 1) ∧ q % 2 = 1) then (q + 1) * 2 ^ shift
    else q * 2 ^ shift

/-- The value `Math.floor(x / 100)` for a whole-number double `x`: the quotient
is rounded to a double first.  Below `2^52` the rounded quotient has fraction
bits and its floor is `x / 100` rounded down, or one more when the quotient is
within half a unit in the last place of the next whole number; from `2^52` on
the rounded quotient is a whole number. -/
def floorDiv100 (x : Nat) : Nat :=
  let q := x / 100
  let r := x % 100
  if q < 2 ^ 52 then
    if r = 0 ∨ q = 0 then q
    else if (100 - r) * 2 ^ (53 - log2Floor 1100 q) ≤ 100 then q + 1
    else q
  else
    let u := 2 ^ (log2Floor 1100 q - 52)
    let m := x / (100 * u)
    let rest := x % (100 * u)
    if 100 * u < 2 * rest ∨ (2 * rest = 100 * u ∧ m % 2 = 1) then (m + 1) * u else m * u

/-! ## Withdrawals from the dashboard (`src/components/CrossChainDashboard.tsx`) -/

/-- The limit `maxShares` of `doWithdrawAll` (lines 420-423),
`BigInt(Math.floor(Number(totalSupply || 0) * 25 / 100))`, and the
`shares25pct` of the `Withdraw 25%` button (lines 693-694), which is the same
expression. -/
def maxShares (totalSupply : Option Nat) : Nat :=
  floorDiv100 (roundToDouble (roundToDouble (totalSupply.getD 0) * 25))

/-- What a withdraw handler ends up doing: it returns after an error toast
without calling `writeContract` (`rejected`), or it calls `writeContract` for
`withdraw` with the given share amount (`submitted`). -/
inductive WithdrawAction where
  | rejected : WithdrawAction
  | submitted (shares : Nat) : WithdrawAction
  deriving DecidableEq, Repr

/-- The handler `doWithdrawAll` (lines 413-428 and 481-487), without its
console logging: it returns when no wallet is connected, when the user's shares
(`0` while not read) are zero, and when they exceed `maxShares`; otherwise it
sends `withdraw(shares, address)` for the whole balance. -/
def doWithdrawAll (isConnected : Bool) (userShares totalSupply : Option Nat) :
    WithdrawAction :=
  if !isConnected then WithdrawAction.rejected
  else
    let shares := userShares.getD 0
    if shares = 0 then WithdrawAction.rejected
    else if shares > maxShares totalSupply then WithdrawAction.rejected
    else WithdrawAction.submitted shares

/-- The click handler of the `Withdraw 25%` button (lines 691-705): it returns
when no wallet is connected and when `shares25pct` is zero; otherwise it sends
`withdraw(shares25pct, address)`.  The user's own balance is not read. -/
def onWithdraw25Click (isConnected : Bool) (totalSupply : Option Nat) : WithdrawAction :=
  if !isConnected then WithdrawAction.rejected
  else
    let shares25pct := maxShares totalSupply
    if shares25pct = 0 then WithdrawAction.rejected
    else WithdrawAction.submitted shares25pct

/-- The 25% test withdrawal of `fix_broken_strategies.js` (line 67):
`userShares / 4n`, a quarter of the user's own shares. -/
def scriptShares25pct (userShares : Nat) : Nat := userShares / 4

/-! ## Gas estimates (`src/lib/contract-utils.ts`, `src/scripts/test_frontend_withdrawal.js`) -/

/-- The function `estimateGasWithBuffer` (lines 40-42):
`(estimatedGas * BigInt(100 + bufferPercent)) / BigInt(100)` in BigInt
arithmetic, for a whole-number `bufferPercent`. -/
def estimateGasWithBuffer (estimatedGas bufferPercent : Int) : Int :=
  Int.tdiv (estimatedGas * (100 + bufferPercent)) 100

/-- The default `bufferPercent = 20` of `estimateGasWithBuffer`. -/
def defaultBufferPercent : Int := 20

/-- The gas limit of `test_frontend_withdrawal.js` (line 49):
`gasEstimate * 120n / 100n`. -/
def scriptGasLimit (gasEstimate : Int) : Int :=
  Int.tdiv (gasEstimate * 120) 100

/-! ## The position value of the vault card (`src/components/VaultCard.tsx`) -/

/-- The `userAssets` of the vault card (line 286):
`userBalance ? (userBalance * sharePrice) / BigInt(10 ** 18) : BigInt(0)`. -/
def cardUserAssets (userBalance totalAssets totalSupply : Option Nat) : Nat :=
  match userBalance with
  | some ub => if ub ≠ 0 then ub * sharePrice totalAssets totalSupply / 10 ^ 18 else 0
  | none => 0

/-! ## Formatting amounts (`src/lib/contract-utils.ts`) -/

/-- The character of a decimal digit. -/
def digitChar (d : Nat) : Char :=
  match d % 10 with
  | 0 => '0'
  | 1 => '1'
  | 2 => '2'
  | 3 => '3'
  | 4 => '4'
  | 5 => '5'
  | 6 => '6'
  | 7 => '7'
  | 8 => '8'
  | _ => '9'

/-- The digits of `n` in front of `acc`, most significant first, for
`n < fuel`. -/
def decimalDigitsAux : Nat → Nat → List Char → List Char
  | 0, _, acc => acc
  | fuel + 1, n, acc =>
    if n < 10 then digitChar n :: acc
    else decimalDigitsAux fuel (n / 10) (digitChar (n % 10) :: acc)

/-- The string `n.toString()` of a non-negative BigInt: its decimal digits,
`0` for zero. -/
def decimalDigits (n : Nat) : List Char :=
  decimalDigitsAux (n + 1) n []

/-- The library function `formatUnits(value, decimals)` of viem, which
`contract-utils.ts` imports (line 1); it is not part of the repository and is
written down here as the library defines it.  The digits of the absolute value
are padded at the start to `decimals` digits; the last `decimals` digits are the
fraction, which loses its trailing zeros; the result is the sign, the integer
part (`0` when empty) and, when the fraction is not empty, a dot and the
fraction. -/
def formatUnits (value : Int) (decimals : Nat) : String :=
  let display := decimalDigits value.natAbs
  let padded := List.replicate (decimals - display.length) '0' ++ display
  let integer := padded.take (padded.length - decimals)
  let fraction := trimTrailingZeros (padded.drop (padded.length - decimals))
  String.mk ((if value < 0 then ['-'] else []) ++ (if integer = [] then ['0'] else integer) ++
    (if fraction = [] then [] else '.' :: fraction))

/-- The function `formatTokenAmount` (lines 6-8): `formatUnits(amount, decimals)`. -/
def formatTokenAmount (amount : Int) (decimals : Nat) : String :=
  formatUnits amount decimals

/-- The function `parseTokenAmount` (lines 10-12): `parseUnits(amount, decimals)`. -/
def parseTokenAmount (amount : String) (decimals : Nat) : Option Int :=
  parseUnits amount decimals

/-- The function `formatBTC` (lines 14-16): `formatUnits(amount, 8)`. -/
def formatBTC (amount : Int) : String :=
  formatUnits amount 8

/-- The function `formatUSD` (lines 22-24): `formatUnits(amount, 6)`. -/
def formatUSD (amount : Int) : String :=
  formatUnits amount 6

/-- The function `parseUSD` (lines 26-28): `parseUnits(amount, 6)`. -/
def parseUSD (amount : String) : Option Int :=
  parseUnits amount 6

/-- The share price line of the vault card (lines 770-773):
`formatBTC(sharePrice)` followed by ` cBTC`. -/
def sharePriceLine (totalAssets totalSupply : Option Nat) : String :=
  formatBTC (sharePrice totalAssets totalSupply : Nat) ++ " cBTC"

/-! ## The debug console (`src/lib/debug-console.ts`, `src/lib/types.ts`) -/

/-- The `type` of a transaction log (`types.ts`, line 33). -/
inductive LogType where
  | deposit : LogType
  | withdraw : LogType
  | rebalance : LogType
  | setAllocation : LogType
  deriving DecidableEq, Repr

/-- The `status` of a transaction log (`types.ts`, line 37). -/
inductive LogStatus where
  | pending : LogStatus
  | success : LogStatus
  | failed : LogStatus
  deriving DecidableEq, Repr

/-- The interface `TransactionLog` (`types.ts`, lines 30-40); the timestamp is
a point in time, optional fields are `none` when undefined. -/
structure TransactionLog where
  id : String
  timestamp : Nat
  type : LogType
  vault : String
  amount : Option Int
  shares : Option Int
  status : LogStatus
  hash : Option String
  error : Option String
  deriving DecidableEq, Repr

/-- The argument of `addLog`, `Omit<TransactionLog, 'id' | 'timestamp'>`. -/
structure LogFields where
  type : LogType
  vault : String
  amount : Option Int
  shares : Option Int
  status : LogStatus
  hash : Option String
  error : Option String
  deriving DecidableEq, Repr

/-- The argument of `updateLog`, `Partial<TransactionLog>`: every key may be
absent (`none`); a key that is present carries its value, which for an optional
field may be undefined. -/
structure LogUpdates where
  id : Option String
  timestamp : Option Nat
  type : Option LogType
  vault : Option String
  amount : Option (Option Int)
  shares : Option (Option Int)
  status : Option LogStatus
  hash : Option (Option String)
  error : Option (Option String)
  deriving DecidableEq, Repr

/-- The updates with no key. -/
def LogUpdates.none : LogUpdates :=
  { id := Option.none, timestamp := Option.none, type := Option.none, vault := Option.none,
    amount := Option.none, shares := Option.none, status := Option.none, hash := Option.none,
    error := Option.none }

/-- The object spread `{ ...log, ...updates }` of `updateLog` (line 29): every
key present in `updates` replaces the one of `log`. -/
def applyUpdates (log : TransactionLog) (updates : LogUpdates) : TransactionLog :=
  { id := updates.id.getD log.id
    timestamp := updates.timestamp.getD log.timestamp
    type := updates.type.getD log.type
    vault := updates.vault.getD log.vault
    amount := updates.amount.getD log.amount
    shares := updates.shares.getD log.shares
    status := updates.status.getD log.status
    hash := updates.hash.getD log.hash
    error := updates.error.getD log.error }

/-- The method `addLog` (lines 10-24), on the list `this.logs`: the new log,
with the `id` and `timestamp` made for it, is put in front (`unshift`), and the
list is cut to its first 100 entries when it is longer. -/
def addLog (log : LogFields) (id : String) (timestamp : Nat) (logs : List TransactionLog) :
    List TransactionLog :=
  let newLog : TransactionLog :=
    { id := id, timestamp := timestamp, type := log.type, vault := log.vault,
      amount := log.amount, shares := log.shares, status := log.status, hash := log.hash,
      error := log.error }
  let unshifted := newLog :: logs
  if unshifted.length > 100 then unshifted.take 100 else unshifted

/-- The method `updateLog` (lines 26-33): the first log with the given `id`
(`findIndex`) is replaced by its spread with `updates`; without such a log
nothing changes. -/
def updateLog (id : String) (updates : LogUpdates) : List TransactionLog → List TransactionLog
  | [] => []
  | log :: rest =>
    if log.id = id then applyUpdates log updates :: rest
    else log :: updateLog id updates rest

/-- The method `clearLogs` (lines 39-43). -/
def clearLogs (_logs : List TransactionLog) : List TransactionLog := []

/-- The method `logTransactionStart` (lines 80-87): `addLog` of a pending log
with the given type, vault and amount. -/
def logTransactionStart (type : LogType) (vault : String) (amount : Option Int) (id : String)
    (timestamp : Nat) (logs : List TransactionLog) : List TransactionLog :=
  addLog { type := type, vault := vault, amount := amount, shares := Option.none,
           status := LogStatus.pending, hash := Option.none, error := Option.none }
    id timestamp logs

/-- The JavaScript `a || b` on optional BigInts: `a` when it is defined and not
`0n`, otherwise `b`. -/
def orElse (a b : Option Int) : Option Int :=
  match a with
  | some x => if x ≠ 0 then some x else b
  | Option.none => b

/-- The method `logTransactionSuccess` (lines 89-99): when there is a newest
log and its status is `pending`, `updateLog` on its id with the status
`success`, the hash, and `amount || lastLog.amount`, `shares || lastLog.shares`. -/
def logTransactionSuccess (hash : String) (amount shares : Option Int)
    (logs : List TransactionLog) : List TransactionLog :=
  match logs with
  | [] => logs
  | lastLog :: _ =>
    if lastLog.status = LogStatus.pending then
      updateLog lastLog.id
        { LogUpdates.none with
          status := some LogStatus.success
          hash := some (some hash)
          amount := some (orElse amount lastLog.amount)
          shares := some (orElse shares lastLog.shares) } logs
    else logs

/-- The method `logTransactionError` (lines 101-109): when there is a newest
log and its status is `pending`, `updateLog` on its id with the status `failed`
and the error. -/
def logTransactionError (error : String) (logs : List TransactionLog) : List TransactionLog :=
  match logs with
  | [] => logs
  | lastLog :: _ =>
    if lastLog.status = LogStatus.pending then
      updateLog lastLog.id
        { LogUpdates.none with status := some LogStatus.failed, error := some (some error) } logs
    else logs

/-- The calls that change the logs of the console, with their arguments and,
for a new log, the `id` and `timestamp` made for it. -/
inductive ConsoleOp where
  | addLog (log : LogFields) (id : String) (timestamp : Nat) : ConsoleOp
  | updateLog (id : String) (updates : LogUpdates) : ConsoleOp
  | clearLogs : ConsoleOp
  | logTransactionStart (type : LogType) (vault : String) (amount : Option Int) (id : String)
      (timestamp : Nat) : ConsoleOp
  | logTransactionSuccess (hash : String) (amount shares : Option Int) : ConsoleOp
  | logTransactionError (error : String) : ConsoleOp

/-- The logs after one call. -/
def consoleStep (logs : List TransactionLog) : ConsoleOp → List TransactionLog
  | ConsoleOp.addLog log id timestamp => addLog log id timestamp logs
  | ConsoleOp.updateLog id updates => updateLog id updates logs
  | ConsoleOp.clearLogs => clearLogs logs
  | ConsoleOp.logTransactionStart type vault amount id timestamp =>
    logTransactionStart type vault amount id timestamp logs
  | ConsoleOp.logTransactionSuccess hash amount shares =>
    logTransactionSuccess hash amount shares logs
  | ConsoleOp.logTransactionError error => logTransactionError error logs

/-- The logs after a sequence of calls on the console as it is created (line 4:
no logs). -/
def consoleRun (ops : List ConsoleOp) : List TransactionLog :=
  ops.foldl consoleStep []

/-! ## The Stork price client (`src/lib/stork.ts`) -/

/-- A value found in the parsed JSON, as far as `fetchStorkLatestPrice` looks at
it: undefined or null, a string, a number (with its truthiness and
`BigInt(Math.trunc(value))`, `none` when that throws), or anything else (with
its truthiness). -/
inductive JsonValue where
  | undefined : JsonValue
  | string (s : String) : JsonValue
  | number (truthy : Bool) (truncated : Option Int) : JsonValue
  | other (truthy : Bool) : JsonValue
  deriving DecidableEq, Repr

/-- The truthiness of a JSON value. -/
def JsonValue.truthy : JsonValue → Bool
  | JsonValue.undefined => false
  | JsonValue.string s => s != ""
  | JsonValue.number t _ => t
  | JsonValue.other t => t

/-- The function `parseBigInt` (lines 7-15): `BigInt(value)` for a string
(`bigIntOf`, the built-in conversion, `none` when it throws),
`BigInt(Math.trunc(value))` for a number, otherwise `null`; an exception gives
`null`. -/
def parseBigInt (bigIntOf : String → Option Int) : JsonValue → Option Int
  | JsonValue.string s => bigIntOf s
  | JsonValue.number _ truncated => truncated
  | _ => none

/-- An entry `json[symbol]` of the response, with its `price` and `timestamp`. -/
structure StorkEntry where
  price : JsonValue
  timestamp : JsonValue
  deriving DecidableEq, Repr

/-- What the request of `fetchStorkLatestPrice` comes to: `fetch` or
`res.json()` throws, the response is not `ok`, or the JSON is parsed, with its
entries for `BITCOINUSD` and `BTCUSD` (`none` when absent). -/
inductive StorkResponse where
  | thrown : StorkResponse
  | notOk : StorkResponse
  | ok (bitcoinusd btcusd : Option StorkEntry) : StorkResponse
  deriving DecidableEq, Repr

/-- The type `StorkLatestPrice` (lines 1-5). -/
structure StorkLatestPrice where
  symbol : String
  price : Int
  timestampNs : Int
  deriving DecidableEq, Repr

/-- The body of the loop of `fetchStorkLatestPrice` for one symbol (lines
37-44): the entry counts when its `price` is truthy and both `price` and
`timestamp` go through `parseBigInt`. -/
def usableEntry (bigIntOf : String → Option Int) (symbol : String) (entry : Option StorkEntry) :
    Option StorkLatestPrice :=
  match entry with
  | none => none
  | some e =>
    if e.price.truthy then
      match parseBigInt bigIntOf e.price, parseBigInt bigIntOf e.timestamp with
      | some price, some ts => some { symbol := symbol, price := price, timestampNs := ts }
      | _, _ => none
    else none

/-- The function `fetchStorkLatestPrice` (lines 21-50).  Line 27 reads the name
`token`, which the module neither declares nor imports: `tokenInScope` says
whether the surrounding scope binds it; when it does not, reading it throws a
`ReferenceError` inside the `try`, and the `catch` of line 47 returns `null`.
Otherwise a request that throws or is not `ok` gives `null`, and the symbols
`BITCOINUSD`, `BTCUSD` are tried in that order. -/
def fetchStorkLatestPrice (tokenInScope : Bool) (bigIntOf : String → Option Int)
    (response : StorkResponse) : Option StorkLatestPrice :=
  if !tokenInScope then none
  else
    match response with
    | StorkResponse.thrown => none
    | StorkResponse.notOk => none
    | StorkResponse.ok bitcoinusd btcusd =>
      match usableEntry bigIntOf "BITCOINUSD" bitcoinusd with
      | some result => some result
      | none => usableEntry bigIntOf "BTCUSD" btcusd

/-! ## Share accounting: theorems -/

/-- The share formula followed by the redemption never returns more than the
deposit, in every state in which there are no assets without shares (`S = 0`
implies `A = 0`). -/
theorem formula_roundtrip_no_gain (D A S shares : Nat) (hstate : S = 0 → A = 0)
    (h : expectedShares D A S = some shares) :
    shares * (A + D) / (S + shares) ≤ D := by
  unfold expectedShares at h
  by_cases hS : S = 0
  · have hA := hstate hS
    rw [if_pos hS] at h
    cases h
    subst hS hA
    simp only [Nat.zero_add]
    exact Nat.div_le_of_le_mul (le_refl _)
  · rw [if_neg hS] at h
    by_cases hA : A = 0
    · rw [if_pos hA] at h
      cases h
    · rw [if_neg hA] at h
      cases h
      apply Nat.div_le_of_le_mul
      have := Nat.div_mul_le_self (D * S) A
      nlinarith

/-- C2: for every deposit `D` and every state `(A, S)`, the share count that
`calculateExpectedShares` computes, redeemed right after the deposit as
`doWithdrawAll` (`expectedAssets`), the scripts (`userAssets`) and section 4.1
(`assetsForShares`) compute it, returns at most `D`.  With `A > 0` and `S > 0`
the share count is `floor(D * S / A)`; with `A = 0` or `S = 0` the function
leaves through its guard with the `0` placeholder, no share count is computed,
and redeeming no shares returns 0. -/
theorem roundtrip_no_gain (D A S : Nat) :
    (∀ shares, calculateExpectedShares (some D) (some A) (some S) = ShareEstimate.shares shares →
        expectedAssets (some shares) (some (S + shares)) (some (A + D)) ≤ D ∧
          userAssets shares (A + D) (S + shares) ≤ D ∧
          Spec.assetsForShares shares (A + D) (S + shares) ≤ D) ∧
      (0 < A → 0 < S →
        calculateExpectedShares (some D) (some A) (some S) =
          ShareEstimate.shares (D * S / A)) ∧
      (A = 0 ∨ S = 0 →
        calculateExpectedShares (some D) (some A) (some S) = ShareEstimate.zeroPlaceholder) ∧
      calculateExpectedShares (some D) (some A) (some S) ≠ ShareEstimate.rangeError ∧
      expectedAssets (some 0) (some (S + 0)) (some (A + D)) = 0 ∧
      userAssets 0 (A + D) (S + 0) = 0 := by
  refine ⟨?_, ?_, ?_, ?_, ?_, ?_⟩
  · intro shares h
    unfold calculateExpectedShares at h
    simp only at h
    by_cases hg : A = 0 ∨ S = 0
    · rw [if_pos hg] at h
      cases h
    · rw [if_neg hg] at h
      have hA : A ≠ 0 := fun hA => hg (Or.inl hA)
      have hS : S ≠ 0 := fun hS => hg (Or.inr hS)
      have hsh : expectedShares D A S = some shares := by
        cases he : expectedShares D A S with
        | none => rw [he] at h; cases h
        | some n =>
          rw [he] at h
          injection h with h
          rw [h]
      have key := formula_roundtrip_no_gain D A S shares (fun h0 => absurd h0 hS) hsh
      refine ⟨?_, ?_, ?_⟩
      · unfold expectedAssets
        simp only
        split_ifs
        · exact key
        · exact Nat.zero_le _
      · unfold userAssets
        split_ifs
        · exact key
        · exact Nat.zero_le _
      · unfold Spec.assetsForShares
        split_ifs
        · exact Nat.zero_le _
        · exact key
  · intro hA hS
    have hA' : A ≠ 0 := Nat.pos_iff_ne_zero.mp hA
    have hS' : S ≠ 0 := Nat.pos_iff_ne_zero.mp hS
    simp [calculateExpectedShares, expectedShares, hA', hS']
  · intro hg
    unfold calculateExpectedShares
    simp only
    rw [if_pos hg]
  · unfold calculateExpectedShares expectedShares
    simp only
    by_cases hg : A = 0 ∨ S = 0
    · rw [if_pos hg]
      exact fun h => ShareEstimate.noConfusion h
    · rw [if_neg hg]
      have hA : A ≠ 0 := fun hA => hg (Or.inl hA)
      have hS : S ≠ 0 := fun hS => hg (Or.inr hS)
      simp [hA, hS]
  · simp [expectedAssets]
  · simp [userAssets]

/-- C6, the code at the failing input: with a total supply of `0n`
`calculateExpectedShares` leaves through the guard of line 116 and hands back
the `'0'` placeholder whatever the deposit, although its own share formula
(line 127) and `exSharesMinted` give the deposit itself. -/
theorem calculateExpectedShares_zero_supply (d : Option Nat) (ta : Option Nat) (D : Nat)
    (x : Int) :
    calculateExpectedShares d ta (some 0) = ShareEstimate.zeroPlaceholder ∧
      expectedShares D 0 0 = some D ∧ exSharesMinted x (some 0) (some 0) = x := by
  refine ⟨?_, rfl, rfl⟩
  cases d <;> cases ta <;> simp [calculateExpectedShares]

/-- C7: for a parsed deposit `depositWei`, `totalAssets > 0` and
`totalSupply > 0`, the share count `calculateExpectedShares` computes is
`depositWei * totalSupply / totalAssets` rounded down, which is what the
documented formula `supply == 0 ? deposit : (deposit × totalSupply) / totalAssets`
gives. -/
theorem calculateExpectedShares_floor (depositWei totalAssets totalSupply : Nat)
    (hA : 0 < totalAssets) (hS : 0 < totalSupply) :
    calculateExpectedShares (some depositWei) (some totalAssets) (some totalSupply) =
        ShareEstimate.shares (depositWei * totalSupply / totalAssets) ∧
      depositWei * totalSupply / totalAssets =
        sharesMintedFormula depositWei totalAssets totalSupply := by
  have hA' : totalAssets ≠ 0 := Nat.pos_iff_ne_zero.mp hA
  have hS' : totalSupply ≠ 0 := Nat.pos_iff_ne_zero.mp hS
  simp [calculateExpectedShares, expectedShares, sharesMintedFormula, hA', hS']

/-- Witness of `calculateExpectedShares_floor`: 0.001 deposited (in wei) into a
vault of 3 assets and 2 shares. -/
theorem calculateExpectedShares_floor_witness :
    calculateExpectedShares (some 1000000000000000) (some 3) (some 2) =
        ShareEstimate.shares (1000000000000000 * 2 / 3) ∧
      1000000000000000 * 2 / 3 = sharesMintedFormula 1000000000000000 3 2 :=
  calculateExpectedShares_floor 1000000000000000 3 2 (by decide) (by decide)

/-- C8: for all share counts, total assets and total supplies, the
`expectedAssets` of `doWithdrawAll` and the `userAssets` of the scripts are
`assetsForShares`: `0` when the supply is zero, otherwise
`shares * totalAssets / totalSupply` rounded down. -/
theorem expectedAssets_eq_assetsForShares (shares totalAssets totalSupply : Nat) :
    expectedAssets (some shares) (some totalSupply) (some totalAssets) =
        Spec.assetsForShares shares totalAssets totalSupply ∧
      userAssets shares totalAssets totalSupply =
        Spec.assetsForShares shares totalAssets totalSupply ∧
      Spec.assetsForShares shares totalAssets 0 = 0 ∧
      Spec.assetsForShares shares totalAssets (totalSupply + 1) =
        shares * totalAssets / (totalSupply + 1) := by
  refine ⟨?_, ?_, by simp [Spec.assetsForShares], by simp [Spec.assetsForShares]⟩
  · unfold expectedAssets Spec.assetsForShares
    by_cases hs : totalSupply = 0
    · simp [hs]
    · by_cases hu : shares = 0
      · simp [hu]
      · by_cases ha : totalAssets = 0
        · simp [ha]
        · simp [hs, hu, ha, Nat.pos_of_ne_zero hs]
  · unfold userAssets Spec.assetsForShares
    by_cases hs : totalSupply = 0
    · simp [hs]
    · simp [hs, Nat.pos_of_ne_zero hs]

/-- C9, counterexample: in the degenerate state (no assets, 7 shares) the
calculations page yields a share figure, the deposit itself, and
`calculateExpectedShares` raises no error. -/
theorem degenerate_state_counterexample :
    exSharesMinted 100000 (some 0) (some 7) = 100000 ∧
      calculateExpectedShares (some 1000000000000000) (some 0) (some 7) ≠
        ShareEstimate.rangeError := by
  decide

/-- C9, amended: the division of the share formula is degenerate exactly when
`totalAssets = 0` while `totalSupply > 0`; `calculateExpectedShares` never
reaches it (it raises no error on any input), and in that state it hands back
its `'0'` placeholder while `exSharesMinted` falls back to the deposit. -/
theorem degenerate_state_fallback (d : Nat) (x : Int) (ta ts : Nat) (hts : 0 < ts) :
    (expectedShares d ta ts = none ↔ ta = 0) ∧
      (∀ d' ta' ts' : Nat, expectedShares d' ta' ts' = none ↔ (ta' = 0 ∧ 0 < ts')) ∧
      (∀ o₁ o₂ o₃, calculateExpectedShares o₁ o₂ o₃ ≠ ShareEstimate.rangeError) ∧
      calculateExpectedShares (some d) (some 0) (some ts) = ShareEstimate.zeroPlaceholder ∧
      exSharesMinted x (some 0) (some ts) = x := by
  have hts' : ts ≠ 0 := Nat.pos_iff_ne_zero.mp hts
  have gen : ∀ d' ta' ts' : Nat, expectedShares d' ta' ts' = none ↔ (ta' = 0 ∧ 0 < ts') := by
    intro d' ta' ts'
    unfold expectedShares
    by_cases h1 : ts' = 0
    · simp [h1]
    · by_cases h2 : ta' = 0
      · simp [h1, h2, Nat.pos_of_ne_zero h1]
      · simp [h1, h2]
  refine ⟨?_, gen, ?_, ?_, ?_⟩
  · rw [gen]; simp [hts]
  · intro o₁ o₂ o₃
    cases o₁ <;> cases o₂ <;> cases o₃ <;> simp [calculateExpectedShares]
    rename_i d' ta' ts'
    by_cases h1 : ta' = 0
    · simp [h1]
    · by_cases h2 : ts' = 0
      · simp [h2]
      · simp [expectedShares, h1, h2]
  · simp [calculateExpectedShares]
  · simp [exSharesMinted]

/-- Witness of `degenerate_state_fallback`: no assets, 7 shares. -/
theorem degenerate_state_fallback_witness :
    (expectedShares 5 0 7 = none ↔ (0 : Nat) = 0) ∧
      (∀ d' ta' ts' : Nat, expectedShares d' ta' ts' = none ↔ (ta' = 0 ∧ 0 < ts')) ∧
      (∀ o₁ o₂ o₃, calculateExpectedShares o₁ o₂ o₃ ≠ ShareEstimate.rangeError) ∧
      calculateExpectedShares (some 5) (some 0) (some 7) = ShareEstimate.zeroPlaceholder ∧
      exSharesMinted 5 (some 0) (some 7) = 5 :=
  degenerate_state_fallback 5 5 0 7 (by decide)

/-! ## The allocation router: theorems -/

/-- Rounded-down portions never hand out more than their pro-rata share:
`totalBps` times their sum is at most `remaining` times the bps they cover. -/
theorem floor_portions_le (remaining totalBps : Nat) (es : List StrategyEntry) :
    totalBps * (es.map fun e => remaining * e.allocationBps / totalBps).sum ≤
      remaining * (es.map fun e => e.allocationBps).sum := by
  induction es with
  | nil => simp
  | cons e es ih =>
    simp only [List.map_cons, List.sum_cons]
    have h := Nat.mul_div_le (remaining * e.allocationBps) totalBps
    nlinarith

/-- The rounded-down portions of a part of the enabled entries stay within
`remaining`. -/
theorem floor_portions_le_remaining (remaining totalBps : Nat) (es : List StrategyEntry)
    (hsum : (es.map fun e => e.allocationBps).sum ≤ totalBps) :
    (es.map fun e => remaining * e.allocationBps / totalBps).sum ≤ remaining := by
  rcases Nat.eq_zero_or_pos totalBps with h0 | hpos
  · subst h0
    have : (es.map fun e => remaining * e.allocationBps / 0).sum = 0 := by
      induction es with
      | nil => simp
      | cons e es ih => simp
    omega
  · have h := floor_portions_le remaining totalBps es
    have h2 : remaining * (es.map fun e => e.allocationBps).sum ≤ remaining * totalBps :=
      Nat.mul_le_mul_left _ hsum
    have h3 : totalBps * (es.map fun e => remaining * e.allocationBps / totalBps).sum ≤
        totalBps * remaining := by
      rw [Nat.mul_comm totalBps remaining]; exact le_trans h h2
    exact Nat.le_of_mul_le_mul_left h3 hpos

/-- The shape of `portionsFrom` on a non-empty list: the rounded-down portions
of all entries but the last, then `remaining` minus everything handed out. -/
theorem portionsFrom_eq (remaining totalBps : Nat) (es : List StrategyEntry) (prior : Nat)
    (hne : es ≠ []) :
    portionsFrom remaining totalBps es prior =
      (es.dropLast.map fun e => remaining * e.allocationBps / totalBps) ++
        [remaining - (prior +
          (es.dropLast.map fun e => remaining * e.allocationBps / totalBps).sum)] := by
  induction es generalizing prior with
  | nil => exact absurd rfl hne
  | cons e es ih =>
    cases es with
    | nil => simp [portionsFrom]
    | cons e' es' =>
      have := ih (prior + remaining * e.allocationBps / totalBps) (by simp)
      simp only [portionsFrom, List.dropLast_cons₂, List.map_cons, List.sum_cons,
        List.cons_append]
      rw [this]
      simp [Nat.add_assoc]

/-- The bps of all entries but the last add up to at most the bps of all. -/
theorem dropLast_bps_le (es : List StrategyEntry) :
    (es.dropLast.map fun e => e.allocationBps).sum ≤ (es.map fun e => e.allocationBps).sum := by
  induction es with
  | nil => simp
  | cons e es ih =>
    cases es with
    | nil => simp
    | cons e' es' =>
      simp only [List.dropLast_cons₂, List.map_cons, List.sum_cons] at ih ⊢
      omega

/-- The reserve amount never exceeds the deposit when `reserveBps` is within
`0..10000`. -/
theorem reserveAmt_le (D reserveBps : Nat) (hbps : reserveBps ≤ 10000) :
    D * reserveBps / 10000 ≤ D := by
  apply Nat.div_le_of_le_mul
  nlinarith

/-- The allocation hands out the whole deposit: reserve plus portions is `D`. -/
theorem allocate_sum (reserveBps : Nat) (registry : List StrategyEntry) (D : Nat)
    (hbps : reserveBps ≤ 10000) :
    (allocate reserveBps registry D).reserveAmt + (allocate reserveBps registry D).portions.sum
      = D := by
  unfold allocate
  split_ifs with hempty
  · simp
  · have hne : enabledEntries registry ≠ [] := by
      intro h; rw [h] at hempty; simp at hempty
    simp only
    rw [portionsFrom_eq _ _ _ _ hne]
    have h1 := reserveAmt_le D reserveBps hbps
    have h2 := floor_portions_le_remaining (D - D * reserveBps / 10000)
      (totalEnabledBps registry) (enabledEntries registry).dropLast (dropLast_bps_le _)
    simp only [List.sum_append, List.sum_cons, List.sum_nil]
    omega

/-- The allocation makes one portion for every enabled entry. -/
theorem allocate_length (reserveBps : Nat) (registry : List StrategyEntry) (D : Nat) :
    (allocate reserveBps registry D).portions.length = (enabledEntries registry).length := by
  unfold allocate
  split_ifs with hempty
  · simp at hempty; simp [hempty]
  · have hne : enabledEntries registry ≠ [] := by
      intro h; rw [h] at hempty; simp at hempty
    simp only
    rw [portionsFrom_eq _ _ _ _ hne]
    simp
    have := List.length_pos.mpr hne
    omega

/-- C3: for a deposit `D > 0`, `reserveBps` within `0..10000` and a registry
with at least one enabled strategy and positive enabled bps, the allocation
keeps `floor(D * reserveBps / 10000)` in reserve, gives every enabled strategy
but the last its rounded-down share of the remainder and the last what is left;
no amount is negative (the reserve is at most `D` and the earlier portions are at
most the remainder, so the subtractions are exact) and reserve plus portions
is exactly `D`. -/
theorem allocation_exact (D reserveBps : Nat) (registry : List StrategyEntry)
    (_hD : 0 < D) (hbps : reserveBps ≤ 10000) (hne : enabledEntries registry ≠ [])
    (_hT : 0 < totalEnabledBps registry) :
    (allocate reserveBps registry D).reserveAmt = D * reserveBps / 10000 ∧
      (allocate reserveBps registry D).reserveAmt ≤ D ∧
      (allocate reserveBps registry D).portions.dropLast =
        ((enabledEntries registry).dropLast.map fun e =>
          (D - D * reserveBps / 10000) * e.allocationBps / totalEnabledBps registry) ∧
      (allocate reserveBps registry D).portions.dropLast.sum ≤ D - D * reserveBps / 10000 ∧
      (allocate reserveBps registry D).portions.getLast? =
        some (D - D * reserveBps / 10000 -
          (allocate reserveBps registry D).portions.dropLast.sum) ∧
      (allocate reserveBps registry D).reserveAmt +
        (allocate reserveBps registry D).portions.sum = D := by
  have hsum := allocate_sum reserveBps registry D hbps
  have hempty : (enabledEntries registry).isEmpty = false := by
    cases h : enabledEntries registry with
    | nil => exact absurd h hne
    | cons _ _ => rfl
  have hport : (allocate reserveBps registry D).portions =
      ((enabledEntries registry).dropLast.map fun e =>
          (D - D * reserveBps / 10000) * e.allocationBps / totalEnabledBps registry) ++
        [D - D * reserveBps / 10000 - (0 +
          ((enabledEntries registry).dropLast.map fun e =>
            (D - D * reserveBps / 10000) * e.allocationBps / totalEnabledBps registry).sum)] := by
    simp only [allocate, hempty, Bool.false_eq_true, if_false]
    exact portionsFrom_eq _ _ _ _ hne
  have hres : (allocate reserveBps registry D).reserveAmt = D * reserveBps / 10000 := by
    simp [allocate, hempty]
  have hle := floor_portions_le_remaining (D - D * reserveBps / 10000)
      (totalEnabledBps registry) (enabledEntries registry).dropLast (dropLast_bps_le _)
  refine ⟨hres, ?_, ?_, ?_, ?_, hsum⟩
  · rw [hres]; exact reserveAmt_le D reserveBps hbps
  · rw [hport]; simp
  · rw [hport]; simpa using hle
  · rw [hport]; simp

/-- Witness of `allocation_exact`: 20003 units deposited into the deployed
registry with a 20% reserve. -/
theorem allocation_exact_witness :
    (allocate 2000 deployedRegistry 20003).reserveAmt = 20003 * 2000 / 10000 ∧
      (allocate 2000 deployedRegistry 20003).reserveAmt ≤ 20003 ∧
      (allocate 2000 deployedRegistry 20003).portions.dropLast =
        ((enabledEntries deployedRegistry).dropLast.map fun e =>
          (20003 - 20003 * 2000 / 10000) * e.allocationBps /
            totalEnabledBps deployedRegistry) ∧
      (allocate 2000 deployedRegistry 20003).portions.dropLast.sum ≤
        20003 - 20003 * 2000 / 10000 ∧
      (allocate 2000 deployedRegistry 20003).portions.getLast? =
        some (20003 - 20003 * 2000 / 10000 -
          (allocate 2000 deployedRegistry 20003).portions.dropLast.sum) ∧
      (allocate 2000 deployedRegistry 20003).reserveAmt +
        (allocate 2000 deployedRegistry 20003).portions.sum = 20003 :=
  allocation_exact 20003 2000 deployedRegistry (by decide) (by decide) (by decide) (by decide)

/-- C10: for every deposit `D` into the deployed registry (reserve 2000 bps,
strategies 1/2/3 at 3000/2500/2500 bps), the router makes three portions and
each bucket passes the test's `approxEq` against `floor(D * bucketBps / 10000)`
with the default tolerance of 5; for `D = 20000` the buckets are exactly 4000,
6000, 5000 and 5000, which add up to 20000. -/
theorem deployed_allocation_within_tolerance (D : Nat) :
    (∃ z s c : Nat,
      (allocate deployedReserveBps deployedRegistry D).portions = [z, s, c] ∧
      approxEq ((allocate deployedReserveBps deployedRegistry D).reserveAmt : Int)
        (expectReserve D deployedReserveBps : Nat) defaultTol = true ∧
      approxEq (z : Int) (expectZentra D : Nat) defaultTol = true ∧
      approxEq (s : Int) (expectSatsuma D : Nat) defaultTol = true ∧
      approxEq (c : Int) (expectCross D : Nat) defaultTol = true) ∧
    allocate deployedReserveBps deployedRegistry 20000 =
      { reserveAmt := 4000, portions := [6000, 5000, 5000] } ∧
    4000 + 6000 + 5000 + 5000 = 20000 := by
  refine ⟨⟨(D - D * 2000 / 10000) * 3000 / 8000, (D - D * 2000 / 10000) * 2500 / 8000,
    (D - D * 2000 / 10000) - ((D - D * 2000 / 10000) * 3000 / 8000 +
      (D - D * 2000 / 10000) * 2500 / 8000), ?_, ?_, ?_, ?_, ?_⟩, by decide, by decide⟩
  · simp [allocate, deployedRegistry, deployedReserveBps, enabledEntries, totalEnabledBps,
      portionsFrom]
  · simp [allocate, deployedRegistry, deployedReserveBps, enabledEntries, approxEq,
      expectReserve, defaultTol]
  · simp only [approxEq, expectZentra, defaultTol, decide_eq_true_eq]
    split_ifs <;> omega
  · simp only [approxEq, expectSatsuma, defaultTol, decide_eq_true_eq]
    split_ifs <;> omega
  · simp only [approxEq, expectCross, defaultTol, decide_eq_true_eq]
    split_ifs <;> omega

/-! ## The `_routeDivest` simulation of the scripts: theorems -/

/-- For a non-negative `need` the BigInt quotient of `pull` is the rounded-down
quotient. -/
theorem pull_eq_floor (need : Int) (balance total : Nat) (hneed : 0 ≤ need) :
    pull need balance total = need * (balance : Int) / (total : Int) := by
  unfold pull
  exact Int.tdiv_eq_ediv (Int.mul_nonneg hneed (Int.ofNat_nonneg _)) (Int.ofNat_nonneg _)

/-- The pulls of the eligible rows, against any positive total: `total` times
their sum is at most `need` times the enabled balances, and falls short of it by
at most `total - 1` per pull. -/
theorem pulls_bounds (need : Int) (total : Nat) (hneed : 0 ≤ need) (htotal : 0 < total)
    (rows : List StrategyReading) :
    (total : Int) * ((eligibleRows rows).map fun r => pull need r.adapterAssets total).sum ≤
        need * (totalStrategyAssets rows : Int) ∧
      need * (totalStrategyAssets rows : Int) ≤
        (total : Int) * ((eligibleRows rows).map fun r => pull need r.adapterAssets total).sum +
          ((eligibleRows rows).length : Int) * ((total : Int) - 1) := by
  have hT : (0 : Int) < (total : Int) := by exact_mod_cast htotal
  induction rows with
  | nil => simp [eligibleRows, totalStrategyAssets]
  | cons r rows ih =>
    obtain ⟨ih1, ih2⟩ := ih
    unfold eligibleRows totalStrategyAssets at ih1 ih2 ⊢
    by_cases he : r.enabled = true
    · by_cases hz : r.adapterAssets = 0
      · simp only [List.filter_cons, he, hz, bne_self_eq_false, Bool.and_false,
          Bool.false_eq_true, if_false, if_true, List.map_cons, List.sum_cons, Nat.zero_add]
        exact ⟨ih1, ih2⟩
      · have hb : (r.adapterAssets != 0) = true := by simpa using hz
        simp only [List.filter_cons, he, hb, Bool.and_self, if_true, List.map_cons,
          List.sum_cons, List.length_cons, Nat.cast_add, Nat.cast_one]
        rw [pull_eq_floor need r.adapterAssets total hneed]
        have h1 := Int.ediv_mul_le (need * (r.adapterAssets : Int)) (ne_of_gt hT)
        have h2 := Int.lt_ediv_add_one_mul_self (need * (r.adapterAssets : Int)) hT
        constructor
        · nlinarith
        · nlinarith
    · simp only [List.filter_cons, he, Bool.false_and, Bool.false_eq_true, if_false]
      exact ⟨ih1, ih2⟩

/-- A positive total of enabled balances means at least one eligible row. -/
theorem eligibleRows_length_pos (rows : List StrategyReading)
    (htotal : 0 < totalStrategyAssets rows) : 0 < (eligibleRows rows).length := by
  induction rows with
  | nil => simp [totalStrategyAssets] at htotal
  | cons r rows ih =>
    simp only [eligibleRows, totalStrategyAssets] at ih htotal ⊢
    by_cases he : r.enabled = true
    · by_cases hz : r.adapterAssets = 0
      · simp only [List.filter_cons, he, hz, bne_self_eq_false, Bool.and_false,
          Bool.false_eq_true, if_false, if_true, List.map_cons, List.sum_cons,
          Nat.zero_add] at htotal ⊢
        exact ih htotal
      · have hb : (r.adapterAssets != 0) = true := by simpa using hz
        simp [List.filter_cons, he, hb]
    · simp only [List.filter_cons, he, Bool.false_and, Bool.false_eq_true, if_false]
        at htotal ⊢
      exact ih htotal

/-- For a shortfall `need >= 0` and enabled balances with a positive total,
lined up with their strategies, every eligible strategy, the last included, is
asked for `floor(need * balance / total)`; the pulls add up to at most `need`
and fall short of it by less than the number of pulls. -/
theorem routeDivestPulls_sum_bounds (need : Int) (rows : List StrategyReading)
    (hneed : 0 ≤ need) (htotal : 0 < totalStrategyAssets rows) :
    routeDivestPulls need rows =
        ((eligibleRows rows).map fun r =>
          need * (r.adapterAssets : Int) / (totalStrategyAssets rows : Int)) ∧
      (routeDivestPulls need rows).sum ≤ need ∧
      need < (routeDivestPulls need rows).sum + ((routeDivestPulls need rows).length : Int) := by
  have hT : (0 : Int) < (totalStrategyAssets rows : Int) := by exact_mod_cast htotal
  have hdef : routeDivestPulls need rows =
      (eligibleRows rows).map fun r => pull need r.adapterAssets (totalStrategyAssets rows) := by
    unfold routeDivestPulls
    rw [if_neg (Nat.pos_iff_ne_zero.mp htotal)]
  obtain ⟨h1, h2⟩ := pulls_bounds need (totalStrategyAssets rows) hneed htotal rows
  rw [← hdef] at h1 h2
  have hlen : (routeDivestPulls need rows).length = (eligibleRows rows).length := by
    rw [hdef]; simp
  rw [← hlen] at h2
  refine ⟨?_, ?_, ?_⟩
  · rw [hdef]
    apply List.map_congr_left
    intro r _
    exact pull_eq_floor need r.adapterAssets _ hneed
  · nlinarith
  · have hlen0 : (0 : Int) < ((routeDivestPulls need rows).length : Int) := by
      rw [hlen]; exact_mod_cast eligibleRows_length_pos rows htotal
    by_contra hcon
    push_neg at hcon
    nlinarith

/-- The total of `debug_routedivest_issue.js` is the total of the rows, whether
or not a read was interrupted. -/
theorem probedTotal_eq (probes : List StrategyProbe) :
    probedTotal probes = totalStrategyAssets (probes.map StrategyProbe.reading) := by
  induction probes with
  | nil => rfl
  | cons p ps ih =>
    have hcons : totalStrategyAssets ((p :: ps).map StrategyProbe.reading) =
        (if p.enabled then (StrategyProbe.reading p).adapterAssets else 0) +
          totalStrategyAssets (ps.map StrategyProbe.reading) := by
      unfold totalStrategyAssets
      cases he : p.enabled <;> simp [List.filter_cons, StrategyProbe.reading, he]
    rw [hcons, ← ih]
    cases he : p.enabled
    · simp [probedTotal, he]
    · cases hr : p.read <;> simp [probedTotal, StrategyProbe.reading, he, hr]

/-- When no read is interrupted, the loop of `debug_routedivest_issue.js` pairs
every strategy with its own balance: its pulls are those of the rows. -/
theorem probedPairs_aligned (need : Int) (total : Nat) (probes : List StrategyProbe)
    (h : ∀ p ∈ probes, p.aligned = true) :
    (((probes.zip (probedBalances probes)).filter fun pb => pb.1.enabled && pb.2 != 0).map
        fun pb => pull need pb.2 total) =
      (eligibleRows (probes.map StrategyProbe.reading)).map fun r =>
        pull need r.adapterAssets total := by
  induction probes with
  | nil => rfl
  | cons p ps ih =>
    have ih' := ih (fun q hq => h q (List.mem_cons_of_mem _ hq))
    have hp := h p (List.mem_cons_self _ _)
    unfold eligibleRows at ih' ⊢
    cases he : p.enabled
    · simp only [probedBalances, pushedBalances, Bool.not_false, if_true,
        List.singleton_append, List.zip_cons_cons,
        List.filter_cons, he, Bool.false_and, Bool.false_eq_true, if_false, List.map_cons,
        StrategyProbe.reading]
      exact ih'
    · cases hr : p.read with
      | unread =>
        simp only [probedBalances, pushedBalances, Bool.not_true, Bool.false_eq_true,
          if_false, List.singleton_append, List.zip_cons_cons, List.filter_cons, he, bne_self_eq_false, Bool.and_false,
          List.map_cons, StrategyProbe.reading, hr]
        exact ih'
      | complete a =>
        by_cases ha : a = 0
        · subst ha
          simp only [probedBalances, pushedBalances, Bool.not_true, Bool.false_eq_true,
            if_false, List.singleton_append, List.zip_cons_cons, List.filter_cons, he, bne_self_eq_false, Bool.and_false,
            List.map_cons, StrategyProbe.reading, hr]
          exact ih'
        · have hb : (a != 0) = true := by simpa using ha
          simp only [probedBalances, pushedBalances, Bool.not_true, Bool.false_eq_true,
            if_false, List.singleton_append, List.zip_cons_cons, List.filter_cons, he, hb, Bool.and_self, if_true,
            List.map_cons, StrategyProbe.reading, hr]
          rw [ih']
      | interrupted a =>
        simp [StrategyProbe.aligned, he, hr] at hp

/-- C4, counterexample: a shortfall of 1 against two enabled strategies holding
1 each, both read in full (total 2, at least the shortfall): both pulls of
`debug_routedivest_issue.js` are `floor(1 * 1 / 2) = 0`, the last one included,
so the pulls add up to 0 and not to 1. -/
theorem probedPulls_dust_counterexample :
    (0 : Int) < 1 ∧ (1 : Int) ≤ (probedTotal [{ enabled := true, read := AdapterRead.complete 1 },
        { enabled := true, read := AdapterRead.complete 1 }] : Int) ∧
      probedPulls 1 [{ enabled := true, read := AdapterRead.complete 1 },
        { enabled := true, read := AdapterRead.complete 1 }] = [0, 0] ∧
      (probedPulls 1 [{ enabled := true, read := AdapterRead.complete 1 },
        { enabled := true, read := AdapterRead.complete 1 }]).sum ≠ 1 := by
  decide

/-- C4, amended: for a shortfall `need >= 0` and strategies with a positive
total, in a run of `debug_routedivest_issue.js` in which no read of an enabled
adapter is interrupted after its `totalAssets()`, the pulls are those of the
other two scripts: every eligible strategy, the last included, is asked for
`floor(need * balance / total)`; the pulls add up to at most `need` and fall
short of it by less than the number of pulls. -/
theorem probedPulls_sum_bounds (need : Int) (probes : List StrategyProbe)
    (hneed : 0 ≤ need) (htotal : 0 < probedTotal probes)
    (haligned : ∀ p ∈ probes, p.aligned = true) :
    probedBalances probes = strategyBalances (probes.map StrategyProbe.reading) ∧
      probedPulls need probes = routeDivestPulls need (probes.map StrategyProbe.reading) ∧
      probedPulls need probes =
        ((eligibleRows (probes.map StrategyProbe.reading)).map fun r =>
          need * (r.adapterAssets : Int) / (probedTotal probes : Int)) ∧
      (probedPulls need probes).sum ≤ need ∧
      need < (probedPulls need probes).sum + ((probedPulls need probes).length : Int) := by
  have htot := probedTotal_eq probes
  have hpulls : probedPulls need probes =
      routeDivestPulls need (probes.map StrategyProbe.reading) := by
    unfold probedPulls routeDivestPulls
    rw [← htot, if_neg (Nat.pos_iff_ne_zero.mp htotal), if_neg (Nat.pos_iff_ne_zero.mp htotal)]
    exact probedPairs_aligned need (probedTotal probes) probes haligned
  have hbal : probedBalances probes = strategyBalances (probes.map StrategyProbe.reading) := by
    clear hpulls htot htotal
    induction probes with
    | nil => rfl
    | cons p ps ih =>
      have ih' := ih (fun q hq => haligned q (List.mem_cons_of_mem _ hq))
      have hp := haligned p (List.mem_cons_self _ _)
      unfold strategyBalances at ih' ⊢
      cases he : p.enabled
      · simp [probedBalances, pushedBalances, ih', StrategyProbe.reading, he]
      · cases hr : p.read with
        | unread => simp [probedBalances, pushedBalances, ih', StrategyProbe.reading, he, hr]
        | complete a =>
          simp [probedBalances, pushedBalances, ih', StrategyProbe.reading, he, hr]
        | interrupted a => simp [StrategyProbe.aligned, he, hr] at hp
  have htotal' : 0 < totalStrategyAssets (probes.map StrategyProbe.reading) := by
    rw [← htot]; exact htotal
  obtain ⟨h1, h2, h3⟩ :=
    routeDivestPulls_sum_bounds need (probes.map StrategyProbe.reading) hneed htotal'
  rw [← hpulls] at h1 h2 h3
  rw [← htot] at h1
  exact ⟨hbal, hpulls, h1, h2, h3⟩

/-- Witness of `probedPulls_sum_bounds`: a shortfall of 10 against an enabled
strategy with 1, a disabled one, an enabled one with 2 and an enabled one whose
`totalAssets()` could not be read. -/
theorem probedPulls_sum_bounds_witness :
    probedBalances [⟨true, AdapterRead.complete 1⟩, ⟨false, AdapterRead.unread⟩,
        ⟨true, AdapterRead.complete 2⟩, ⟨true, AdapterRead.unread⟩] =
      strategyBalances ([⟨true, AdapterRead.complete 1⟩, ⟨false, AdapterRead.unread⟩,
        ⟨true, AdapterRead.complete 2⟩, ⟨true, AdapterRead.unread⟩].map StrategyProbe.reading) ∧
      probedPulls 10 [⟨true, AdapterRead.complete 1⟩, ⟨false, AdapterRead.unread⟩,
          ⟨true, AdapterRead.complete 2⟩, ⟨true, AdapterRead.unread⟩] =
        routeDivestPulls 10 ([⟨true, AdapterRead.complete 1⟩, ⟨false, AdapterRead.unread⟩,
          ⟨true, AdapterRead.complete 2⟩, ⟨true, AdapterRead.unread⟩].map
            StrategyProbe.reading) ∧
      probedPulls 10 [⟨true, AdapterRead.complete 1⟩, ⟨false, AdapterRead.unread⟩,
          ⟨true, AdapterRead.complete 2⟩, ⟨true, AdapterRead.unread⟩] =
        ((eligibleRows ([⟨true, AdapterRead.complete 1⟩, ⟨false, AdapterRead.unread⟩,
          ⟨true, AdapterRead.complete 2⟩, ⟨true, AdapterRead.unread⟩].map
            StrategyProbe.reading)).map fun r =>
          (10 : Int) * (r.adapterAssets : Int) /
            (probedTotal [⟨true, AdapterRead.complete 1⟩, ⟨false, AdapterRead.unread⟩,
              ⟨true, AdapterRead.complete 2⟩, ⟨true, AdapterRead.unread⟩] : Int)) ∧
      (probedPulls 10 [⟨true, AdapterRead.complete 1⟩, ⟨false, AdapterRead.unread⟩,
          ⟨true, AdapterRead.complete 2⟩, ⟨true, AdapterRead.unread⟩]).sum ≤ 10 ∧
      (10 : Int) < (probedPulls 10 [⟨true, AdapterRead.complete 1⟩, ⟨false, AdapterRead.unread⟩,
          ⟨true, AdapterRead.complete 2⟩, ⟨true, AdapterRead.unread⟩]).sum +
        ((probedPulls 10 [⟨true, AdapterRead.complete 1⟩, ⟨false, AdapterRead.unread⟩,
          ⟨true, AdapterRead.complete 2⟩, ⟨true, AdapterRead.unread⟩]).length : Int) :=
  probedPulls_sum_bounds 10 [⟨true, AdapterRead.complete 1⟩, ⟨false, AdapterRead.unread⟩,
      ⟨true, AdapterRead.complete 2⟩, ⟨true, AdapterRead.unread⟩]
    (by decide) (by decide) (by decide)

/-- An interrupted read, which the bounds above leave out: the first adapter
reports 10 and a later call on it throws, the second reports 10.  The array is
`[10, 0, 10]`, the second strategy meets the entry `0` and is skipped, and a
shortfall of 10 is met by a single pull of 5. -/
theorem probedPulls_interrupted_example :
    probedBalances [⟨true, AdapterRead.interrupted 10⟩, ⟨true, AdapterRead.complete 10⟩] =
        [10, 0, 10] ∧
      probedTotal [⟨true, AdapterRead.interrupted 10⟩, ⟨true, AdapterRead.complete 10⟩] = 20 ∧
      probedPulls 10 [⟨true, AdapterRead.interrupted 10⟩, ⟨true, AdapterRead.complete 10⟩] =
        [5] := by
  decide

/-! ## The divestment router and the vault operations: theorems -/

/-- What the adapters return never exceeds what the enabled strategies hold. -/
theorem pullFrom_returned_le (offer : Nat → Nat → Nat) (need total : Nat)
    (ss : List Strategy) (acc : Nat) :
    (pullFrom offer need total ss acc).2 ≤ acc + enabledStrategyAssets ss := by
  induction ss generalizing acc with
  | nil => simp [pullFrom, enabledStrategyAssets]
  | cons s ss ih =>
    unfold pullFrom
    by_cases he : eligible s = true
    · have hen : s.entry.enabled = true := by
        unfold eligible at he
        simp only [Bool.and_eq_true] at he
        exact he.1
      simp only [he, if_true]
      have h := ih (acc + actualReturned offer s
        (if ss.any eligible = true then need * s.assets / total else need - acc))
      have hgot : actualReturned offer s
          (if ss.any eligible = true then need * s.assets / total else need - acc) ≤ s.assets := by
        unfold actualReturned
        exact le_trans (Nat.min_le_right _ _) (Nat.min_le_right _ _)
      have hsum : enabledStrategyAssets (s :: ss) = s.assets + enabledStrategyAssets ss := by
        simp [enabledStrategyAssets, List.filter_cons, hen]
      rw [hsum]
      omega
    · simp only [he, Bool.false_eq_true, if_false]
      have h := ih acc
      have hsum : enabledStrategyAssets ss ≤ enabledStrategyAssets (s :: ss) := by
        unfold enabledStrategyAssets
        by_cases hen : s.entry.enabled = true
        · simp [List.filter_cons, hen]
        · simp [List.filter_cons, hen]
      omega

/-- A request beyond the reserve and the enabled strategy balances makes the
router fail with `InsufficientLiquidity`. -/
theorem routeDivest_insufficient (offer : Nat → Nat → Nat) (R reserveBalance : Nat)
    (ss : List Strategy) (hR : reserveBalance + enabledStrategyAssets ss < R) :
    routeDivest offer R reserveBalance ss = Except.error VaultError.InsufficientLiquidity := by
  unfold routeDivest
  have h1 : ¬ R ≤ reserveBalance := by omega
  rw [if_neg h1]
  simp only
  split_ifs with h2 h3
  · rfl
  · rfl
  · exfalso
    have h := pullFrom_returned_le offer (R - reserveBalance) (enabledStrategyAssets ss) ss 0
    omega

/-- C1: a withdrawal whose request `R` (the `assetsForShares` of the shares
redeemed) exceeds the reserve balance plus the `totalAssets()` of the enabled
strategies is failed by the router with `InsufficientLiquidity`, whatever the
adapters offer; the call leaves the whole state (share balances, reserve
balance, every strategy balance) as it was, and its failure is
`InsufficientLiquidity` for every account that holds the shares it redeems. -/
theorem withdraw_insufficient_liquidity (offer : Nat → Nat → Nat) (account shares : Nat)
    (v : Vault)
    (hR : v.reserveBalance + enabledStrategyAssets v.strategies <
      Spec.assetsForShares shares v.totalAssets v.totalShares) :
    routeDivest offer (Spec.assetsForShares shares v.totalAssets v.totalShares)
        v.reserveBalance v.strategies = Except.error VaultError.InsufficientLiquidity ∧
      (withdraw offer account shares v).state = v ∧
      (shares ≤ v.balanceOf account →
        (withdraw offer account shares v).result =
          Except.error VaultError.InsufficientLiquidity) := by
  have hroute := routeDivest_insufficient offer _ v.reserveBalance v.strategies hR
  refine ⟨hroute, ?_, ?_⟩
  · unfold withdraw
    split_ifs
    · rfl
    · simp only [hroute]
  · intro hbal
    unfold withdraw
    rw [if_neg (by omega)]
    simp only [hroute]

/-- Witness of `withdraw_insufficient_liquidity`: account 7 redeems all 100
shares of the strained vault, a request of 100 against 10 in reserve and 20 in
the strategies, with adapters that offer whatever is asked. -/
theorem withdraw_insufficient_liquidity_witness :
    routeDivest (fun _ requested => requested)
        (Spec.assetsForShares 100 strainedVault.totalAssets strainedVault.totalShares)
        strainedVault.reserveBalance strainedVault.strategies =
          Except.error VaultError.InsufficientLiquidity ∧
      (withdraw (fun _ requested => requested) 7 100 strainedVault).state = strainedVault ∧
      (100 ≤ strainedVault.balanceOf 7 →
        (withdraw (fun _ requested => requested) 7 100 strainedVault).result =
          Except.error VaultError.InsufficientLiquidity) :=
  withdraw_insufficient_liquidity (fun _ requested => requested) 7 100 strainedVault
    (by decide)

/-- Investing adds exactly the portions to the strategy balances, when there is
at most one portion per enabled strategy. -/
theorem investAll_assets (ss : List Strategy) (ps : List Nat)
    (hlen : ps.length ≤ ((ss.map fun s => s.entry).filter fun e => e.enabled).length) :
    strategyAssets (investAll ss ps) = strategyAssets ss + ps.sum := by
  induction ss generalizing ps with
  | nil =>
    simp at hlen
    simp [investAll, strategyAssets, hlen]
  | cons s ss ih =>
    unfold investAll
    by_cases he : s.entry.enabled = true
    · simp only [he, if_true]
      cases ps with
      | nil =>
        have := ih [] (by simp)
        simp only [strategyAssets, List.map_cons, List.sum_cons, List.sum_nil] at this ⊢
        omega
      | cons p ps' =>
        have hlen' : ps'.length ≤
            ((ss.map fun s => s.entry).filter fun e => e.enabled).length := by
          simp [List.filter_cons, he] at hlen
          exact hlen
        have := ih ps' hlen'
        simp only [strategyAssets, List.map_cons, List.sum_cons] at this ⊢
        omega
    · simp only [he, Bool.false_eq_true, if_false]
      have hlen' : ps.length ≤
          ((ss.map fun s => s.entry).filter fun e => e.enabled).length := by
        simp [List.filter_cons, he] at hlen
        exact hlen
      have := ih ps hlen'
      simp only [strategyAssets, List.map_cons, List.sum_cons] at this ⊢
      omega

/-- Investing leaves every disabled strategy as it was. -/
theorem investAll_disabled (ss : List Strategy) (ps : List Nat)
    (h : ∀ s ∈ ss, s.entry.enabled = false → s.assets = 0) :
    ∀ s ∈ investAll ss ps, s.entry.enabled = false → s.assets = 0 := by
  induction ss generalizing ps with
  | nil => simp [investAll]
  | cons s ss ih =>
    have hs := h s (List.mem_cons_self _ _)
    have hss : ∀ t ∈ ss, t.entry.enabled = false → t.assets = 0 :=
      fun t ht => h t (List.mem_cons_of_mem _ ht)
    unfold investAll
    by_cases he : s.entry.enabled = true
    · simp only [he, if_true]
      cases ps with
      | nil =>
        intro t ht
        rcases List.mem_cons.mp ht with rfl | ht'
        · exact hs
        · exact ih [] hss t ht'
      | cons p ps' =>
        intro t ht
        rcases List.mem_cons.mp ht with rfl | ht'
        · intro hdis
          simp [he] at hdis
        · exact ih ps' hss t ht'
    · simp only [he, Bool.false_eq_true, if_false]
      intro t ht
      rcases List.mem_cons.mp ht with rfl | ht'
      · exact hs
      · exact ih ps hss t ht'

/-- Divesting moves assets from the strategies to the accumulator, unit for
unit. -/
theorem pullFrom_assets (offer : Nat → Nat → Nat) (need total : Nat) (ss : List Strategy)
    (acc : Nat) :
    strategyAssets (pullFrom offer need total ss acc).1 + (pullFrom offer need total ss acc).2 =
      strategyAssets ss + acc := by
  induction ss generalizing acc with
  | nil => simp [pullFrom, strategyAssets]
  | cons s ss ih =>
    unfold pullFrom
    by_cases he : eligible s = true
    · simp only [he, if_true]
      have h := ih (acc + actualReturned offer s
        (if ss.any eligible = true then need * s.assets / total else need - acc))
      have hgot : actualReturned offer s
          (if ss.any eligible = true then need * s.assets / total else need - acc) ≤ s.assets := by
        unfold actualReturned
        exact le_trans (Nat.min_le_right _ _) (Nat.min_le_right _ _)
      simp only [strategyAssets, List.map_cons, List.sum_cons] at h ⊢
      omega
    · simp only [he, Bool.false_eq_true, if_false]
      have h := ih acc
      simp only [strategyAssets, List.map_cons, List.sum_cons] at h ⊢
      omega

/-- Divesting leaves every disabled strategy as it was. -/
theorem pullFrom_disabled (offer : Nat → Nat → Nat) (need total : Nat) (ss : List Strategy)
    (acc : Nat) (h : ∀ s ∈ ss, s.entry.enabled = false → s.assets = 0) :
    ∀ s ∈ (pullFrom offer need total ss acc).1, s.entry.enabled = false → s.assets = 0 := by
  induction ss generalizing acc with
  | nil => simp [pullFrom]
  | cons s ss ih =>
    have hs := h s (List.mem_cons_self _ _)
    have hss : ∀ t ∈ ss, t.entry.enabled = false → t.assets = 0 :=
      fun t ht => h t (List.mem_cons_of_mem _ ht)
    unfold pullFrom
    by_cases he : eligible s = true
    · simp only [he, if_true]
      intro t ht
      rcases List.mem_cons.mp ht with rfl | ht'
      · intro hdis
        have := hs hdis
        simp only [this, Nat.zero_sub]
      · exact ih _ hss t ht'
    · simp only [he, Bool.false_eq_true, if_false]
      intro t ht
      rcases List.mem_cons.mp ht with rfl | ht'
      · exact hs
      · exact ih _ hss t ht'

/-- When the disabled strategies hold nothing, the enabled balances are all the
balances. -/
theorem enabledStrategyAssets_eq (ss : List Strategy)
    (h : ∀ s ∈ ss, s.entry.enabled = false → s.assets = 0) :
    enabledStrategyAssets ss = strategyAssets ss := by
  induction ss with
  | nil => rfl
  | cons s ss ih =>
    have hs := h s (List.mem_cons_self _ _)
    have hss : ∀ t ∈ ss, t.entry.enabled = false → t.assets = 0 :=
      fun t ht => h t (List.mem_cons_of_mem _ ht)
    have := ih hss
    unfold enabledStrategyAssets strategyAssets at this ⊢
    by_cases he : s.entry.enabled = true
    · simp [List.filter_cons, he, this]
    · have he' : s.entry.enabled = false := by simpa using he
      simp [List.filter_cons, he', hs he', this]

/-- An initial state is settled, with no NAV from harvests. -/
theorem settled_of_initial (v : Vault) (h : IsInitial v) : SettledWith 0 v := by
  obtain ⟨hA, _, hbps, hR, hzero, _, _⟩ := h
  refine ⟨?_, hbps, fun s hs _ => hzero s hs⟩
  have : strategyAssets v.strategies = 0 := by
    unfold strategyAssets
    apply List.sum_eq_zero
    intro x hx
    obtain ⟨s, hs, rfl⟩ := List.mem_map.mp hx
    exact hzero s hs
  omega

/-- A deposit keeps the state settled, with the same NAV from harvests. -/
theorem deposit_settled (receiver D K : Nat) (v : Vault) (h : SettledWith K v) :
    SettledWith K (deposit receiver D v).state := by
  obtain ⟨hinv, hbps, hdis⟩ := h
  unfold deposit
  split_ifs with hD
  · exact ⟨hinv, hbps, hdis⟩
  · cases hsh : Spec.sharesForDeposit D v.totalAssets v.totalShares with
    | none => exact ⟨hinv, hbps, hdis⟩
    | some shares =>
      simp only
      have hsum := allocate_sum v.reserveBps (v.strategies.map fun s => s.entry) D hbps
      have hlen := allocate_length v.reserveBps (v.strategies.map fun s => s.entry) D
      have hinvest := investAll_assets v.strategies
        (allocate v.reserveBps (v.strategies.map fun s => s.entry) D).portions
        (by rw [hlen]; exact le_refl _)
      refine ⟨?_, hbps, investAll_disabled _ _ hdis⟩
      simp only [hinvest]
      omega

/-- A successful routing takes exactly `R` out of the reserve and the
strategies, and leaves every disabled strategy as it was. -/
theorem routeDivest_ok (offer : Nat → Nat → Nat) (R reserveBalance : Nat) (ss : List Strategy)
    (reserve' : Nat) (ss' : List Strategy)
    (hroute : routeDivest offer R reserveBalance ss = Except.ok (reserve', ss'))
    (hdis : ∀ s ∈ ss, s.entry.enabled = false → s.assets = 0) :
    reserve' + strategyAssets ss' + R = reserveBalance + strategyAssets ss ∧
      ∀ s ∈ ss', s.entry.enabled = false → s.assets = 0 := by
  by_cases h1 : R ≤ reserveBalance
  · simp only [routeDivest, h1, if_true, Except.ok.injEq, Prod.mk.injEq] at hroute
    obtain ⟨hr, hs⟩ := hroute
    subst hr hs
    exact ⟨by omega, hdis⟩
  · by_cases h2 : enabledStrategyAssets ss = 0
    · simp [routeDivest, h1, h2] at hroute
    · by_cases h3 : reserveBalance +
          (pullFrom offer (R - reserveBalance) (enabledStrategyAssets ss) ss 0).2 < R
      · simp [routeDivest, h1, h2, h3] at hroute
      · simp only [routeDivest, h1, h2, h3, if_false, Except.ok.injEq, Prod.mk.injEq] at hroute
        obtain ⟨hr, hs⟩ := hroute
        have hassets := pullFrom_assets offer (R - reserveBalance)
          (enabledStrategyAssets ss) ss 0
        have hdis' := pullFrom_disabled offer (R - reserveBalance)
          (enabledStrategyAssets ss) ss 0 hdis
        subst hr hs
        exact ⟨by omega, hdis'⟩

/-- A withdrawal keeps the state settled, with the same NAV from harvests. -/
theorem withdraw_settled (offer : Nat → Nat → Nat) (account shares K : Nat) (v : Vault)
    (h : SettledWith K v) : SettledWith K (withdraw offer account shares v).state := by
  obtain ⟨hinv, hbps, hdis⟩ := h
  unfold withdraw
  split_ifs with hbal
  · exact ⟨hinv, hbps, hdis⟩
  · simp only
    cases hroute : routeDivest offer (Spec.assetsForShares shares v.totalAssets v.totalShares)
        v.reserveBalance v.strategies with
    | error e => exact ⟨hinv, hbps, hdis⟩
    | ok res =>
      obtain ⟨reserve', ss'⟩ := res
      obtain ⟨hsum, hdis'⟩ := routeDivest_ok offer _ _ _ reserve' ss' hroute hdis
      refine ⟨?_, hbps, hdis'⟩
      simp only
      omega

/-- A harvest leaves the reserve balance, the strategies, the reserve share and
the share ledger as they are, and does not lower `totalAssets`. -/
theorem harvest_frame (Y : Nat) (toCollateral : Nat → Nat) (v : Vault) :
    (harvest Y toCollateral v).state.reserveBalance = v.reserveBalance ∧
      (harvest Y toCollateral v).state.strategies = v.strategies ∧
      (harvest Y toCollateral v).state.reserveBps = v.reserveBps ∧
      (harvest Y toCollateral v).state.totalShares = v.totalShares ∧
      (harvest Y toCollateral v).state.balanceOf = v.balanceOf ∧
      v.totalAssets ≤ (harvest Y toCollateral v).state.totalAssets := by
  unfold harvest
  simp only
  split_ifs with hp
  · exact ⟨rfl, rfl, rfl, rfl, rfl, le_refl _⟩
  · exact ⟨rfl, rfl, rfl, rfl, rfl, by simp only; omega⟩

/-- An operation keeps the state settled; a harvest adds its gain to the NAV
from harvests. -/
theorem step_settled (op : Op) (K : Nat) (v : Vault) (h : SettledWith K v) :
    SettledWith (K + harvestGain v op) (step v op) := by
  cases op with
  | deposit receiver D =>
    simp only [harvestGain, step, Nat.add_zero]
    exact deposit_settled receiver D K v h
  | withdraw offer account shares =>
    simp only [harvestGain, step, Nat.add_zero]
    exact withdraw_settled offer account shares K v h
  | harvest Y toCollateral =>
    obtain ⟨hinv, hbps, hdis⟩ := h
    obtain ⟨hR, hS, hB, _, _, hle⟩ := harvest_frame Y toCollateral v
    simp only [harvestGain, step]
    refine ⟨?_, ?_, ?_⟩
    · rw [hR, hS]
      omega
    · rw [hB]
      exact hbps
    · rw [hS]
      exact hdis

/-- Every run from a settled state ends in a settled state, with the gains of
its harvests added to the NAV from harvests. -/
theorem run_settled (ops : List Op) (K : Nat) (v : Vault) (h : SettledWith K v) :
    SettledWith (K + harvestedNav v ops) (run v ops) := by
  induction ops generalizing v K with
  | nil => exact h
  | cons op ops ih =>
    have hstep := ih (K + harvestGain v op) (step v op) (step_settled op K v h)
    unfold run at hstep ⊢
    simp only [List.foldl_cons, harvestedNav]
    rw [← Nat.add_assoc]
    exact hstep

/-- A run without a harvest adds no NAV from harvests. -/
theorem harvestedNav_no_harvest (ops : List Op) (v : Vault)
    (h : ∀ op ∈ ops, Op.isHarvest op = false) : harvestedNav v ops = 0 := by
  induction ops generalizing v with
  | nil => rfl
  | cons op ops ih =>
    have hrest := ih (step v op) (fun o ho => h o (List.mem_cons_of_mem _ ho))
    have hop := h op (List.mem_cons_self _ _)
    simp only [harvestedNav, hrest, Nat.add_zero]
    cases op with
    | deposit receiver D => rfl
    | withdraw offer account shares => rfl
    | harvest Y toCollateral => simp [Op.isHarvest] at hop

/-- C5, counterexample: on the deployed vault, a deposit of 20000 followed by a
harvest of the 50 USDC of profit that the test scripts mint, at the fallback
price.  The harvest adds 41781 to `totalAssets`; the reserve balance plus the
strategy balances is still the 20000 deposited. -/
theorem totalAssets_harvest_counterexample :
    IsInitial deployedVault ∧
      (run deployedVault [Op.deposit 7 20000,
        Op.harvest mintedProfit (toCollateralAt fallbackBtcPriceE8)]).totalAssets = 61781 ∧
      (run deployedVault [Op.deposit 7 20000,
        Op.harvest mintedProfit (toCollateralAt fallbackBtcPriceE8)]).reserveBalance +
        strategyAssets (run deployedVault [Op.deposit 7 20000,
          Op.harvest mintedProfit (toCollateralAt fallbackBtcPriceE8)]).strategies = 20000 ∧
      ¬ ((run deployedVault [Op.deposit 7 20000,
          Op.harvest mintedProfit (toCollateralAt fallbackBtcPriceE8)]).totalAssets =
        (run deployedVault [Op.deposit 7 20000,
          Op.harvest mintedProfit (toCollateralAt fallbackBtcPriceE8)]).reserveBalance +
          strategyAssets (run deployedVault [Op.deposit 7 20000,
            Op.harvest mintedProfit (toCollateralAt fallbackBtcPriceE8)]).strategies) := by
  refine ⟨⟨rfl, rfl, by decide, rfl, by decide, fun _ => rfl, rfl⟩, ?_, ?_, ?_⟩
  · decide
  · decide
  · decide

/-- C5, amended: in every state reached from an initial vault state by a
sequence of deposit, withdraw and harvest operations, `totalAssets` is the
reserve balance held at the vault plus the sum of `totalAssets()` over the
strategy adapters (all of them, or the enabled ones that the scripts add up)
plus the NAV that the harvests of the run have added; when the run has no
harvest, it is the reserve balance plus the strategy balances.  A harvest
leaves the reserve balance and the strategies as they are and does not lower
`totalAssets`. -/
theorem totalAssets_invariant (v₀ : Vault) (ops : List Op) (h : IsInitial v₀) :
    (run v₀ ops).totalAssets =
        (run v₀ ops).reserveBalance + strategyAssets (run v₀ ops).strategies +
          harvestedNav v₀ ops ∧
      (run v₀ ops).totalAssets =
        (run v₀ ops).reserveBalance + enabledStrategyAssets (run v₀ ops).strategies +
          harvestedNav v₀ ops ∧
      ((∀ op ∈ ops, Op.isHarvest op = false) →
        (run v₀ ops).totalAssets =
            (run v₀ ops).reserveBalance + strategyAssets (run v₀ ops).strategies ∧
          (run v₀ ops).totalAssets =
            (run v₀ ops).reserveBalance + enabledStrategyAssets (run v₀ ops).strategies) ∧
      (∀ (Y : Nat) (toCollateral : Nat → Nat) (v : Vault),
        (harvest Y toCollateral v).state.reserveBalance = v.reserveBalance ∧
          (harvest Y toCollateral v).state.strategies = v.strategies ∧
          v.totalAssets ≤ (harvest Y toCollateral v).state.totalAssets) := by
  have hrun := run_settled ops 0 v₀ (settled_of_initial v₀ h)
  rw [Nat.zero_add] at hrun
  obtain ⟨hinv, _, hdis⟩ := hrun
  have hen := enabledStrategyAssets_eq _ hdis
  refine ⟨hinv, by rw [hen]; exact hinv, ?_, ?_⟩
  · intro hno
    have h0 := harvestedNav_no_harvest ops v₀ hno
    rw [h0, Nat.add_zero] at hinv
    exact ⟨hinv, by rw [hen]; exact hinv⟩
  · intro Y toCollateral v
    obtain ⟨hR, hS, _, _, _, hle⟩ := harvest_frame Y toCollateral v
    exact ⟨hR, hS, hle⟩

/-- Witness of `totalAssets_invariant`: the sample run on the deployed vault. -/
theorem totalAssets_invariant_witness :
    IsInitial deployedVault ∧
      ((run deployedVault sampleRun).totalAssets =
          (run deployedVault sampleRun).reserveBalance +
            strategyAssets (run deployedVault sampleRun).strategies +
            harvestedNav deployedVault sampleRun ∧
        (run deployedVault sampleRun).totalAssets =
          (run deployedVault sampleRun).reserveBalance +
            enabledStrategyAssets (run deployedVault sampleRun).strategies +
            harvestedNav deployedVault sampleRun ∧
        ((∀ op ∈ sampleRun, Op.isHarvest op = false) →
          (run deployedVault sampleRun).totalAssets =
              (run deployedVault sampleRun).reserveBalance +
                strategyAssets (run deployedVault sampleRun).strategies ∧
            (run deployedVault sampleRun).totalAssets =
              (run deployedVault sampleRun).reserveBalance +
                enabledStrategyAssets (run deployedVault sampleRun).strategies) ∧
        (∀ (Y : Nat) (toCollateral : Nat → Nat) (v : Vault),
          (harvest Y toCollateral v).state.reserveBalance = v.reserveBalance ∧
            (harvest Y toCollateral v).state.strategies = v.strategies ∧
            v.totalAssets ≤ (harvest Y toCollateral v).state.totalAssets)) :=
  ⟨⟨rfl, rfl, by decide, rfl, by decide, fun _ => rfl, rfl⟩,
    totalAssets_invariant deployedVault sampleRun
      ⟨rfl, rfl, by decide, rfl, by decide, fun _ => rfl, rfl⟩⟩

/-! ## The withdrawal split, the UI handlers and the share price: theorems -/

/-- C11: for every requested amount `R` and reserve balance `B`, the split of
`diagnose_withdrawal_issue.js` adds up to `R`, takes at most `B` from the
reserve, and asks the strategies for nothing exactly when `R <= B`, otherwise
for `R - B`; the branch of `investigate_balance_issue.js` agrees with it. -/
theorem withdrawal_split (R B : Nat) :
    needFromReserve R B + needFromStrategies R B = R ∧
      needFromReserve R B ≤ B ∧
      (needFromStrategies R B = 0 ↔ R ≤ B) ∧
      needFromStrategies R B = (if R ≤ B then 0 else R - B) ∧
      needFromReserve R B = (if R ≤ B then R else B) ∧
      investigatedNeed R B = (if R ≤ B then none else some (needFromStrategies R B)) := by
  unfold needFromReserve needFromStrategies investigatedNeed
  by_cases h : R ≤ B
  · have h' : ¬ R > B := by omega
    simp [h, h']
  · have h' : R > B := by omega
    have h'' : ¬ B ≥ R := by omega
    refine ⟨?_, ?_, ?_, ?_, ?_, ?_⟩
    · rw [if_neg h, if_pos h']; omega
    · rw [if_neg h]
    · rw [if_pos h']
      constructor
      · intro h0; omega
      · intro hle; omega
    · rw [if_pos h', if_neg h]
    · rfl
    · rw [if_neg h'', if_neg h, if_pos h']

/-- C12, the code at the failing inputs: with a wallet connected, `doDeposit`
and `doDepositCross` call `writeContract` with a value of `0` for an empty
amount field and for a field that reads as zero, while `handleDeposit` of the
vault card rejects both. -/
theorem dashboard_deposit_submits_zero (text : String) (vaultType : VaultType)
    (leverageLoops : Int) :
    doDeposit true AmountField.empty = UiAction.submitted 0 none ∧
      doDeposit true (AmountField.zero text) = UiAction.submitted 0 none ∧
      doDepositCross true AmountField.empty = UiAction.submitted 0 none ∧
      doDepositCross true (AmountField.zero text) = UiAction.submitted 0 none ∧
      handleDeposit true true vaultType AmountField.empty leverageLoops = UiAction.rejected ∧
      handleDeposit true true vaultType (AmountField.zero text) leverageLoops =
        UiAction.rejected := by
  refine ⟨rfl, rfl, rfl, rfl, rfl, rfl⟩

/-- C18, the code at the failing input: a loop count of 50 typed into the field
is kept as it is by the change handler and passed on by `handleDeposit` to the
maximized vault, above the `max="10"` of the field; so is every non-zero count,
a negative one included. -/
theorem leverage_loops_not_clamped :
    onLeverageLoopsChange (some 50) = 50 ∧
      handleDeposit true true VaultType.maximized
          (AmountField.positive "0.5" 500000000000000000) (onLeverageLoopsChange (some 50)) =
        UiAction.submitted 50000000 (some 50) ∧
      ¬ ((50 : Int) ≤ 10) ∧
      onLeverageLoopsChange (some (-3)) = -3 ∧
      (∀ n : Int, n ≠ 0 → onLeverageLoopsChange (some n) = n) := by
  refine ⟨by decide, by decide, by decide, by decide, ?_⟩
  intro n hn
  simp [onLeverageLoopsChange, hn]

/-- C19, counterexample: with 3 assets and 2 shares a deposit of 1 mints
`floor(1 * 2 / 3) = 0` shares, and the share price goes from 3/2 to 4/2, both
as the vault card computes it and as a fraction. -/
theorem deposit_price_rise_counterexample :
    expectedShares 1 3 2 = some 0 ∧
      sharePrice (some 3) (some 2) < sharePrice (some (3 + 1)) (some (2 + 0)) ∧
      ((3 : ℚ) / 2 < ((3 : ℚ) + 1) / ((2 : ℚ) + 0)) := by
  refine ⟨by decide, by decide, by norm_num⟩

/-- C19, amended: for `A > 0`, `S > 0` and a deposit `D` that mints
`shares = floor(D * S / A)`, the share price after the deposit is not lower than
the price before it, as a fraction and as the vault card computes it, and it is
higher by rounding only: `(A + D) * S` exceeds `A * (S + shares)` by less
than `A`. -/
theorem deposit_price_not_lower (A S D shares : Nat) (hA : 0 < A) (hS : 0 < S)
    (h : expectedShares D A S = some shares) :
    A * (S + shares) ≤ (A + D) * S ∧
      (A + D) * S < A * (S + shares) + A ∧
      (A : ℚ) / (S : ℚ) ≤ ((A : ℚ) + (D : ℚ)) / ((S : ℚ) + (shares : ℚ)) ∧
      sharePrice (some A) (some S) ≤ sharePrice (some (A + D)) (some (S + shares)) := by
  have hA' : A ≠ 0 := Nat.pos_iff_ne_zero.mp hA
  have hS' : S ≠ 0 := Nat.pos_iff_ne_zero.mp hS
  have hsh : shares = D * S / A := by
    simp [expectedShares, hA', hS'] at h
    exact h.symm
  have h1 : A * shares ≤ D * S := by
    rw [hsh]; exact Nat.mul_div_le (D * S) A
  have h2 : D * S < A * shares + A := by
    rw [hsh]
    have := Nat.lt_div_mul_add (a := D * S) hA
    nlinarith
  have hle : A * (S + shares) ≤ (A + D) * S := by nlinarith
  refine ⟨hle, by nlinarith, ?_, ?_⟩
  · have hSq : (0 : ℚ) < (S : ℚ) := by exact_mod_cast hS
    have hSsh : (0 : ℚ) < (S : ℚ) + (shares : ℚ) := by positivity
    rw [div_le_div_iff₀ hSq hSsh]
    have : ((A * (S + shares) : Nat) : ℚ) ≤ (((A + D) * S : Nat) : ℚ) := by exact_mod_cast hle
    push_cast at this
    linarith
  · have hAD : A + D ≠ 0 := by omega
    have hSs : S + shares ≠ 0 := by omega
    simp only [sharePrice, ne_eq, hA', hS', hAD, hSs, not_false_eq_true, hS, true_and,
      if_true, Nat.pos_of_ne_zero hSs]
    rw [Nat.le_div_iff_mul_le (Nat.pos_of_ne_zero hSs)]
    have h3 := Nat.div_mul_le_self (A * 10 ^ 18) S
    have h4 : A * 10 ^ 18 / S * (S + shares) * S ≤ (A + D) * 10 ^ 18 * S := by
      calc A * 10 ^ 18 / S * (S + shares) * S
          = (A * 10 ^ 18 / S * S) * (S + shares) := by ring
        _ ≤ (A * 10 ^ 18) * (S + shares) := Nat.mul_le_mul_right _ h3
        _ = (A * (S + shares)) * 10 ^ 18 := by ring
        _ ≤ ((A + D) * S) * 10 ^ 18 := Nat.mul_le_mul_right _ hle
        _ = (A + D) * 10 ^ 18 * S := by ring
    exact Nat.le_of_mul_le_mul_right h4 hS

/-- Witness of `deposit_price_not_lower`: a deposit of 10 into a vault of 7
assets and 3 shares mints 4 shares. -/
theorem deposit_price_not_lower_witness :
    7 * (3 + 4) ≤ (7 + 10) * 3 ∧
      (7 + 10) * 3 < 7 * (3 + 4) + 7 ∧
      ((7 : Nat) : ℚ) / ((3 : Nat) : ℚ) ≤
        (((7 : Nat) : ℚ) + ((10 : Nat) : ℚ)) / (((3 : Nat) : ℚ) + ((4 : Nat) : ℚ)) ∧
      sharePrice (some 7) (some 3) ≤ sharePrice (some (7 + 10)) (some (3 + 4)) :=
  deposit_price_not_lower 7 3 10 4 (by decide) (by decide) (by decide)

/-- C20, counterexample: an error whose message has none of the four patterns
gets its raw message back, which is none of the classification strings. -/
theorem parseContractError_raw_counterexample :
    parseContractError (some "nonce too low") = "nonce too low" ∧
      "nonce too low" ∉ errorClassifications := by
  decide

/-- The test `startsWithChars` holds exactly when the string is the pattern
followed by something. -/
theorem startsWithChars_iff (s pattern : List Char) :
    startsWithChars s pattern = true ↔ ∃ post, s = pattern ++ post := by
  induction pattern generalizing s with
  | nil =>
    cases s <;> simp [startsWithChars]
  | cons p ps ih =>
    cases s with
    | nil => simp [startsWithChars]
    | cons c cs =>
      simp only [startsWithChars, Bool.and_eq_true, beq_iff_eq, ih cs, List.cons_append,
        List.cons.injEq]
      constructor
      · rintro ⟨hc, post, hpost⟩
        exact ⟨post, hc, hpost⟩
      · rintro ⟨post, hc, hpost⟩
        exact ⟨hc, post, hpost⟩

/-- The test `includesChars` holds exactly when the pattern occurs in the
string: the string is something, the pattern, and something. -/
theorem includesChars_iff (s pattern : List Char) :
    includesChars s pattern = true ↔ ∃ pre post, s = pre ++ pattern ++ post := by
  induction s with
  | nil =>
    simp only [includesChars, List.isEmpty_iff]
    constructor
    · intro h
      exact ⟨[], [], by simp [h]⟩
    · rintro ⟨pre, post, h⟩
      have h' := congrArg List.length h
      simp only [List.length_nil, List.length_append] at h'
      exact List.length_eq_zero.mp (by omega)
  | cons c cs ih =>
    simp only [includesChars, Bool.or_eq_true, startsWithChars_iff, ih]
    constructor
    · rintro (⟨post, h⟩ | ⟨pre, post, h⟩)
      · exact ⟨[], post, by simpa using h⟩
      · exact ⟨c :: pre, post, by simp [h]⟩
    · rintro ⟨pre, post, h⟩
      cases pre with
      | nil => exact Or.inl ⟨post, by simpa using h⟩
      | cons d pre' =>
        simp only [List.cons_append, List.cons.injEq] at h
        exact Or.inr ⟨pre', post, h.2⟩

/-- C20, amended: `parseContractError` returns `Unknown error occurred` for an
error with no message or an empty one.  For a message that is not empty the
four patterns are tried in this order: a message that includes
`insufficient funds` gives `Insufficient funds for transaction`; otherwise one
that includes `user rejected` gives `Transaction rejected by user`; otherwise
one that includes `gas` gives `Gas estimation failed or insufficient gas`;
otherwise one that includes `revert` gives
`Transaction reverted - check contract conditions`; a message with none of the
four comes back as it is.  `includes` is an occurrence of the pattern in the
message. -/
theorem parseContractError_cases :
    parseContractError none = "Unknown error occurred" ∧
      parseContractError (some "") = "Unknown error occurred" ∧
      (∀ m : String, m ≠ "" →
        (includesChars m.data "insufficient funds".data = true →
          parseContractError (some m) = "Insufficient funds for transaction") ∧
        (includesChars m.data "insufficient funds".data = false →
          includesChars m.data "user rejected".data = true →
          parseContractError (some m) = "Transaction rejected by user") ∧
        (includesChars m.data "insufficient funds".data = false →
          includesChars m.data "user rejected".data = false →
          includesChars m.data "gas".data = true →
          parseContractError (some m) = "Gas estimation failed or insufficient gas") ∧
        (includesChars m.data "insufficient funds".data = false →
          includesChars m.data "user rejected".data = false →
          includesChars m.data "gas".data = false →
          includesChars m.data "revert".data = true →
          parseContractError (some m) = "Transaction reverted - check contract conditions") ∧
        (includesChars m.data "insufficient funds".data = false →
          includesChars m.data "user rejected".data = false →
          includesChars m.data "gas".data = false →
          includesChars m.data "revert".data = false →
          parseContractError (some m) = m)) ∧
      (∀ message : Option String,
        parseContractError message ∈ errorClassifications ∨
          message = some (parseContractError message)) ∧
      (∀ s pattern : List Char,
        includesChars s pattern = true ↔ ∃ pre post, s = pre ++ pattern ++ post) ∧
      parseContractError (some "insufficient funds for gas * price + value") =
        "Insufficient funds for transaction" ∧
      parseContractError (some "user rejected the request: gas not paid") =
        "Transaction rejected by user" ∧
      parseContractError (some "execution reverted: out of gas") =
        "Gas estimation failed or insufficient gas" ∧
      parseContractError (some "execution reverted") =
        "Transaction reverted - check contract conditions" := by
  refine ⟨rfl, by decide, ?_, ?_, includesChars_iff, by decide, by decide, by decide, by decide⟩
  · intro m hm
    refine ⟨?_, ?_, ?_, ?_, ?_⟩
    · intro h1
      simp [parseContractError, hm, h1]
    · intro h1 h2
      simp [parseContractError, hm, h1, h2]
    · intro h1 h2 h3
      simp [parseContractError, hm, h1, h2, h3]
    · intro h1 h2 h3 h4
      simp [parseContractError, hm, h1, h2, h3, h4]
    · intro h1 h2 h3 h4
      simp [parseContractError, hm, h1, h2, h3, h4]
  · intro message
    cases message with
    | none => left; simp [parseContractError, errorClassifications]
    | some m =>
      unfold parseContractError
      simp only
      by_cases h0 : m = ""
      · left; simp [h0, errorClassifications]
      · by_cases h1 : includesChars m.data "insufficient funds".data = true
        · left; simp [h0, h1, errorClassifications]
        · by_cases h2 : includesChars m.data "user rejected".data = true
          · left; simp [h0, h1, h2, errorClassifications]
          · by_cases h3 : includesChars m.data "gas".data = true
            · left; simp [h0, h1, h2, h3, errorClassifications]
            · by_cases h4 : includesChars m.data "revert".data = true
              · left; simp [h0, h1, h2, h3, h4, errorClassifications]
              · right
                simp [h0, h1, h2, h3, h4]

/-! ## Registry mutation, harvest and the leverage loop: theorems -/

/-- C14: a `setStrategy` call whose resulting sum of enabled bps exceeds
`10000 - reserveBps` leaves the vault, and so the registry, as it was; it never
succeeds, and when it comes from the operator its failure is
`InvalidAllocation`. -/
theorem setStrategy_invalid_allocation (authorized : Bool) (id allocationBps : Nat)
    (enabled : Bool) (v : Vault)
    (h : 10000 - v.reserveBps <
      totalEnabledBps ((updateStrategy id allocationBps enabled v.strategies).map
        fun s => s.entry)) :
    (setStrategy authorized id allocationBps enabled v).state = v ∧
      (setStrategy authorized id allocationBps enabled v).state.strategies = v.strategies ∧
      (setStrategy true id allocationBps enabled v).result =
        Except.error VaultError.InvalidAllocation ∧
      (∀ n, (setStrategy authorized id allocationBps enabled v).result ≠ Except.ok n) := by
  have hstate : (setStrategy authorized id allocationBps enabled v).state = v := by
    unfold setStrategy
    cases authorized <;> simp [h]
  refine ⟨hstate, by rw [hstate], ?_, ?_⟩
  · simp [setStrategy, h]
  · intro n
    unfold setStrategy
    cases authorized <;> simp [h]

/-- Witness of `setStrategy_invalid_allocation`: on the deployed vault (reserve
2000 bps, strategies at 3000, 2500 and 2500 bps), raising strategy 1 to 3001
bps would make 8001 bps. -/
theorem setStrategy_invalid_allocation_witness :
    (setStrategy true 1 3001 true deployedVault).state = deployedVault ∧
      (setStrategy true 1 3001 true deployedVault).state.strategies =
        deployedVault.strategies ∧
      (setStrategy true 1 3001 true deployedVault).result =
        Except.error VaultError.InvalidAllocation ∧
      (∀ n, (setStrategy true 1 3001 true deployedVault).result ≠ Except.ok n) :=
  setStrategy_invalid_allocation true 1 3001 true deployedVault (by decide)

/-- C15: when the realised profit `P = Y - bridgedValue` exceeds the debt, the
harvest brings the debt to 0 and adds the collateral equivalent of
`P - debtValue` (the debt before the harvest) to `collateralBalance`; the share
count, in total and per account, is unchanged. -/
theorem harvest_profit_above_debt (Y : Nat) (toCollateral : Nat → Nat) (v : Vault)
    (h : v.position.debtValue < Y - v.position.bridgedValue) :
    (harvest Y toCollateral v).state.position.debtValue = 0 ∧
      (harvest Y toCollateral v).state.position.collateralBalance =
        v.position.collateralBalance +
          toCollateral (Y - v.position.bridgedValue - v.position.debtValue) ∧
      (harvest Y toCollateral v).state.totalShares = v.totalShares ∧
      (harvest Y toCollateral v).state.balanceOf = v.balanceOf := by
  have hp : ¬ (Y - v.position.bridgedValue = 0) := by omega
  have hmin : min (Y - v.position.bridgedValue) v.position.debtValue =
      v.position.debtValue := Nat.min_eq_right (Nat.le_of_lt h)
  unfold harvest
  simp only [hp, if_false, hmin]
  refine ⟨by omega, trivial, trivial, trivial⟩

/-- Witness of `harvest_profit_above_debt`: the yield source holds 70 USDC
against 20 USDC bridged and 10 USDC of debt. -/
theorem harvest_profit_above_debt_witness :
    (harvest 70000000 (toCollateralAt fallbackBtcPriceE8) leveragedVault).state.position.debtValue
        = 0 ∧
      (harvest 70000000 (toCollateralAt fallbackBtcPriceE8)
          leveragedVault).state.position.collateralBalance =
        leveragedVault.position.collateralBalance +
          toCollateralAt fallbackBtcPriceE8
            (70000000 - leveragedVault.position.bridgedValue -
              leveragedVault.position.debtValue) ∧
      (harvest 70000000 (toCollateralAt fallbackBtcPriceE8) leveragedVault).state.totalShares =
        leveragedVault.totalShares ∧
      (harvest 70000000 (toCollateralAt fallbackBtcPriceE8) leveragedVault).state.balanceOf =
        leveragedVault.balanceOf :=
  harvest_profit_above_debt 70000000 (toCollateralAt fallbackBtcPriceE8) leveragedVault
    (by decide)

/-- The conversion at a price turns an amount into at least one collateral unit
exactly when the amount, scaled, reaches the price. -/
theorem toCollateralAt_pos (btcPriceE8 usdc6 : Nat) (hP : 0 < btcPriceE8) :
    0 < toCollateralAt btcPriceE8 usdc6 ↔ btcPriceE8 ≤ usdc6 * 10 ^ 10 := by
  unfold toCollateralAt
  constructor
  · intro h
    by_contra hcon
    rw [Nat.div_eq_of_lt (Nat.lt_of_not_le hcon)] at h
    exact Nat.lt_irrefl 0 h
  · intro h
    exact Nat.div_pos h hP

/-- C16, counterexample: on the deployed vault (nothing bridged, no debt) the
yield source holds a profit of one unit (a millionth of a USDC); at the fallback
price it converts to 0 collateral units, the harvest changes neither the
position nor `totalAssets`.  With 10 USDC of debt a profit of one unit is
repaid to the debt, and its collateral equivalent is 0 as well. -/
theorem harvest_small_profit_counterexample :
    deployedVault.position.bridgedValue < 1 ∧
      (harvest 1 (toCollateralAt fallbackBtcPriceE8) deployedVault).state.position =
        deployedVault.position ∧
      (harvest 1 (toCollateralAt fallbackBtcPriceE8) deployedVault).state.totalAssets =
        deployedVault.totalAssets ∧
      ¬ (deployedVault.totalAssets <
        (harvest 1 (toCollateralAt fallbackBtcPriceE8) deployedVault).state.totalAssets) ∧
      leveragedVault.position.bridgedValue < 20000001 ∧
      ¬ (leveragedVault.totalAssets <
        (harvest 20000001 (toCollateralAt fallbackBtcPriceE8)
          leveragedVault).state.totalAssets) := by
  decide

/-- C16, amended: no harvest lowers `totalAssets` or changes the total share
supply.  A harvest with a positive profit raises `totalAssets` by the
collateral equivalent of the debt repaid plus the collateral added; at a price
`btcPriceE8` it is strictly greater as soon as the profit is worth two
collateral units (`2 * btcPriceE8 <= profit * 10^10`), whatever the debt. -/
theorem harvest_raises_totalAssets (Y btcPriceE8 : Nat) (v : Vault) (hP : 0 < btcPriceE8)
    (hprofit : 2 * btcPriceE8 ≤ (Y - v.position.bridgedValue) * 10 ^ 10) :
    v.totalAssets < (harvest Y (toCollateralAt btcPriceE8) v).state.totalAssets ∧
      (harvest Y (toCollateralAt btcPriceE8) v).state.totalShares = v.totalShares ∧
      (∀ (Y' : Nat) (toCollateral : Nat → Nat),
        v.totalAssets ≤ (harvest Y' toCollateral v).state.totalAssets ∧
          (harvest Y' toCollateral v).state.totalShares = v.totalShares ∧
          (v.position.bridgedValue < Y' →
            (harvest Y' toCollateral v).state.totalAssets =
              v.totalAssets +
                toCollateral (min (Y' - v.position.bridgedValue) v.position.debtValue) +
                toCollateral (Y' - v.position.bridgedValue -
                  min (Y' - v.position.bridgedValue) v.position.debtValue))) := by
  have hgen : ∀ (Y' : Nat) (toCollateral : Nat → Nat), v.position.bridgedValue < Y' →
      (harvest Y' toCollateral v).state.totalAssets =
        v.totalAssets +
          toCollateral (min (Y' - v.position.bridgedValue) v.position.debtValue) +
          toCollateral (Y' - v.position.bridgedValue -
            min (Y' - v.position.bridgedValue) v.position.debtValue) := by
    intro Y' toCollateral hY
    have hp : ¬ (Y' - v.position.bridgedValue = 0) := by omega
    unfold harvest
    simp only [hp, if_false]
  have hpos : v.position.bridgedValue < Y := by
    by_contra hcon
    have h0 : Y - v.position.bridgedValue = 0 := by omega
    rw [h0] at hprofit
    omega
  refine ⟨?_, (harvest_frame Y _ v).2.2.2.1, ?_⟩
  · rw [hgen Y (toCollateralAt btcPriceE8) hpos]
    have hsplit : min (Y - v.position.bridgedValue) v.position.debtValue +
        (Y - v.position.bridgedValue -
          min (Y - v.position.bridgedValue) v.position.debtValue) =
        Y - v.position.bridgedValue := by omega
    have hone : btcPriceE8 ≤
          min (Y - v.position.bridgedValue) v.position.debtValue * 10 ^ 10 ∨
        btcPriceE8 ≤ (Y - v.position.bridgedValue -
          min (Y - v.position.bridgedValue) v.position.debtValue) * 10 ^ 10 := by
      by_contra hcon
      push_neg at hcon
      obtain ⟨h1, h2⟩ := hcon
      have hsum : (min (Y - v.position.bridgedValue) v.position.debtValue +
          (Y - v.position.bridgedValue -
            min (Y - v.position.bridgedValue) v.position.debtValue)) * 10 ^ 10 <
          2 * btcPriceE8 := by
        rw [Nat.add_mul]
        omega
      rw [hsplit] at hsum
      omega
    rcases hone with h1 | h2
    · have := (toCollateralAt_pos btcPriceE8 _ hP).mpr h1
      omega
    · have := (toCollateralAt_pos btcPriceE8 _ hP).mpr h2
      omega
  · intro Y' toCollateral
    exact ⟨(harvest_frame Y' toCollateral v).2.2.2.2.2, (harvest_frame Y' toCollateral v).2.2.2.1,
      hgen Y' toCollateral⟩

/-- Witness of `harvest_raises_totalAssets`: the 50 USDC of profit the test
scripts mint, harvested at the fallback price on the vault with 20 USDC bridged
and 10 USDC of debt. -/
theorem harvest_raises_totalAssets_witness :
    (0 < fallbackBtcPriceE8) ∧
      (2 * fallbackBtcPriceE8 ≤
        (leveragedVault.position.bridgedValue + mintedProfit -
          leveragedVault.position.bridgedValue) * 10 ^ 10) ∧
      (leveragedVault.totalAssets <
          (harvest (leveragedVault.position.bridgedValue + mintedProfit)
            (toCollateralAt fallbackBtcPriceE8) leveragedVault).state.totalAssets ∧
        (harvest (leveragedVault.position.bridgedValue + mintedProfit)
            (toCollateralAt fallbackBtcPriceE8) leveragedVault).state.totalShares =
          leveragedVault.totalShares ∧
        (∀ (Y' : Nat) (toCollateral : Nat → Nat),
          leveragedVault.totalAssets ≤ (harvest Y' toCollateral leveragedVault).state.totalAssets ∧
            (harvest Y' toCollateral leveragedVault).state.totalShares =
              leveragedVault.totalShares ∧
            (leveragedVault.position.bridgedValue < Y' →
              (harvest Y' toCollateral leveragedVault).state.totalAssets =
                leveragedVault.totalAssets +
                  toCollateral (min (Y' - leveragedVault.position.bridgedValue)
                    leveragedVault.position.debtValue) +
                  toCollateral (Y' - leveragedVault.position.bridgedValue -
                    min (Y' - leveragedVault.position.bridgedValue)
                      leveragedVault.position.debtValue)))) :=
  ⟨by decide, by decide,
    harvest_raises_totalAssets (leveragedVault.position.bridgedValue + mintedProfit)
      fallbackBtcPriceE8 leveragedVault (by decide) (by decide)⟩

/-- The guard on whole numbers says what the health factor says: no debt, or a
health factor above 1.0. -/
theorem healthAboveOne_iff (collateralValue debtValue liquidationThresholdBps : Nat) :
    healthAboveOne collateralValue debtValue liquidationThresholdBps = true ↔
      debtValue = 0 ∨ 1 < healthFactor collateralValue debtValue liquidationThresholdBps := by
  unfold healthAboveOne healthFactor
  rcases Nat.eq_zero_or_pos debtValue with h0 | hpos
  · simp [h0]
  · have hne : debtValue ≠ 0 := Nat.pos_iff_ne_zero.mp hpos
    have hq : (0 : ℚ) < (debtValue : ℚ) := by exact_mod_cast hpos
    simp only [Bool.or_eq_true, beq_iff_eq, hne, false_or, decide_eq_true_eq]
    rw [lt_div_iff₀ hq, one_mul, lt_div_iff₀ (by norm_num : (0 : ℚ) < 10000)]
    constructor
    · intro h
      have : ((debtValue * 10000 : Nat) : ℚ) < ((collateralValue * liquidationThresholdBps : Nat) : ℚ) := by
        exact_mod_cast h
      push_cast at this
      exact this
    · intro h
      have : ((debtValue * 10000 : Nat) : ℚ) < ((collateralValue * liquidationThresholdBps : Nat) : ℚ) := by
        push_cast
        exact h
      exact_mod_cast this

/-- The last element of a list with one more element in front, with a default. -/
theorem getLast_getD_cons {α : Type} (x p : α) (l : List α) :
    (x :: l).getLast?.getD p = l.getLast?.getD x := by
  cases l with
  | nil => simp
  | cons a l' =>
    rw [List.getLast?_cons_cons]
    cases h : (a :: l').getLast? with
    | none => simp at h
    | some y => simp

/-- The loop executes at most `remaining` steps, every executed step passes the
guard, and when fewer steps were executed the next one fails the guard. -/
theorem leverageLoop_guarded (cfg : LeverageConfig) (priceOf : Nat → Nat)
    (supplyOf : Nat → CrossChainPosition → Nat) (remaining k : Nat) (p : CrossChainPosition) :
    (leverageLoop cfg priceOf supplyOf remaining k p).length ≤ remaining ∧
      (∀ q ∈ leverageLoop cfg priceOf supplyOf remaining k p,
        healthAboveOne (priceOf q.collateralBalance) q.debtValue
          cfg.liquidationThresholdBps = true) ∧
      ((leverageLoop cfg priceOf supplyOf remaining k p).length < remaining →
        healthAboveOne
          (priceOf (supplyBorrow cfg priceOf
            (supplyOf (k + (leverageLoop cfg priceOf supplyOf remaining k p).length)
              ((leverageLoop cfg priceOf supplyOf remaining k p).getLast?.getD p))
            ((leverageLoop cfg priceOf supplyOf remaining k p).getLast?.getD p)).collateralBalance)
          (supplyBorrow cfg priceOf
            (supplyOf (k + (leverageLoop cfg priceOf supplyOf remaining k p).length)
              ((leverageLoop cfg priceOf supplyOf remaining k p).getLast?.getD p))
            ((leverageLoop cfg priceOf supplyOf remaining k p).getLast?.getD p)).debtValue
          cfg.liquidationThresholdBps = false) := by
  induction remaining generalizing k p with
  | zero => simp [leverageLoop]
  | succ n ih =>
    unfold leverageLoop
    simp only
    by_cases hg : healthAboveOne
        (priceOf (supplyBorrow cfg priceOf (supplyOf k p) p).collateralBalance)
        (supplyBorrow cfg priceOf (supplyOf k p) p).debtValue cfg.liquidationThresholdBps = true
    · obtain ⟨ih1, ih2, ih3⟩ := ih (k + 1) (supplyBorrow cfg priceOf (supplyOf k p) p)
      simp only [hg, if_true, List.length_cons]
      refine ⟨by omega, ?_, ?_⟩
      · intro q hq
        rcases List.mem_cons.mp hq with rfl | hq'
        · exact hg
        · exact ih2 q hq'
      · intro hlt
        have hlt' : (leverageLoop cfg priceOf supplyOf n (k + 1)
            (supplyBorrow cfg priceOf (supplyOf k p) p)).length < n := by omega
        have h3 := ih3 hlt'
        have hidx : k + ((leverageLoop cfg priceOf supplyOf n (k + 1)
            (supplyBorrow cfg priceOf (supplyOf k p) p)).length + 1) =
            k + 1 + (leverageLoop cfg priceOf supplyOf n (k + 1)
            (supplyBorrow cfg priceOf (supplyOf k p) p)).length := by omega
        have hlast := getLast_getD_cons (supplyBorrow cfg priceOf (supplyOf k p) p) p
          (leverageLoop cfg priceOf supplyOf n (k + 1)
            (supplyBorrow cfg priceOf (supplyOf k p) p))
        rw [hidx, hlast]
        exact h3
    · have hg' : healthAboveOne
          (priceOf (supplyBorrow cfg priceOf (supplyOf k p) p).collateralBalance)
          (supplyBorrow cfg priceOf (supplyOf k p) p).debtValue cfg.liquidationThresholdBps
          = false := by simpa using hg
      rw [if_neg hg]
      refine ⟨Nat.zero_le _, by simp, fun _ => ?_⟩
      simpa using hg'

/-- From a position without debt, with a loan-to-value below the liquidation
threshold and a price that does not fall when the amount grows, the borrow that
opens a leveraged deposit passes the guard of the loop. -/
theorem opening_borrow_healthy (cfg : LeverageConfig) (priceOf : Nat → Nat) (C : Nat)
    (p : CrossChainPosition) (hdebt : p.debtValue = 0)
    (hltv : cfg.fixedLtvBps < cfg.liquidationThresholdBps)
    (hmono : ∀ a b, a ≤ b → priceOf a ≤ priceOf b) :
    healthAboveOne (priceOf (p.collateralBalance + C))
      (p.debtValue + priceOf C * cfg.fixedLtvBps / 10000) cfg.liquidationThresholdBps = true := by
  unfold healthAboveOne
  rw [hdebt, Nat.zero_add]
  by_cases h0 : priceOf C * cfg.fixedLtvBps / 10000 = 0
  · simp [h0]
  · have hle := Nat.div_mul_le_self (priceOf C * cfg.fixedLtvBps) 10000
    have hpos : 0 < priceOf C := by
      rcases Nat.eq_zero_or_pos (priceOf C) with hz | hz
      · rw [hz, Nat.zero_mul, Nat.zero_div] at h0
        exact absurd rfl h0
      · exact hz
    have hlt : priceOf C * cfg.fixedLtvBps < priceOf C * cfg.liquidationThresholdBps :=
      Nat.mul_lt_mul_of_pos_left hltv hpos
    have hup : priceOf C * cfg.liquidationThresholdBps ≤
        priceOf (p.collateralBalance + C) * cfg.liquidationThresholdBps :=
      Nat.mul_le_mul_right _ (hmono _ _ (Nat.le_add_left _ _))
    have hfin : priceOf C * cfg.fixedLtvBps / 10000 * 10000 <
        priceOf (p.collateralBalance + C) * cfg.liquidationThresholdBps := by omega
    simp [hfin]

/-- C17: a leveraged deposit of `C > 0` with `N` configured loops succeeds,
whatever the amounts the steps supply; it executes at most `N`
supply-then-borrow steps, every executed step leaves the position without debt
or with a health factor above 1.0, and the loop ends before `N` steps only when
the next step would fail that test (that step is skipped).  The borrow that
opens the deposit (steps 1 to 4 of section 4.4) is not a step of the loop and
has no guard there; from a position without debt, with a loan-to-value below
the liquidation threshold and a price that does not fall when the amount grows,
it leaves no debt or a health factor above 1.0 as well. -/
theorem leverage_loop_keeps_health (cfg : LeverageConfig) (priceOf : Nat → Nat)
    (supplyOf : Nat → CrossChainPosition → Nat) (C : Nat) (p : CrossChainPosition)
    (hC : 0 < C) :
    ∃ run, leverageDeposit cfg priceOf supplyOf C p = Except.ok run ∧
      run.executed.length ≤ cfg.loops ∧
      (∀ q ∈ run.executed, q.debtValue = 0 ∨
        1 < healthFactor (priceOf q.collateralBalance) q.debtValue
          cfg.liquidationThresholdBps) ∧
      run.position = run.executed.getLast?.getD run.opened ∧
      (run.executed.length < cfg.loops →
        ¬ (1 < healthFactor
          (priceOf (supplyBorrow cfg priceOf (supplyOf run.executed.length run.position)
            run.position).collateralBalance)
          (supplyBorrow cfg priceOf (supplyOf run.executed.length run.position)
            run.position).debtValue cfg.liquidationThresholdBps)) ∧
      (p.debtValue = 0 → cfg.fixedLtvBps < cfg.liquidationThresholdBps →
        (∀ a b, a ≤ b → priceOf a ≤ priceOf b) →
        run.opened.debtValue = 0 ∨
          1 < healthFactor (priceOf run.opened.collateralBalance) run.opened.debtValue
            cfg.liquidationThresholdBps) := by
  have hC' : C ≠ 0 := Nat.pos_iff_ne_zero.mp hC
  unfold leverageDeposit
  simp only [hC', if_false]
  refine ⟨_, rfl, ?_⟩
  simp only
  obtain ⟨h1, h2, h3⟩ := leverageLoop_guarded cfg priceOf supplyOf cfg.loops 0
    { collateralBalance := p.collateralBalance + C
      debtValue := p.debtValue + priceOf C * cfg.fixedLtvBps / 10000
      bridgedValue := p.bridgedValue + priceOf C * cfg.fixedLtvBps / 10000 }
  refine ⟨h1, ?_, ?_, ?_, ?_⟩
  · intro q hq
    exact (healthAboveOne_iff _ _ _).mp (h2 q hq)
  · first
      | rfl
      | trivial
  · intro hlt hhf
    have h := h3 hlt
    rw [Nat.zero_add] at h
    have := (healthAboveOne_iff _ _ _).mpr (Or.inr hhf)
    rw [h] at this
    exact Bool.false_ne_true this
  · intro hdebt hltv hmono
    exact (healthAboveOne_iff _ _ _).mp (opening_borrow_healthy cfg priceOf C p hdebt hltv hmono)

/-- Witness of `leverage_loop_keeps_health`: 10 units of collateral at 100 per
unit on a position with 5 units and no debt, a loan-to-value of 90% against a
liquidation threshold of 80%, 5 loops of 10 units each.  Two steps are executed
(health factors 10/9 and 28/27); the third would bring the health factor to
exactly 1.0 and is skipped. -/
theorem leverage_loop_keeps_health_witness :
    (0 < 10) ∧
      (∃ run, leverageDeposit { fixedLtvBps := 9000, liquidationThresholdBps := 8000, loops := 5 }
          (fun c => c * 100) (fun _ _ => 10) 10
          { collateralBalance := 5, debtValue := 0, bridgedValue := 0 } = Except.ok run ∧
        run.executed =
          [{ collateralBalance := 25, debtValue := 1800, bridgedValue := 900 },
            { collateralBalance := 35, debtValue := 2700, bridgedValue := 900 }] ∧
        run.opened = { collateralBalance := 15, debtValue := 900, bridgedValue := 900 }) ∧
      (∃ run, leverageDeposit { fixedLtvBps := 9000, liquidationThresholdBps := 8000, loops := 5 }
          (fun c => c * 100) (fun _ _ => 10) 10
          { collateralBalance := 5, debtValue := 0, bridgedValue := 0 } = Except.ok run ∧
        run.executed.length ≤ 5 ∧
        (∀ q ∈ run.executed, q.debtValue = 0 ∨
          1 < healthFactor ((fun c => c * 100) q.collateralBalance) q.debtValue 8000) ∧
        run.position = run.executed.getLast?.getD run.opened ∧
        (run.executed.length < 5 →
          ¬ (1 < healthFactor
            ((fun c => c * 100) (supplyBorrow
              { fixedLtvBps := 9000, liquidationThresholdBps := 8000, loops := 5 }
              (fun c => c * 100)
              ((fun _ _ => 10) run.executed.length run.position)
              run.position).collateralBalance)
            (supplyBorrow { fixedLtvBps := 9000, liquidationThresholdBps := 8000, loops := 5 }
              (fun c => c * 100)
              ((fun _ _ => 10) run.executed.length run.position)
              run.position).debtValue 8000)) ∧
        ((0 : Nat) = 0 → (9000 : Nat) < 8000 →
          (∀ a b, a ≤ b → (fun c => c * 100) a ≤ (fun c => c * 100) b) →
          run.opened.debtValue = 0 ∨
            1 < healthFactor ((fun c => c * 100) run.opened.collateralBalance)
              run.opened.debtValue 8000)) :=
  ⟨by decide, ⟨_, rfl, by decide, by decide⟩,
    leverage_loop_keeps_health { fixedLtvBps := 9000, liquidationThresholdBps := 8000, loops := 5 }
      (fun c => c * 100) (fun _ _ => 10) 10
      { collateralBalance := 5, debtValue := 0, bridgedValue := 0 } (by decide)⟩

/-! ## Amount validation: theorems -/

/-- A digit is neither the sign nor the dot. -/
theorem isDigit_ne (c : Char) (h : c.isDigit = true) : c ≠ '-' ∧ c ≠ '.' := by
  constructor
  · intro hc; subst hc; revert h; decide
  · intro hc; subst hc; revert h; decide

/-- Digits in front of a tail that does not start with a digit are what
`takeWhile` takes and `dropWhile` leaves. -/
theorem takeWhile_digits (digits rest : List Char) (hd : ∀ c ∈ digits, c.isDigit = true)
    (hrest : ∀ c, rest.head? = some c → c.isDigit = false) :
    (digits ++ rest).takeWhile Char.isDigit = digits ∧
      (digits ++ rest).dropWhile Char.isDigit = rest := by
  induction digits with
  | nil =>
    cases rest with
    | nil => simp
    | cons c cs =>
      have := hrest c rfl
      simp [List.takeWhile_cons, List.dropWhile_cons, this]
  | cons d ds ih =>
    have hd' := hd d (List.mem_cons_self _ _)
    obtain ⟨ih1, ih2⟩ := ih (fun c hc => hd c (List.mem_cons_of_mem _ hc))
    simp [List.takeWhile_cons, List.dropWhile_cons, hd', ih1, ih2]

/-- What `matchDecimal` makes of a decimal string with a dot. -/
theorem matchDecimal_decimalString (negative : Bool) (integer fraction : List Char)
    (hi : ∀ c ∈ integer, c.isDigit = true) (hf : ∀ c ∈ fraction, c.isDigit = true) :
    matchDecimal (decimalString negative integer fraction).data =
      some { negative := negative, integer := integer, fraction := fraction } := by
  have htw := takeWhile_digits integer ('.' :: fraction) hi
    (by intro c hc; simp at hc; subst hc; decide)
  have hall : fraction.all Char.isDigit = true := by
    rw [List.all_eq_true]; exact hf
  cases negative with
  | true =>
    have hdata : (decimalString true integer fraction).data =
        '-' :: (integer ++ '.' :: fraction) := by
      simp [decimalString]
    rw [hdata]
    unfold matchDecimal
    simp only [List.head?_cons, beq_self_eq_true, if_true, List.drop_succ_cons, List.drop_zero]
    rw [htw.1, htw.2]
    simp [hall]
  | false =>
    have hdata : (decimalString false integer fraction).data = integer ++ '.' :: fraction := by
      simp [decimalString]
    have hhead : ((integer ++ '.' :: fraction).head? == some '-') = false := by
      cases integer with
      | nil => simp
      | cons d ds =>
        have := (isDigit_ne d (hi d (List.mem_cons_self _ _))).1
        simp [this]
    rw [hdata]
    unfold matchDecimal
    simp only [hhead, Bool.false_eq_true, if_false]
    rw [htw.1, htw.2]
    simp [hall]

/-- What `matchDecimal` makes of a decimal string without a dot: the fraction
defaults to `'0'`. -/
theorem matchDecimal_integerString (negative : Bool) (integer : List Char)
    (hi : ∀ c ∈ integer, c.isDigit = true) :
    matchDecimal (integerString negative integer).data =
      some { negative := negative, integer := integer, fraction := ['0'] } := by
  have htw := takeWhile_digits integer [] hi (by intro c hc; simp at hc)
  rw [List.append_nil] at htw
  cases negative with
  | true =>
    have hdata : (integerString true integer).data = '-' :: integer := by
      simp [integerString]
    rw [hdata]
    unfold matchDecimal
    simp only [List.head?_cons, beq_self_eq_true, if_true, List.drop_succ_cons, List.drop_zero]
    rw [htw.1, htw.2]
  | false =>
    have hdata : (integerString false integer).data = integer := by
      simp [integerString]
    have hhead : (integer.head? == some '-') = false := by
      cases integer with
      | nil => simp
      | cons d ds =>
        have := (isDigit_ne d (hi d (List.mem_cons_self _ _))).1
        simp [this]
    rw [hdata]
    unfold matchDecimal
    simp only [hhead, Bool.false_eq_true, if_false]
    rw [htw.1, htw.2]

/-- A string with a character that is no digit, no `-` and no dot does not
match. -/
theorem matchDecimal_bad_char (value : List Char) (b : Char) (hb : b ∈ value)
    (hdigit : b.isDigit = false) (hsign : b ≠ '-') (hdot : b ≠ '.') :
    matchDecimal value = none := by
  unfold matchDecimal
  simp only
  have hunsigned : b ∈ (if (value.head? == some '-') = true then value.drop 1 else value) := by
    split_ifs with hneg
    · cases value with
      | nil => simp at hb
      | cons c cs =>
        simp only [List.head?_cons, beq_iff_eq, Option.some.injEq] at hneg
        rcases List.mem_cons.mp hb with rfl | hb'
        · exact absurd hneg hsign
        · simpa using hb'
    · exact hb
  generalize (if (value.head? == some '-') = true then value.drop 1 else value) = unsigned
    at hunsigned
  have hsplit := List.takeWhile_append_dropWhile Char.isDigit unsigned
  have hrest : b ∈ unsigned.dropWhile Char.isDigit := by
    rw [← hsplit] at hunsigned
    rcases List.mem_append.mp hunsigned with h | h
    · have := List.mem_takeWhile_imp h
      rw [hdigit] at this
      exact absurd this Bool.false_ne_true
    · exact h
  cases hdw : unsigned.dropWhile Char.isDigit with
  | nil => rw [hdw] at hrest; simp at hrest
  | cons c fraction =>
    rw [hdw] at hrest
    simp only
    rcases List.mem_cons.mp hrest with rfl | hfrac
    · simp [hdot]
    · have : ¬ (fraction.all Char.isDigit = true) := by
        rw [List.all_eq_true]
        intro hall
        have := hall b hfrac
        rw [hdigit] at this
        exact Bool.false_ne_true this
      simp [this]

/-- Zeros appended to digits multiply their value by a power of ten. -/
theorem digitsValue_append_zeros (digits : List Char) (k : Nat) :
    digitsValue (digits ++ List.replicate k '0') = digitsValue digits * 10 ^ k := by
  induction k with
  | zero => simp
  | succ k ih =>
    have : digits ++ List.replicate (k + 1) '0' = (digits ++ List.replicate k '0') ++ ['0'] := by
      rw [List.replicate_succ', List.append_assoc]
    rw [this]
    unfold digitsValue at ih ⊢
    rw [List.foldl_append, ih]
    simp only [List.foldl_cons, List.foldl_nil]
    have h0 : ('0' : Char).toNat - 48 = 0 := by decide
    rw [h0, pow_succ]
    ring

/-- Trimming removes zeros from the end, and nothing else. -/
theorem trimTrailingZeros_spec (fraction : List Char) :
    ∃ k, fraction = trimTrailingZeros fraction ++ List.replicate k '0' := by
  induction fraction with
  | nil => exact ⟨0, rfl⟩
  | cons c cs ih =>
    obtain ⟨k, hk⟩ := ih
    unfold trimTrailingZeros
    split_ifs with h
    · obtain ⟨h1, h2⟩ := h
      refine ⟨k + 1, ?_⟩
      rw [h1] at hk
      rw [hk, h2]
      simp [List.replicate_succ]
    · refine ⟨k, ?_⟩
      rw [List.cons_append, ← hk]

/-- The value `parseUnits` reads from sign, integer digits and at most
`decimals` fraction digits. -/
theorem parseUnits_of_match (value : String) (decimals : Nat) (t : DecimalText)
    (hmatch : matchDecimal value.data = some t) (hdec : 0 < decimals)
    (hlen : t.fraction.length ≤ decimals) :
    parseUnits value decimals =
      some (if t.negative then
          -((digitsValue t.integer * 10 ^ decimals +
            digitsValue t.fraction * 10 ^ (decimals - t.fraction.length) : Nat) : Int)
        else ((digitsValue t.integer * 10 ^ decimals +
            digitsValue t.fraction * 10 ^ (decimals - t.fraction.length) : Nat) : Int)) := by
  obtain ⟨k, hk⟩ := trimTrailingZeros_spec t.fraction
  have hlenk : t.fraction.length = (trimTrailingZeros t.fraction).length + k := by
    conv_lhs => rw [hk]
    simp
  have hval : digitsValue t.fraction = digitsValue (trimTrailingZeros t.fraction) * 10 ^ k := by
    conv_lhs => rw [hk]
    exact digitsValue_append_zeros _ _
  have hdec' : decimals ≠ 0 := Nat.pos_iff_ne_zero.mp hdec
  have hnot : ¬ decimals < (trimTrailingZeros t.fraction).length := by omega
  have hmag : digitsValue (trimTrailingZeros t.fraction) *
      10 ^ (decimals - (trimTrailingZeros t.fraction).length) =
      digitsValue t.fraction * 10 ^ (decimals - t.fraction.length) := by
    rw [hval, Nat.mul_assoc, ← pow_add]
    congr 2
    omega
  unfold parseUnits
  rw [hmatch]
  simp only [hdec', false_and, if_false, hnot, hmag]

/-- C13, counterexample: with the default minimum `validateAmount` returns
`true` for `0` and `0.0`, which denote zero, for `-0.000000001`, a negative
number that rounds to zero at 8 decimals, and for the empty string, which is
not a decimal number. -/
theorem validateAmount_zero_counterexample :
    validateAmount "0" defaultMinAmount = true ∧
      validateAmount "0.0" defaultMinAmount = true ∧
      validateAmount "-0.000000001" defaultMinAmount = true ∧
      validateAmount "" defaultMinAmount = true := by
  decide

/-- C13, amended: for digits `integer` and at most 8 digits `fraction`, the
string `[-]integer.fraction` (and `[-]integer` without the dot) parses to
`integer * 10^8 + fraction * 10^(8 - length)` with its sign, and
`validateAmount` with the default minimum returns `true` exactly when the
string has no `-` or denotes zero; it returns `false` for every string that
does not match the decimal pattern, and so for every string with a character
that is no digit, no `-` and no dot. -/
theorem validateAmount_decimal (negative : Bool) (integer fraction : List Char)
    (hi : ∀ c ∈ integer, c.isDigit = true) (hf : ∀ c ∈ fraction, c.isDigit = true)
    (hlen : fraction.length ≤ 8) :
    parseBTC (decimalString negative integer fraction) =
        some (if negative then
            -((digitsValue integer * 10 ^ 8 +
              digitsValue fraction * 10 ^ (8 - fraction.length) : Nat) : Int)
          else ((digitsValue integer * 10 ^ 8 +
              digitsValue fraction * 10 ^ (8 - fraction.length) : Nat) : Int)) ∧
      (validateAmount (decimalString negative integer fraction) defaultMinAmount = true ↔
        (negative = false ∨ (digitsValue integer = 0 ∧ digitsValue fraction = 0))) ∧
      (validateAmount (integerString negative integer) defaultMinAmount = true ↔
        (negative = false ∨ digitsValue integer = 0)) ∧
      (∀ amount : String, matchDecimal amount.data = none →
        validateAmount amount defaultMinAmount = false) ∧
      (∀ (amount : String) (b : Char), b ∈ amount.data → b.isDigit = false → b ≠ '-' →
        b ≠ '.' → validateAmount amount defaultMinAmount = false) := by
  have hnone : ∀ amount : String, matchDecimal amount.data = none →
      validateAmount amount defaultMinAmount = false := by
    intro amount h
    simp [validateAmount, parseBTC, parseUnits, h]
  have hparse : parseBTC (decimalString negative integer fraction) =
      some (if negative then
          -((digitsValue integer * 10 ^ 8 +
            digitsValue fraction * 10 ^ (8 - fraction.length) : Nat) : Int)
        else ((digitsValue integer * 10 ^ 8 +
            digitsValue fraction * 10 ^ (8 - fraction.length) : Nat) : Int)) :=
    parseUnits_of_match (decimalString negative integer fraction) 8
      { negative := negative, integer := integer, fraction := fraction }
      (matchDecimal_decimalString negative integer fraction hi hf) (by decide) hlen
  have hz : digitsValue ['0'] = 0 := by decide
  have hparseInt : parseBTC (integerString negative integer) =
      some (if negative then -((digitsValue integer * 10 ^ 8 : Nat) : Int)
        else ((digitsValue integer * 10 ^ 8 : Nat) : Int)) := by
    have h : parseBTC (integerString negative integer) =
        some (if negative then
            -((digitsValue integer * 10 ^ 8 + digitsValue ['0'] * 10 ^ (8 - 1) : Nat) : Int)
          else ((digitsValue integer * 10 ^ 8 + digitsValue ['0'] * 10 ^ (8 - 1) : Nat)
            : Int)) :=
      parseUnits_of_match (integerString negative integer) 8
        { negative := negative, integer := integer, fraction := ['0'] }
        (matchDecimal_integerString negative integer hi) (by decide) (by simp)
    rw [hz, Nat.zero_mul, Nat.add_zero] at h
    exact h
  have hpow : 0 < 10 ^ (8 - fraction.length) := pow_pos (by decide) _
  refine ⟨hparse, ?_, ?_, hnone, ?_⟩
  · unfold validateAmount defaultMinAmount
    rw [hparse]
    cases negative with
    | false =>
      simp only [Bool.false_eq_true, if_false, decide_eq_true_eq, true_or, iff_true]
      exact Int.ofNat_nonneg _
    | true =>
      simp only [if_true, decide_eq_true_eq, Bool.true_eq_false, false_or]
      constructor
      · intro h
        have h' : digitsValue integer * 10 ^ 8 +
            digitsValue fraction * 10 ^ (8 - fraction.length) = 0 := by omega
        have h1 : digitsValue integer * 10 ^ 8 = 0 := by omega
        have h2 : digitsValue fraction * 10 ^ (8 - fraction.length) = 0 := by omega
        constructor
        · rcases Nat.mul_eq_zero.mp h1 with h | h
          · exact h
          · norm_num at h
        · rcases Nat.mul_eq_zero.mp h2 with h | h
          · exact h
          · omega
      · rintro ⟨h1, h2⟩
        rw [h1, h2]
        simp
  · unfold validateAmount defaultMinAmount
    rw [hparseInt]
    cases negative with
    | false =>
      simp only [Bool.false_eq_true, if_false, decide_eq_true_eq, true_or, iff_true]
      exact Int.ofNat_nonneg _
    | true =>
      simp only [if_true, decide_eq_true_eq, Bool.true_eq_false, false_or]
      constructor
      · intro h
        have h1 : digitsValue integer * 10 ^ 8 = 0 := by omega
        rcases Nat.mul_eq_zero.mp h1 with h | h
        · exact h
        · norm_num at h
      · intro h1
        rw [h1]
        simp
  · intro amount b hb hdigit hsign hdot
    exact hnone amount (matchDecimal_bad_char amount.data b hb hdigit hsign hdot)

/-- Witness of `validateAmount_decimal`: the amount `-12.5`. -/
theorem validateAmount_decimal_witness :
    parseBTC (decimalString true ['1', '2'] ['5']) =
        some (if true then
            -((digitsValue ['1', '2'] * 10 ^ 8 +
              digitsValue ['5'] * 10 ^ (8 - ['5'].length) : Nat) : Int)
          else ((digitsValue ['1', '2'] * 10 ^ 8 +
              digitsValue ['5'] * 10 ^ (8 - ['5'].length) : Nat) : Int)) ∧
      (validateAmount (decimalString true ['1', '2'] ['5']) defaultMinAmount = true ↔
        (true = false ∨ (digitsValue ['1', '2'] = 0 ∧ digitsValue ['5'] = 0))) ∧
      (validateAmount (integerString true ['1', '2']) defaultMinAmount = true ↔
        (true = false ∨ digitsValue ['1', '2'] = 0)) ∧
      (∀ amount : String, matchDecimal amount.data = none →
        validateAmount amount defaultMinAmount = false) ∧
      (∀ (amount : String) (b : Char), b ∈ amount.data → b.isDigit = false → b ≠ '-' →
        b ≠ '.' → validateAmount amount defaultMinAmount = false) :=
  validateAmount_decimal true ['1', '2'] ['5'] (by decide) (by decide) (by decide)

/-- With a positive supply, the two direct conversions are the rounded-down
quotient. -/
theorem expectedAssets_eq_direct (shares totalAssets totalSupply : Nat) (hS : 0 < totalSupply) :
    userAssets shares totalAssets totalSupply = shares * totalAssets / totalSupply ∧
      expectedAssets (some shares) (some totalSupply) (some totalAssets) =
        shares * totalAssets / totalSupply := by
  have hS' : totalSupply ≠ 0 := Nat.pos_iff_ne_zero.mp hS
  constructor
  · simp [userAssets, hS]
  · unfold expectedAssets
    by_cases hu : shares = 0
    · simp [hu]
    · by_cases ha : totalAssets = 0
      · simp [ha]
      · simp [hS', hu, ha, hS]

/-! ## Pull bounds, gas buffer and the card's position value: theorems -/

/-- C25: whenever the shortfall `need` is at most the total of the enabled
strategy balances, every proportional pull of the `_routeDivest` simulation is
at most the balance it is taken from, so the test `pull > strategyBalances[i]`
never holds. -/
theorem pull_within_balance (need : Int) (rows : List StrategyReading)
    (hneed : need ≤ (totalStrategyAssets rows : Int)) :
    ∀ r ∈ eligibleRows rows,
      pull need r.adapterAssets (totalStrategyAssets rows) ≤ (r.adapterAssets : Int) ∧
        ¬ (pull need r.adapterAssets (totalStrategyAssets rows) > (r.adapterAssets : Int)) := by
  intro r _
  have hb : (0 : Int) ≤ (r.adapterAssets : Int) := Int.ofNat_nonneg _
  have hT : (0 : Int) ≤ (totalStrategyAssets rows : Int) := Int.ofNat_nonneg _
  have hle : pull need r.adapterAssets (totalStrategyAssets rows) ≤ (r.adapterAssets : Int) := by
    rcases lt_or_le need 0 with hneg | hpos
    · unfold pull
      have h1 : need * (r.adapterAssets : Int) = -((-need) * (r.adapterAssets : Int)) := by ring
      rw [h1, Int.neg_tdiv]
      have h2 : 0 ≤ Int.tdiv ((-need) * (r.adapterAssets : Int))
          (totalStrategyAssets rows : Int) :=
        Int.tdiv_nonneg (Int.mul_nonneg (by omega) hb) hT
      omega
    · rw [pull_eq_floor need r.adapterAssets _ hpos]
      rcases Nat.eq_zero_or_pos (totalStrategyAssets rows) with h0 | hTpos
      · rw [h0]
        simp only [Nat.cast_zero, Int.ediv_zero]
        exact hb
      · apply Int.ediv_le_of_le_mul (by exact_mod_cast hTpos)
        have hmul := Int.mul_le_mul_of_nonneg_right hneed hb
        linarith [hmul]
  exact ⟨hle, not_lt.mpr hle⟩

/-- Witness of `pull_within_balance`: a shortfall of 3 against the balances 1,
2 (enabled), 5 (disabled) and 0 (enabled), at the row with balance 2. -/
theorem pull_within_balance_witness :
    (3 : Int) ≤ (totalStrategyAssets [⟨true, 1⟩, ⟨false, 5⟩, ⟨true, 2⟩, ⟨true, 0⟩] : Int) ∧
      (⟨true, 2⟩ : StrategyReading) ∈
        eligibleRows [⟨true, 1⟩, ⟨false, 5⟩, ⟨true, 2⟩, ⟨true, 0⟩] ∧
      pull 3 2 (totalStrategyAssets [⟨true, 1⟩, ⟨false, 5⟩, ⟨true, 2⟩, ⟨true, 0⟩]) ≤ (2 : Int) ∧
      ¬ (pull 3 2 (totalStrategyAssets [⟨true, 1⟩, ⟨false, 5⟩, ⟨true, 2⟩, ⟨true, 0⟩]) >
        (2 : Int)) :=
  ⟨by decide, by decide,
    pull_within_balance 3 [⟨true, 1⟩, ⟨false, 5⟩, ⟨true, 2⟩, ⟨true, 0⟩] (by decide)
      ⟨true, 2⟩ (by decide)⟩

/-- C30: for a gas estimate `g >= 0` and a whole-number buffer `b >= 0`,
`estimateGasWithBuffer(g, b)` is `g * (100 + b) / 100` rounded down, it is
never below `g`, and with the default buffer of 20 it is the `g * 120 / 100`
of the withdrawal test script. -/
theorem estimateGasWithBuffer_floor (g b : Int) (hg : 0 ≤ g) (hb : 0 ≤ b) :
    estimateGasWithBuffer g b = g * (100 + b) / 100 ∧
      g ≤ estimateGasWithBuffer g b ∧
      estimateGasWithBuffer g defaultBufferPercent = scriptGasLimit g ∧
      scriptGasLimit g = g * 120 / 100 := by
  have h1 : estimateGasWithBuffer g b = g * (100 + b) / 100 := by
    unfold estimateGasWithBuffer
    exact Int.tdiv_eq_ediv (Int.mul_nonneg hg (by omega)) (by decide)
  refine ⟨h1, ?_, ?_, ?_⟩
  · rw [h1]
    apply Int.le_ediv_of_mul_le (by decide)
    nlinarith
  · unfold estimateGasWithBuffer scriptGasLimit defaultBufferPercent
    norm_num
  · unfold scriptGasLimit
    exact Int.tdiv_eq_ediv (Int.mul_nonneg hg (by decide)) (by decide)

/-- Witness of `estimateGasWithBuffer_floor`: an estimate of 123457 with a
buffer of 15. -/
theorem estimateGasWithBuffer_floor_witness :
    estimateGasWithBuffer 123457 15 = 123457 * (100 + 15) / 100 ∧
      (123457 : Int) ≤ estimateGasWithBuffer 123457 15 ∧
      estimateGasWithBuffer 123457 defaultBufferPercent = scriptGasLimit 123457 ∧
      scriptGasLimit 123457 = 123457 * 120 / 100 :=
  estimateGasWithBuffer_floor 123457 15 (by decide) (by decide)

/-- C27, the code at the failing input: with no assets and 5 shares outstanding
the vault card takes the one-to-one fallback that its comment reserves for a
vault without shares, prices a share at `10^18` and values 3 shares at 3, while
the direct conversion of the dashboard and the scripts gives 0. -/
theorem card_position_zero_assets :
    sharePrice (some 0) (some 5) = 10 ^ 18 ∧
      cardUserAssets (some 3) (some 0) (some 5) = 3 ∧
      userAssets 3 0 5 = 0 ∧
      expectedAssets (some 3) (some 5) (some 0) = 0 ∧
      ¬ (cardUserAssets (some 3) (some 0) (some 5) ≤ userAssets 3 0 5) := by
  decide

/-- For `totalAssets > 0` and `totalSupply > 0` the vault card computes
`sharePrice = floor(totalAssets * 10^18 / totalSupply)` and values a balance at
`floor(shares * sharePrice / 10^18)`, which never exceeds the direct conversion
`floor(shares * totalAssets / totalSupply)` of the dashboard and the
scripts. -/
theorem card_position_le_direct (shares totalAssets totalSupply : Nat)
    (hA : 0 < totalAssets) (hS : 0 < totalSupply) :
    sharePrice (some totalAssets) (some totalSupply) = totalAssets * 10 ^ 18 / totalSupply ∧
      cardUserAssets (some shares) (some totalAssets) (some totalSupply) =
        shares * (totalAssets * 10 ^ 18 / totalSupply) / 10 ^ 18 ∧
      cardUserAssets (some shares) (some totalAssets) (some totalSupply) ≤
        userAssets shares totalAssets totalSupply ∧
      cardUserAssets (some shares) (some totalAssets) (some totalSupply) ≤
        expectedAssets (some shares) (some totalSupply) (some totalAssets) := by
  have hA' : totalAssets ≠ 0 := Nat.pos_iff_ne_zero.mp hA
  have hS' : totalSupply ≠ 0 := Nat.pos_iff_ne_zero.mp hS
  have hprice : sharePrice (some totalAssets) (some totalSupply) =
      totalAssets * 10 ^ 18 / totalSupply := by
    simp [sharePrice, hA', hS', hS]
  have hcard : cardUserAssets (some shares) (some totalAssets) (some totalSupply) =
      shares * (totalAssets * 10 ^ 18 / totalSupply) / 10 ^ 18 := by
    unfold cardUserAssets
    rw [hprice]
    by_cases h0 : shares = 0
    · simp [h0]
    · simp [h0]
  have hkey : shares * (totalAssets * 10 ^ 18 / totalSupply) / 10 ^ 18 ≤
      shares * totalAssets / totalSupply := by
    rw [Nat.le_div_iff_mul_le hS]
    have h1 := Nat.div_mul_le_self (shares * (totalAssets * 10 ^ 18 / totalSupply)) (10 ^ 18)
    have h2 := Nat.div_mul_le_self (totalAssets * 10 ^ 18) totalSupply
    have hpow : 0 < 10 ^ 18 := by norm_num
    have h3 : shares * (totalAssets * 10 ^ 18 / totalSupply) / 10 ^ 18 * totalSupply * 10 ^ 18 ≤
        shares * totalAssets * 10 ^ 18 := by
      calc shares * (totalAssets * 10 ^ 18 / totalSupply) / 10 ^ 18 * totalSupply * 10 ^ 18
          = (shares * (totalAssets * 10 ^ 18 / totalSupply) / 10 ^ 18 * 10 ^ 18) * totalSupply := by
            ring
        _ ≤ (shares * (totalAssets * 10 ^ 18 / totalSupply)) * totalSupply :=
            Nat.mul_le_mul_right _ h1
        _ = shares * (totalAssets * 10 ^ 18 / totalSupply * totalSupply) := by ring
        _ ≤ shares * (totalAssets * 10 ^ 18) := Nat.mul_le_mul_left _ h2
        _ = shares * totalAssets * 10 ^ 18 := by ring
    exact Nat.le_of_mul_le_mul_right h3 hpow
  have hdirect := expectedAssets_eq_direct shares totalAssets totalSupply hS
  refine ⟨hprice, hcard, ?_, ?_⟩
  · rw [hcard, hdirect.1]; exact hkey
  · rw [hcard, hdirect.2]; exact hkey

/-- An instance of `card_position_le_direct`: 3 shares of a vault with 7 assets
and 5 shares. -/
theorem card_position_le_direct_example :
    sharePrice (some 7) (some 5) = 7 * 10 ^ 18 / 5 ∧
      cardUserAssets (some 3) (some 7) (some 5) = 3 * (7 * 10 ^ 18 / 5) / 10 ^ 18 ∧
      cardUserAssets (some 3) (some 7) (some 5) ≤ userAssets 3 7 5 ∧
      cardUserAssets (some 3) (some 7) (some 5) ≤
        expectedAssets (some 3) (some 5) (some 7) :=
  card_position_le_direct 3 7 5 (by decide) (by decide)

/-! ## The debug console: theorems -/

/-- The method `updateLog` keeps the number of logs. -/
theorem updateLog_length (id : String) (updates : LogUpdates) (logs : List TransactionLog) :
    (updateLog id updates logs).length = logs.length := by
  induction logs with
  | nil => rfl
  | cons log rest ih =>
    unfold updateLog
    split_ifs
    · rfl
    · simp [ih]

/-- On a list with a first log, `updateLog` on the id of that log replaces it
and nothing else. -/
theorem updateLog_head (updates : LogUpdates) (log : TransactionLog)
    (rest : List TransactionLog) :
    updateLog log.id updates (log :: rest) = applyUpdates log updates :: rest := by
  unfold updateLog
  simp

/-- The method `logTransactionSuccess` on a list with a first log. -/
theorem logTransactionSuccess_cons (hash : String) (amount shares : Option Int)
    (log : TransactionLog) (rest : List TransactionLog) :
    logTransactionSuccess hash amount shares (log :: rest) =
      (if log.status = LogStatus.pending then
          { log with
            status := LogStatus.success
            hash := some hash
            amount := orElse amount log.amount
            shares := orElse shares log.shares }
        else log) :: rest := by
  unfold logTransactionSuccess
  by_cases h : log.status = LogStatus.pending
  · simp only [h, if_true]
    rw [updateLog_head]
    simp [applyUpdates, LogUpdates.none]
  · simp only [h, if_false]

/-- The method `logTransactionError` on a list with a first log. -/
theorem logTransactionError_cons (error : String) (log : TransactionLog)
    (rest : List TransactionLog) :
    logTransactionError error (log :: rest) =
      (if log.status = LogStatus.pending then
          { log with status := LogStatus.failed, error := some error }
        else log) :: rest := by
  unfold logTransactionError
  by_cases h : log.status = LogStatus.pending
  · simp only [h, if_true]
    rw [updateLog_head]
    simp [applyUpdates, LogUpdates.none]
  · simp only [h, if_false]

/-- The methods `logTransactionSuccess` and `logTransactionError` keep the
number of logs. -/
theorem logTransaction_length (hash error : String) (amount shares : Option Int)
    (logs : List TransactionLog) :
    (logTransactionSuccess hash amount shares logs).length = logs.length ∧
      (logTransactionError error logs).length = logs.length := by
  cases logs with
  | nil => exact ⟨rfl, rfl⟩
  | cons log rest =>
    rw [logTransactionSuccess_cons, logTransactionError_cons]
    exact ⟨rfl, rfl⟩

/-- The method `addLog` is the new log in front of the first 99 old ones. -/
theorem addLog_eq_take (log : LogFields) (id : String) (timestamp : Nat)
    (logs : List TransactionLog) :
    addLog log id timestamp logs =
      ({ id := id, timestamp := timestamp, type := log.type, vault := log.vault,
         amount := log.amount, shares := log.shares, status := log.status, hash := log.hash,
         error := log.error } : TransactionLog) :: logs.take 99 := by
  unfold addLog
  simp only [List.length_cons]
  split_ifs with h
  · rfl
  · rw [List.take_of_length_le (by omega)]

/-- Every call on the console leaves at most 100 logs when there were at most
100. -/
theorem consoleStep_length (logs : List TransactionLog) (op : ConsoleOp)
    (h : logs.length ≤ 100) : (consoleStep logs op).length ≤ 100 := by
  cases op with
  | addLog log id timestamp =>
    simp only [consoleStep]
    rw [addLog_eq_take, List.length_cons, List.length_take]
    omega
  | updateLog id updates =>
    simp only [consoleStep]
    rw [updateLog_length]
    exact h
  | clearLogs =>
    simp [consoleStep, clearLogs]
  | logTransactionStart type vault amount id timestamp =>
    simp only [consoleStep, logTransactionStart]
    rw [addLog_eq_take, List.length_cons, List.length_take]
    omega
  | logTransactionSuccess hash amount shares =>
    simp only [consoleStep]
    rw [(logTransaction_length hash "" amount shares logs).1]
    exact h
  | logTransactionError error =>
    simp only [consoleStep]
    rw [(logTransaction_length "" error none none logs).2]
    exact h

/-- Calls run from a list of at most 100 logs end with at most 100 logs. -/
theorem consoleFold_length (ops : List ConsoleOp) (logs : List TransactionLog)
    (h : logs.length ≤ 100) : (ops.foldl consoleStep logs).length ≤ 100 := by
  induction ops generalizing logs with
  | nil => exact h
  | cons op ops ih =>
    rw [List.foldl_cons]
    exact ih _ (consoleStep_length logs op h)

/-- C22: after `addLog` the list is the new entry, with the fields given, in
front of the entries held before in their order, cut to the first 100: the new
entry is at index 0, the entries after it are the first 99 old ones, and there
are at most 100; and after every sequence of calls on the console the list
holds at most 100 logs. -/
theorem addLog_newest_first (log : LogFields) (id : String) (timestamp : Nat)
    (logs : List TransactionLog) :
    addLog log id timestamp logs =
        (({ id := id, timestamp := timestamp, type := log.type, vault := log.vault,
            amount := log.amount, shares := log.shares, status := log.status,
            hash := log.hash, error := log.error } : TransactionLog) :: logs).take 100 ∧
      (addLog log id timestamp logs).head? =
        some { id := id, timestamp := timestamp, type := log.type, vault := log.vault,
               amount := log.amount, shares := log.shares, status := log.status,
               hash := log.hash, error := log.error } ∧
      (addLog log id timestamp logs).tail = logs.take 99 ∧
      (addLog log id timestamp logs).length = min (logs.length + 1) 100 ∧
      (addLog log id timestamp logs).length ≤ 100 ∧
      ∀ ops : List ConsoleOp, (consoleRun ops).length ≤ 100 := by
  rw [addLog_eq_take]
  refine ⟨rfl, rfl, rfl, ?_, ?_, ?_⟩
  · rw [List.length_cons, List.length_take]
    omega
  · rw [List.length_cons, List.length_take]
    omega
  · intro ops
    exact consoleFold_length ops [] (by simp)

/-- C28: `logTransactionSuccess` and `logTransactionError` change the newest
log only, and only when its status is `pending`: it gets the status `success`
(with the hash, and the amount and shares given or else kept) or `failed` (with
the error).  A newest log that is not pending, and every log after the newest,
stays as it is, an empty list stays empty, and the number of logs is kept. -/
theorem logTransaction_frame (hash error : String) (amount shares : Option Int) :
    (∀ (log : TransactionLog) (rest : List TransactionLog),
        logTransactionSuccess hash amount shares (log :: rest) =
            (if log.status = LogStatus.pending then
                { log with
                  status := LogStatus.success
                  hash := some hash
                  amount := orElse amount log.amount
                  shares := orElse shares log.shares }
              else log) :: rest ∧
          logTransactionError error (log :: rest) =
            (if log.status = LogStatus.pending then
                { log with status := LogStatus.failed, error := some error }
              else log) :: rest) ∧
      logTransactionSuccess hash amount shares [] = [] ∧
      logTransactionError error [] = [] ∧
      ∀ logs : List TransactionLog,
        (logTransactionSuccess hash amount shares logs).length = logs.length ∧
          (logTransactionError error logs).length = logs.length ∧
          (logTransactionSuccess hash amount shares logs).tail = logs.tail ∧
          (logTransactionError error logs).tail = logs.tail := by
  refine ⟨fun log rest => ⟨logTransactionSuccess_cons _ _ _ _ _, logTransactionError_cons _ _ _⟩,
    rfl, rfl, ?_⟩
  intro logs
  refine ⟨(logTransaction_length hash error amount shares logs).1,
    (logTransaction_length hash error amount shares logs).2, ?_, ?_⟩
  · cases logs with
    | nil => rfl
    | cons log rest => rw [logTransactionSuccess_cons]; rfl
  · cases logs with
    | nil => rfl
    | cons log rest => rw [logTransactionError_cons]; rfl

/-! ## The Stork price client: theorems -/

/-- C21: the name `token` of line 27 is bound nowhere in `stork.ts`, so for
every response `fetchStorkLatestPrice` returns `null`, also for a response with
a usable `BITCOINUSD` entry; with `token` bound the same response gives that
entry. -/
theorem fetchStorkLatestPrice_always_null :
    (∀ (bigIntOf : String → Option Int) (response : StorkResponse),
        fetchStorkLatestPrice false bigIntOf response = none) ∧
      fetchStorkLatestPrice false (fun s => some (digitsValue s.data : Nat))
          (StorkResponse.ok
            (some { price := JsonValue.string "119670000000000000000000"
                    timestamp := JsonValue.string "1700000000000000000" })
            none) = none ∧
      fetchStorkLatestPrice true (fun s => some (digitsValue s.data : Nat))
          (StorkResponse.ok
            (some { price := JsonValue.string "119670000000000000000000"
                    timestamp := JsonValue.string "1700000000000000000" })
            none) =
        some { symbol := "BITCOINUSD", price := 119670000000000000000000,
               timestampNs := 1700000000000000000 } := by
  refine ⟨fun _ _ => rfl, rfl, ?_⟩
  decide

/-! ## Withdrawals from the dashboard: theorems -/

/-- C24: with a total supply of 1000 shares the `Withdraw 25%` button submits
250 shares, whatever the user holds; for a user with 10 shares that is more
than the balance, where the scripts take `userShares / 4n = 2`. -/
theorem withdraw25_exceeds_balance :
    onWithdraw25Click true (some 1000) = WithdrawAction.submitted 250 ∧
      ¬ (250 ≤ 10) ∧
      scriptShares25pct 10 = 2 := by
  decide

/-! ## The share price on the vault card: theorems -/

/-- C26: without shares (`totalSupply` zero or not read) the vault card
computes the price `10^18`, which is 1 at 18 decimals, and shows it through
`formatBTC`, at 8 decimals, as `10000000000 cBTC`. -/
theorem sharePrice_display_no_shares (totalAssets : Option Nat) :
    sharePrice totalAssets (some 0) = 10 ^ 18 ∧
      sharePrice totalAssets none = 10 ^ 18 ∧
      formatUnits (10 ^ 18) 18 = "1" ∧
      formatBTC (10 ^ 18) = "10000000000" ∧
      sharePriceLine totalAssets (some 0) = "10000000000 cBTC" ∧
      sharePriceLine totalAssets none = "10000000000 cBTC" ∧
      sharePriceLine totalAssets (some 0) ≠ "1 cBTC" := by
  have h0 : sharePrice totalAssets (some 0) = 10 ^ 18 := by
    cases totalAssets <;> simp [sharePrice]
  have hn : sharePrice totalAssets none = 10 ^ 18 := by
    cases totalAssets <;> simp [sharePrice]
  have hfmt : formatBTC (10 ^ 18) = "10000000000" := by decide
  have hline0 : sharePriceLine totalAssets (some 0) = "10000000000 cBTC" := by
    unfold sharePriceLine
    rw [h0]
    exact (by decide : formatBTC ((10 ^ 18 : Nat) : Int) ++ " cBTC" = "10000000000 cBTC")
  have hlinen : sharePriceLine totalAssets none = "10000000000 cBTC" := by
    unfold sharePriceLine
    rw [hn]
    exact (by decide : formatBTC ((10 ^ 18 : Nat) : Int) ++ " cBTC" = "10000000000 cBTC")
  refine ⟨h0, hn, by decide, hfmt, hline0, hlinen, ?_⟩
  rw [hline0]
  decide

/-! ## The withdrawal limit of the dashboard: theorems -/

/-- The highest set bit of a number below `2^(e+1)` is at most `e`. -/
theorem log2Floor_le (fuel n e : Nat) (h : n < 2 ^ (e + 1)) : log2Floor fuel n ≤ e := by
  induction fuel generalizing n e with
  | zero => simp [log2Floor]
  | succ fuel ih =>
    unfold log2Floor
    split_ifs with h2
    · exact Nat.zero_le _
    · cases e with
      | zero =>
        simp only [zero_add, pow_one] at h
        exact absurd h h2
      | succ e =>
        have hhalf : n / 2 < 2 ^ (e + 1) := by
          rw [Nat.div_lt_iff_lt_mul (by decide)]
          rw [pow_succ] at h
          exact h
        have := ih (n / 2) e hhalf
        omega

/-- Below `2^53` the conversion to a double is exact. -/
theorem roundToDouble_small (n : Nat) (h : n < 2 ^ 53) : roundToDouble n = n := by
  unfold roundToDouble
  rw [if_pos h]

/-- Below `2^53` the value `Math.floor(x / 100)` is the rounded-down quotient. -/
theorem floorDiv100_small (x : Nat) (h : x < 2 ^ 53) : floorDiv100 x = x / 100 := by
  have hq : x / 100 < 2 ^ 47 := by
    rw [Nat.div_lt_iff_lt_mul (by decide)]
    have : (2 : Nat) ^ 53 ≤ 2 ^ 47 * 100 := by norm_num
    omega
  have hq52 : x / 100 < 2 ^ 52 := by
    have : (2 : Nat) ^ 47 ≤ 2 ^ 52 := by norm_num
    omega
  have hlog : log2Floor 1100 (x / 100) ≤ 46 := log2Floor_le 1100 (x / 100) 46 hq
  have hr : x % 100 < 100 := Nat.mod_lt _ (by decide)
  unfold floorDiv100
  simp only
  rw [if_pos hq52]
  split_ifs with h1 h2
  · rfl
  · exfalso
    have hpow : (2 : Nat) ^ 7 ≤ 2 ^ (53 - log2Floor 1100 (x / 100)) :=
      Nat.pow_le_pow_right (by decide) (by omega)
    have h128 : (2 : Nat) ^ 7 = 128 := by norm_num
    have hone : 1 ≤ 100 - x % 100 := by omega
    have hmul : 1 * 2 ^ (53 - log2Floor 1100 (x / 100)) ≤
        (100 - x % 100) * 2 ^ (53 - log2Floor 1100 (x / 100)) :=
      Nat.mul_le_mul_right _ hone
    omega
  · rfl

/-- While `totalSupply * 25` is below `2^53` the limit is the rounded-down
quarter of the supply. -/
theorem maxShares_small (totalSupply : Nat) (h : totalSupply * 25 < 2 ^ 53) :
    maxShares (some totalSupply) = totalSupply * 25 / 100 := by
  have hts : totalSupply < 2 ^ 53 := by omega
  unfold maxShares
  simp only [Option.getD_some]
  rw [roundToDouble_small totalSupply hts, roundToDouble_small _ h, floorDiv100_small _ h]

/-- C23, the code at the failing input: with a total supply of `2^53 + 3`
shares, 25% of the supply is 2251799813685248.75 and the exact limit
`floor(totalSupply * 25 / 100)` is 2251799813685248; the limit computed in
`Number` arithmetic is one more, and `doWithdrawAll` submits a balance of
2251799813685249 shares, which exceeds 25% of the supply. -/
theorem doWithdrawAll_exceeds_limit :
    9007199254740995 * 25 / 100 = 2251799813685248 ∧
      maxShares (some 9007199254740995) = 2251799813685249 ∧
      doWithdrawAll true (some 2251799813685249) (some 9007199254740995) =
        WithdrawAction.submitted 2251799813685249 ∧
      ¬ (2251799813685249 ≤ 9007199254740995 * 25 / 100) ∧
      9007199254740995 * 25 < 2251799813685249 * 100 := by
  decide

/-- While `totalSupply * 25 < 2^53`, where the `Number` arithmetic of the limit
is exact, `doWithdrawAll` of a connected user sends nothing when the user's
shares are zero or exceed `floor(totalSupply * 25 / 100)`, and otherwise
submits the user's whole share balance.  Shares that are not read, or a wallet
that is not connected, send nothing.  For every supply, what is submitted is the
whole balance and at most the limit `maxShares` computed in `Number`
arithmetic. -/
theorem doWithdrawAll_limit (shares totalSupply : Nat) (h : totalSupply * 25 < 2 ^ 53) :
    maxShares (some totalSupply) = totalSupply * 25 / 100 ∧
      doWithdrawAll true (some shares) (some totalSupply) =
        (if shares = 0 ∨ totalSupply * 25 / 100 < shares then WithdrawAction.rejected
         else WithdrawAction.submitted shares) ∧
      (∀ n, doWithdrawAll true (some shares) (some totalSupply) = WithdrawAction.submitted n →
        n = shares ∧ n ≤ totalSupply * 25 / 100) ∧
      doWithdrawAll true none (some totalSupply) = WithdrawAction.rejected ∧
      doWithdrawAll false (some shares) (some totalSupply) = WithdrawAction.rejected ∧
      (∀ (supply : Option Nat) (n : Nat),
        doWithdrawAll true (some shares) supply = WithdrawAction.submitted n →
          n = shares ∧ n ≤ maxShares supply) := by
  have hmax := maxShares_small totalSupply h
  have hdo : doWithdrawAll true (some shares) (some totalSupply) =
      (if shares = 0 ∨ totalSupply * 25 / 100 < shares then WithdrawAction.rejected
       else WithdrawAction.submitted shares) := by
    unfold doWithdrawAll
    simp only [Bool.not_true, Bool.false_eq_true, if_false, Option.getD_some]
    rw [hmax]
    by_cases h0 : shares = 0
    · simp [h0]
    · by_cases h1 : totalSupply * 25 / 100 < shares
      · simp [h0, h1]
      · simp [h0, h1]
  refine ⟨hmax, hdo, ?_, ?_, ?_, ?_⟩
  · intro n hn
    rw [hdo] at hn
    by_cases hc : shares = 0 ∨ totalSupply * 25 / 100 < shares
    · rw [if_pos hc] at hn
      cases hn
    · rw [if_neg hc] at hn
      injection hn with hn
      refine ⟨hn.symm, ?_⟩
      rw [← hn]
      by_contra hlt
      exact hc (Or.inr (by omega))
  · simp [doWithdrawAll]
  · simp [doWithdrawAll]
  · intro supply n hn
    unfold doWithdrawAll at hn
    simp only [Bool.not_true, Bool.false_eq_true, if_false, Option.getD_some] at hn
    by_cases h0 : shares = 0
    · rw [if_pos h0] at hn
      cases hn
    · rw [if_neg h0] at hn
      by_cases h1 : shares > maxShares supply
      · rw [if_pos h1] at hn
        cases hn
      · rw [if_neg h1] at hn
        injection hn with hn
        refine ⟨hn.symm, ?_⟩
        rw [← hn]
        omega

/-- An instance of `doWithdrawAll_limit`: 250 and 251 shares against a supply of
1000. -/
theorem doWithdrawAll_limit_example :
    (1000 * 25 < 2 ^ 53) ∧
      maxShares (some 1000) = 1000 * 25 / 100 ∧
      doWithdrawAll true (some 250) (some 1000) =
        (if 250 = 0 ∨ 1000 * 25 / 100 < 250 then WithdrawAction.rejected
         else WithdrawAction.submitted 250) ∧
      (∀ n, doWithdrawAll true (some 250) (some 1000) = WithdrawAction.submitted n →
        n = 250 ∧ n ≤ 1000 * 25 / 100) ∧
      doWithdrawAll true none (some 1000) = WithdrawAction.rejected ∧
      doWithdrawAll false (some 250) (some 1000) = WithdrawAction.rejected ∧
      (∀ (supply : Option Nat) (n : Nat),
        doWithdrawAll true (some 250) supply = WithdrawAction.submitted n →
          n = 250 ∧ n ≤ maxShares supply) :=
  ⟨by decide, doWithdrawAll_limit 250 1000 (by decide)⟩

/-! ## Formatting and parsing amounts: theorems -/

/-- The character of a digit is a digit, and its value is the digit. -/
theorem digitChar_spec (d : Nat) :
    (digitChar d).isDigit = true ∧ (digitChar d).toNat - 48 = d % 10 := by
  have hlt : d % 10 < 10 := Nat.mod_lt _ (by decide)
  have hall : ∀ k, k < 10 → (digitChar k).isDigit = true ∧ (digitChar k).toNat - 48 = k := by
    decide
  have hmod : digitChar d = digitChar (d % 10) := by
    unfold digitChar
    rw [Nat.mod_mod]
  rw [hmod]
  exact hall _ hlt

/-- Reading digits from a start value shifts the start value by their number. -/
theorem digitsValue_foldl (acc : Nat) (l : List Char) :
    l.foldl (fun acc c => acc * 10 + (c.toNat - 48)) acc = acc * 10 ^ l.length + digitsValue l := by
  induction l generalizing acc with
  | nil => simp [digitsValue]
  | cons c cs ih =>
    unfold digitsValue
    rw [List.foldl_cons, List.foldl_cons, ih, ih (0 * 10 + (c.toNat - 48))]
    rw [List.length_cons, pow_succ]
    ring

/-- The value of digits put after other digits. -/
theorem digitsValue_append (a b : List Char) :
    digitsValue (a ++ b) = digitsValue a * 10 ^ b.length + digitsValue b := by
  conv_lhs => unfold digitsValue
  rw [List.foldl_append, digitsValue_foldl]
  rfl

/-- The digits that `decimalDigitsAux` puts in front of `acc` are the decimal
digits of `n`. -/
theorem decimalDigitsAux_spec (fuel n : Nat) (acc : List Char) (h : n < fuel) :
    ∃ ds : List Char, decimalDigitsAux fuel n acc = ds ++ acc ∧ ds ≠ [] ∧
      (∀ c ∈ ds, c.isDigit = true) ∧ digitsValue ds = n := by
  induction fuel generalizing n acc with
  | zero => omega
  | succ fuel ih =>
    unfold decimalDigitsAux
    split_ifs with h10
    · refine ⟨[digitChar n], rfl, by simp, ?_, ?_⟩
      · intro c hc
        rw [List.mem_singleton] at hc
        rw [hc]
        exact (digitChar_spec n).1
      · have hv := (digitChar_spec n).2
        rw [Nat.mod_eq_of_lt h10] at hv
        simp only [digitsValue, List.foldl_cons, List.foldl_nil]
        omega
    · have hlt : n / 10 < fuel := by omega
      obtain ⟨ds, h1, _, h3, h4⟩ := ih (n / 10) (digitChar (n % 10) :: acc) hlt
      refine ⟨ds ++ [digitChar (n % 10)], ?_, by simp, ?_, ?_⟩
      · rw [h1]
        simp
      · intro c hc
        rcases List.mem_append.mp hc with hc | hc
        · exact h3 c hc
        · rw [List.mem_singleton] at hc
          rw [hc]
          exact (digitChar_spec _).1
      · have hv := (digitChar_spec (n % 10)).2
        rw [Nat.mod_mod] at hv
        rw [digitsValue_append, h4]
        simp only [digitsValue, List.foldl_cons, List.foldl_nil, List.length_singleton, pow_one]
        omega

/-- The string of a non-negative BigInt is a non-empty string of digits with
that value. -/
theorem decimalDigits_spec (n : Nat) :
    decimalDigits n ≠ [] ∧ (∀ c ∈ decimalDigits n, c.isDigit = true) ∧
      digitsValue (decimalDigits n) = n := by
  obtain ⟨ds, h1, h2, h3, h4⟩ := decimalDigitsAux_spec (n + 1) n [] (by omega)
  unfold decimalDigits
  rw [h1, List.append_nil]
  exact ⟨h2, h3, h4⟩

/-- What `parseUnits` reads from the string that `formatUnits` builds from a
sign and padded digits: the value of the digits, with the sign. -/
theorem parseUnits_formatted (negative : Bool) (padded : List Char) (decimals : Nat)
    (hdig : ∀ c ∈ padded, c.isDigit = true) (hlen : decimals ≤ padded.length) :
    parseUnits
        (String.mk ((if negative = true then ['-'] else []) ++
          (if padded.take (padded.length - decimals) = [] then ['0']
           else padded.take (padded.length - decimals)) ++
          (if trimTrailingZeros (padded.drop (padded.length - decimals)) = [] then []
           else '.' :: trimTrailingZeros (padded.drop (padded.length - decimals)))))
        decimals =
      some (if negative = true then -((digitsValue padded : Nat) : Int)
        else ((digitsValue padded : Nat) : Int)) := by
  have hsplit : padded =
      padded.take (padded.length - decimals) ++ padded.drop (padded.length - decimals) :=
    (List.take_append_drop _ _).symm
  have hidig : ∀ c ∈ padded.take (padded.length - decimals), c.isDigit = true :=
    fun c hc => hdig c (List.mem_of_mem_take hc)
  have hfdig : ∀ c ∈ padded.drop (padded.length - decimals), c.isDigit = true :=
    fun c hc => hdig c (List.mem_of_mem_drop hc)
  have hflen : (padded.drop (padded.length - decimals)).length = decimals := by
    rw [List.length_drop]
    omega
  have hpval : digitsValue padded =
      digitsValue (padded.take (padded.length - decimals)) * 10 ^ decimals +
        digitsValue (padded.drop (padded.length - decimals)) := by
    conv_lhs => rw [hsplit]
    rw [digitsValue_append, hflen]
  rw [hpval]
  generalize padded.take (padded.length - decimals) = integer at hidig ⊢
  generalize padded.drop (padded.length - decimals) = fractionRaw at hfdig hflen ⊢
  obtain ⟨k, hk⟩ := trimTrailingZeros_spec fractionRaw
  have hfval : digitsValue fractionRaw =
      digitsValue (trimTrailingZeros fractionRaw) * 10 ^ k := by
    conv_lhs => rw [hk]
    exact digitsValue_append_zeros _ k
  have hklen : (trimTrailingZeros fractionRaw).length + k = decimals := by
    have := congrArg List.length hk
    rw [List.length_append, List.length_replicate] at this
    omega
  have htdig : ∀ c ∈ trimTrailingZeros fractionRaw, c.isDigit = true := by
    intro c hc
    apply hfdig
    rw [hk]
    exact List.mem_append_left _ hc
  rw [hfval]
  generalize trimTrailingZeros fractionRaw = trim at hklen htdig ⊢
  have hi' : ∃ integer' : List Char, (if integer = [] then ['0'] else integer) = integer' ∧
      integer' ≠ [] ∧ (∀ c ∈ integer', c.isDigit = true) ∧
      digitsValue integer' = digitsValue integer := by
    by_cases hi : integer = []
    · refine ⟨['0'], by rw [if_pos hi], by simp, ?_, ?_⟩
      · intro c hc
        rw [List.mem_singleton] at hc
        rw [hc]
        decide
      · rw [hi]
        decide
    · exact ⟨integer, by rw [if_neg hi], hi, hidig, rfl⟩
  obtain ⟨integer', hint, hne, hi'dig, hi'val⟩ := hi'
  rw [hint, ← hi'val]
  by_cases ht : trim = []
  · subst ht
    have hstr : String.mk ((if negative = true then ['-'] else []) ++ integer' ++
        (if ([] : List Char) = [] then [] else '.' :: [])) = integerString negative integer' := by
      simp [integerString]
    rw [hstr]
    have hm := matchDecimal_integerString negative integer' hi'dig
    have hz : digitsValue ([] : List Char) = 0 := rfl
    have hz0 : digitsValue ['0'] = 0 := by decide
    rcases Nat.eq_zero_or_pos decimals with hd | hd
    · subst hd
      have ht0 : trimTrailingZeros ['0'] = [] := by decide
      unfold parseUnits
      rw [hm]
      simp only [ht0, roundsUp, if_true, hne, and_false, false_and, if_false, hz,
        Bool.false_eq_true, Nat.add_zero, Nat.zero_mul, pow_zero, Nat.mul_one]
    · have hp := parseUnits_of_match (integerString negative integer') decimals
        { negative := negative, integer := integer', fraction := ['0'] } hm hd
        (by simpa using hd)
      rw [hp]
      simp only [hz, hz0, Nat.zero_mul, Nat.add_zero]
  · have hstr : String.mk ((if negative = true then ['-'] else []) ++ integer' ++
        (if trim = [] then [] else '.' :: trim)) = decimalString negative integer' trim := by
      simp [decimalString, ht]
    rw [hstr]
    have hm := matchDecimal_decimalString negative integer' trim hi'dig htdig
    have hd : 0 < decimals := by
      cases trim with
      | nil => exact absurd rfl ht
      | cons c cs =>
        simp only [List.length_cons] at hklen
        omega
    have hp := parseUnits_of_match (decimalString negative integer' trim) decimals
      { negative := negative, integer := integer', fraction := trim } hm hd
      (by simp only; omega)
    rw [hp]
    have hk' : decimals - trim.length = k := by omega
    simp only [hk']

/-- The string of `formatUnits` parses back to the amount. -/
theorem parseUnits_formatUnits (value : Int) (decimals : Nat) :
    parseUnits (formatUnits value decimals) decimals = some value := by
  obtain ⟨_, hdig, hval⟩ := decimalDigits_spec value.natAbs
  have hpdig : ∀ c ∈ List.replicate (decimals - (decimalDigits value.natAbs).length) '0' ++
      decimalDigits value.natAbs, c.isDigit = true := by
    intro c hc
    rcases List.mem_append.mp hc with hc | hc
    · rw [List.mem_replicate] at hc
      rw [hc.2]
      decide
    · exact hdig c hc
  have hplen : decimals ≤ (List.replicate (decimals - (decimalDigits value.natAbs).length) '0' ++
      decimalDigits value.natAbs).length := by
    rw [List.length_append, List.length_replicate]
    omega
  have hpval : digitsValue (List.replicate (decimals - (decimalDigits value.natAbs).length) '0' ++
      decimalDigits value.natAbs) = value.natAbs := by
    rw [digitsValue_append, hval]
    have h0 := digitsValue_append_zeros []
      (decimals - (decimalDigits value.natAbs).length)
    rw [List.nil_append] at h0
    rw [h0]
    simp [digitsValue]
  have hp := parseUnits_formatted (decide (value < 0)) _ decimals hpdig hplen
  rw [hpval] at hp
  simp only [decide_eq_true_eq] at hp
  unfold formatUnits
  simp only
  rw [hp]
  congr 1
  split_ifs with hneg
  · omega
  · omega

/-- C29: the amount formatters and parsers round-trip: for every integer
amount `a`, negative included, `parseBTC(formatBTC(a)) = a`,
`parseUSD(formatUSD(a)) = a`, and
`parseTokenAmount(formatTokenAmount(a, d), d) = a` for every number of decimals
`d`, zero included. -/
theorem format_parse_roundtrip (a : Int) :
    parseBTC (formatBTC a) = some a ∧
      parseUSD (formatUSD a) = some a ∧
      ∀ d : Nat, parseTokenAmount (formatTokenAmount a d) d = some a := by
  refine ⟨?_, ?_, ?_⟩
  · unfold parseBTC formatBTC
    exact parseUnits_formatUnits a 8
  · unfold parseUSD formatUSD
    exact parseUnits_formatUnits a 6
  · intro d
    unfold parseTokenAmount formatTokenAmount
    exact parseUnits_formatUnits a d

end Lava
